import Mathlib

/-!
Verification of the `expandSafeReads` compiler phase
(`packages/compiler/src/template/pipeline/src/phases/expand_safe_reads.ts`).

The phase rewrites safe read expressions (`a?.b`, `a?.[k]`, `f?.()`) into
null-guarded `safe-ternary` nodes (first sweep, `safeTransform`), and then
lowers every `safe-ternary` into a plain conditional (second sweep,
`ternaryTransform`).  Temporary variables are introduced where re-evaluating
a guard would duplicate effects, and duplicated temporary assignments are
deduplicated (with a legacy-compatibility quirk).

The expression tree is a deep embedding of the output-AST / IR expression
kinds that the phase touches.  The generic tree visitor
(`ir.transformExpressionsInExpression` / `ir.transformExpressionsInOp`) is an
external collaborator of the phase (spec sections 2 and 6); it is modelled
here as a post-order rewrite (children first, then the node itself), with the
in-place child mutation of the original rendered as functional
reconstruction.
-/

namespace ExpandSafeReads

/-- Literal values carried by `o.LiteralExpr`; `nullValue` is the payload of
`o.NULL_EXPR`. -/
inductive LiteralValue : Type where
  | nullValue : LiteralValue
  | intValue (n : Int) : LiteralValue
  | strValue (s : String) : LiteralValue
deriving DecidableEq, Repr

/-- Unary operators of `o.UnaryOperatorExpr` (payload only; the phase never
inspects the operator). -/
inductive UnaryOperator : Type where
  | minus : UnaryOperator
  | plus : UnaryOperator
deriving DecidableEq, Repr

/-- Binary operators of `o.BinaryOperatorExpr`.  `equals` is
`o.BinaryOperator.Equals`, the operator used by `ternaryTransform` for the
null check; the others are representative payloads. -/
inductive BinaryOperator : Type where
  | equals : BinaryOperator
  | notEquals : BinaryOperator
  | plus : BinaryOperator
deriving DecidableEq, Repr

mutual
/-- The expression node kinds read and written by the phase, as a closed sum:
`literal` (`o.LiteralExpr`), `readVar` (a bare reference, `o.ReadVarExpr`),
`unary` (`o.UnaryOperatorExpr`), `binary` (`o.BinaryOperatorExpr`),
`conditional` (`o.ConditionalExpr`, with optional false case), `notExpr`
(`o.NotExpr`), `literalArray` (`o.LiteralArrayExpr`), `literalMap`
(`o.LiteralMapExpr`, keys and values in parallel lists), `readProp`
(`o.ReadPropExpr`), `readKey` (`o.ReadKeyExpr`), `invokeFn`
(`o.InvokeFunctionExpr`), `safePropertyRead` (`ir.SafePropertyReadExpr`),
`safeKeyedRead` (`ir.SafeKeyedReadExpr`), `safeInvokeFn`
(`ir.SafeInvokeFunctionExpr`), `pipeBinding` (`ir.PipeBindingExpr`),
`assignTemporary` (`ir.AssignTemporaryExpr`), `readTemporary`
(`ir.ReadTemporaryExpr`), and `safeTernary` (`ir.SafeTernaryExpr`, whose
second field is named `expr` in the source). -/
inductive Expr : Type where
  | literal (value : LiteralValue) : Expr
  | readVar (name : String) : Expr
  | unary (op : UnaryOperator) (expr : Expr) : Expr
  | binary (op : BinaryOperator) (lhs : Expr) (rhs : Expr) : Expr
  | conditional (condition : Expr) (trueCase : Expr) (falseCase : OptExpr) : Expr
  | notExpr (condition : Expr) : Expr
  | literalArray (entries : ExprList) : Expr
  | literalMap (keys : List String) (values : ExprList) : Expr
  | readProp (receiver : Expr) (name : String) : Expr
  | readKey (receiver : Expr) (index : Expr) : Expr
  | invokeFn (receiver : Expr) (args : ExprList) : Expr
  | safePropertyRead (receiver : Expr) (name : String) : Expr
  | safeKeyedRead (receiver : Expr) (index : Expr) : Expr
  | safeInvokeFn (receiver : Expr) (args : ExprList) : Expr
  | pipeBinding (name : String) (args : ExprList) : Expr
  | assignTemporary (expr : Expr) (xref : Nat) : Expr
  | readTemporary (xref : Nat) : Expr
  | safeTernary (guard : Expr) (expr : Expr) : Expr

/-- An optional expression (the nullable `falseCase` of `o.ConditionalExpr`). -/
inductive OptExpr : Type where
  | none : OptExpr
  | some (expr : Expr) : OptExpr

/-- A list of expressions (call arguments, array entries, map values). -/
inductive ExprList : Type where
  | nil : ExprList
  | cons (head : Expr) (tail : ExprList) : ExprList
end

/-- The `o.NULL_EXPR` constant. -/
def NULL_EXPR : Expr := Expr.literal LiteralValue.nullValue

/-- The compatibility mode carried by the compilation job
(`ir.CompatibilityMode`): `templateDefinitionBuilder` is the legacy mode, the
other value is the standard mode. -/
inductive CompatibilityMode : Type where
  | normal : CompatibilityMode
  | templateDefinitionBuilder : CompatibilityMode
deriving DecidableEq, Repr

/-- The slice of `CompilationJob` the phase consumes: the compatibility flag
and the monotone fresh-id allocator (`allocateXrefId`), rendered as an
explicit counter. -/
structure CompilationJob : Type where
  compatibility : CompatibilityMode
  nextXrefId : Nat
deriving DecidableEq, Repr

/-- `job.allocateXrefId()`: returns a fresh id and the advanced allocator. -/
def CompilationJob.allocateXrefId (job : CompilationJob) : Nat × CompilationJob :=
  (job.nextXrefId, { job with nextXrefId := job.nextXrefId + 1 })

/-- The `SafeTransformContext` of the source: just the job. -/
structure SafeTransformContext : Type where
  job : CompilationJob
deriving DecidableEq, Repr

/-- `needsTemporaryInSafeAccess`: whether the expression is, or structurally
contains (through the listed paths), one of the expression kinds of the
`requiresTemporary` lookup set (`o.InvokeFunctionExpr`, `o.LiteralArrayExpr`,
`o.LiteralMapExpr`, `ir.SafeInvokeFunctionExpr`, `ir.PipeBindingExpr`).
Direct port of the chain of `instanceof` tests; every unlisted kind falls
through to the final membership test. -/
def needsTemporaryInSafeAccess : Expr → Bool
  | Expr.unary _ e => needsTemporaryInSafeAccess e
  | Expr.binary _ lhs rhs =>
      needsTemporaryInSafeAccess lhs || needsTemporaryInSafeAccess rhs
  | Expr.conditional condition trueCase falseCase =>
      (match falseCase with
        | OptExpr.some f => needsTemporaryInSafeAccess f
        | OptExpr.none => false) ||
      (needsTemporaryInSafeAccess condition || needsTemporaryInSafeAccess trueCase)
  | Expr.notExpr condition => needsTemporaryInSafeAccess condition
  | Expr.assignTemporary e _ => needsTemporaryInSafeAccess e
  | Expr.readProp receiver _ => needsTemporaryInSafeAccess receiver
  | Expr.readKey receiver index =>
      needsTemporaryInSafeAccess receiver || needsTemporaryInSafeAccess index
  | Expr.invokeFn _ _ => true
  | Expr.literalArray _ => true
  | Expr.literalMap _ _ => true
  | Expr.safeInvokeFn _ _ => true
  | Expr.pipeBinding _ _ => true
  | _ => false

mutual
/-- Modelled from the spec: the generic expression-rewrite operation
(`ir.transformExpressionsInExpression`, spec sections 2 and 6) applied with a
pure per-node transform.  It rewrites children first (assigning the rewritten
children in place in the original) and then applies the transform to the node
itself. -/
def transformExpr (f : Expr → Expr) : Expr → Expr
  | Expr.literal v => f (Expr.literal v)
  | Expr.readVar n => f (Expr.readVar n)
  | Expr.unary op e => f (Expr.unary op (transformExpr f e))
  | Expr.binary op lhs rhs => f (Expr.binary op (transformExpr f lhs) (transformExpr f rhs))
  | Expr.conditional c t fc =>
      f (Expr.conditional (transformExpr f c) (transformExpr f t) (transformOptExpr f fc))
  | Expr.notExpr c => f (Expr.notExpr (transformExpr f c))
  | Expr.literalArray es => f (Expr.literalArray (transformExprList f es))
  | Expr.literalMap ks vs => f (Expr.literalMap ks (transformExprList f vs))
  | Expr.readProp r n => f (Expr.readProp (transformExpr f r) n)
  | Expr.readKey r i => f (Expr.readKey (transformExpr f r) (transformExpr f i))
  | Expr.invokeFn r as => f (Expr.invokeFn (transformExpr f r) (transformExprList f as))
  | Expr.safePropertyRead r n => f (Expr.safePropertyRead (transformExpr f r) n)
  | Expr.safeKeyedRead r i => f (Expr.safeKeyedRead (transformExpr f r) (transformExpr f i))
  | Expr.safeInvokeFn r as => f (Expr.safeInvokeFn (transformExpr f r) (transformExprList f as))
  | Expr.pipeBinding n as => f (Expr.pipeBinding n (transformExprList f as))
  | Expr.assignTemporary e x => f (Expr.assignTemporary (transformExpr f e) x)
  | Expr.readTemporary x => f (Expr.readTemporary x)
  | Expr.safeTernary g b => f (Expr.safeTernary (transformExpr f g) (transformExpr f b))

/-- Modelled from the spec: the rewrite of an optional child expression. -/
def transformOptExpr (f : Expr → Expr) : OptExpr → OptExpr
  | OptExpr.none => OptExpr.none
  | OptExpr.some e => OptExpr.some (transformExpr f e)

/-- Modelled from the spec: the rewrite of a list of child expressions. -/
def transformExprList (f : Expr → Expr) : ExprList → ExprList
  | ExprList.nil => ExprList.nil
  | ExprList.cons e es => ExprList.cons (transformExpr f e) (transformExprList f es)
end

/-- Modelled from the spec: the in-place part of the visitor.  The visitor
mutates every child of the node it is given (replacing each child by its full
rewrite) and hands the rewritten root to the transform only through its
return value; a caller that ignores the return value observes exactly this
function. -/
def transformChildren (f : Expr → Expr) : Expr → Expr
  | Expr.literal v => Expr.literal v
  | Expr.readVar n => Expr.readVar n
  | Expr.unary op e => Expr.unary op (transformExpr f e)
  | Expr.binary op lhs rhs => Expr.binary op (transformExpr f lhs) (transformExpr f rhs)
  | Expr.conditional c t fc =>
      Expr.conditional (transformExpr f c) (transformExpr f t) (transformOptExpr f fc)
  | Expr.notExpr c => Expr.notExpr (transformExpr f c)
  | Expr.literalArray es => Expr.literalArray (transformExprList f es)
  | Expr.literalMap ks vs => Expr.literalMap ks (transformExprList f vs)
  | Expr.readProp r n => Expr.readProp (transformExpr f r) n
  | Expr.readKey r i => Expr.readKey (transformExpr f r) (transformExpr f i)
  | Expr.invokeFn r as => Expr.invokeFn (transformExpr f r) (transformExprList f as)
  | Expr.safePropertyRead r n => Expr.safePropertyRead (transformExpr f r) n
  | Expr.safeKeyedRead r i => Expr.safeKeyedRead (transformExpr f r) (transformExpr f i)
  | Expr.safeInvokeFn r as => Expr.safeInvokeFn (transformExpr f r) (transformExprList f as)
  | Expr.pipeBinding n as => Expr.pipeBinding n (transformExprList f as)
  | Expr.assignTemporary e x => Expr.assignTemporary (transformExpr f e) x
  | Expr.readTemporary x => Expr.readTemporary x
  | Expr.safeTernary g b => Expr.safeTernary (transformExpr f g) (transformExpr f b)

mutual
/-- `temporariesIn`: the set of xref ids of every `ir.AssignTemporaryExpr`
node in the tree, collected by the visitor's sweep (set membership is all
that is consumed, so a list suffices). -/
def temporariesIn : Expr → List Nat
  | Expr.literal _ => []
  | Expr.readVar _ => []
  | Expr.unary _ e => temporariesIn e
  | Expr.binary _ lhs rhs => temporariesIn lhs ++ temporariesIn rhs
  | Expr.conditional c t fc => temporariesIn c ++ temporariesIn t ++ temporariesInOpt fc
  | Expr.notExpr c => temporariesIn c
  | Expr.literalArray es => temporariesInList es
  | Expr.literalMap _ vs => temporariesInList vs
  | Expr.readProp r _ => temporariesIn r
  | Expr.readKey r i => temporariesIn r ++ temporariesIn i
  | Expr.invokeFn r as => temporariesIn r ++ temporariesInList as
  | Expr.safePropertyRead r _ => temporariesIn r
  | Expr.safeKeyedRead r i => temporariesIn r ++ temporariesIn i
  | Expr.safeInvokeFn r as => temporariesIn r ++ temporariesInList as
  | Expr.pipeBinding _ as => temporariesInList as
  | Expr.assignTemporary e x => x :: temporariesIn e
  | Expr.readTemporary _ => []
  | Expr.safeTernary g b => temporariesIn g ++ temporariesIn b

/-- Assigned temporary ids inside an optional expression. -/
def temporariesInOpt : OptExpr → List Nat
  | OptExpr.none => []
  | OptExpr.some e => temporariesIn e

/-- Assigned temporary ids inside a list of expressions. -/
def temporariesInList : ExprList → List Nat
  | ExprList.nil => []
  | ExprList.cons e es => temporariesIn e ++ temporariesInList es
end

/-- The per-node closure of `eliminateTemporaryAssignments`: an
`ir.AssignTemporaryExpr` whose id is in `tmps` becomes a
`ir.ReadTemporaryExpr` of the same id, except that in
`CompatibilityMode.TemplateDefinitionBuilder` it becomes the self-assignment
`assign-temporary(read-temporary(id), id)`; every other node is returned
unchanged. -/
def eliminateOne (tmps : List Nat) (mode : CompatibilityMode) (e : Expr) : Expr :=
  match e with
  | Expr.assignTemporary inner x =>
      if x ∈ tmps then
        match mode with
        | CompatibilityMode.templateDefinitionBuilder =>
            Expr.assignTemporary (Expr.readTemporary x) x
        | CompatibilityMode.normal => Expr.readTemporary x
      else Expr.assignTemporary inner x
  | e => e

/-- `eliminateTemporaryAssignments`: runs the visitor over `e` with the
`eliminateOne` closure and returns `e` itself (the source ignores the
visitor's return value and ends with `return e`), so the rewrite reaches
every node below the root but never replaces the root itself. -/
def eliminateTemporaryAssignments (e : Expr) (tmps : List Nat)
    (ctx : SafeTransformContext) : Expr :=
  transformChildren (eliminateOne tmps ctx.job.compatibility) e

/-- `safeTernaryWithTemporary`: builds a safe ternary guarded by `guard` with
a body generated by `body`.  If the guard needs a temporary, a fresh id is
allocated, the guard becomes the assignment of the guard to the temporary and
the body is built over a read of the temporary; otherwise the guard is used
directly, and the body is built over a structural copy of the guard
(`guard.clone()`, the value itself here) run through temporary
deduplication. -/
def safeTernaryWithTemporary (guard : Expr) (body : Expr → Expr)
    (ctx : SafeTransformContext) : Expr × SafeTransformContext :=
  if needsTemporaryInSafeAccess guard then
    let alloc := ctx.job.allocateXrefId
    (Expr.safeTernary (Expr.assignTemporary guard alloc.1)
        (body (Expr.readTemporary alloc.1)),
      { job := alloc.2 })
  else
    (Expr.safeTernary guard
        (body (eliminateTemporaryAssignments guard (temporariesIn guard) ctx)),
      ctx)

/-- `isSafeAccessExpression`. -/
def isSafeAccessExpression : Expr → Bool
  | Expr.safePropertyRead _ _ => true
  | Expr.safeKeyedRead _ _ => true
  | Expr.safeInvokeFn _ _ => true
  | _ => false

/-- `isUnsafeAccessExpression`. -/
def isUnsafeAccessExpression : Expr → Bool
  | Expr.readProp _ _ => true
  | Expr.readKey _ _ => true
  | Expr.invokeFn _ _ => true
  | _ => false

/-- `isAccessExpression`. -/
def isAccessExpression (e : Expr) : Bool :=
  isSafeAccessExpression e || isUnsafeAccessExpression e

/-- Whether an expression is an `ir.SafeTernaryExpr`. -/
def isSafeTernary : Expr → Bool
  | Expr.safeTernary _ _ => true
  | _ => false

/-- The receiver of an access expression, when there is one. -/
def accessReceiver : Expr → OptExpr
  | Expr.readProp r _ => OptExpr.some r
  | Expr.readKey r _ => OptExpr.some r
  | Expr.invokeFn r _ => OptExpr.some r
  | Expr.safePropertyRead r _ => OptExpr.some r
  | Expr.safeKeyedRead r _ => OptExpr.some r
  | Expr.safeInvokeFn r _ => OptExpr.some r
  | _ => OptExpr.none

/-- `deepestSafeTernary` returns a non-null result exactly when the visited
node is an access expression whose receiver is a safe ternary; this predicate
captures that condition (`dst !== null`). -/
def hasDeepestSafeTernary (e : Expr) : Bool :=
  isAccessExpression e &&
    (match accessReceiver e with
      | OptExpr.some r => isSafeTernary r
      | OptExpr.none => false)

/-- The walk of `deepestSafeTernary` combined with the in-place update
`dst.expr := f dst.expr` of `safeTransform`: starting from the safe-ternary
receiver, descend while the body is itself a safe ternary, then replace the
deepest body.  On a non-safe-ternary input this returns the input (that case
is unreachable at the call sites). -/
def updateDeepest (st : Expr) (f : Expr → Expr) : Expr :=
  match st with
  | Expr.safeTernary g b =>
      if isSafeTernary b then Expr.safeTernary g (updateDeepest b f)
      else Expr.safeTernary g (f b)
  | e => e

/-- As `updateDeepest`, for a body-updating function that also threads the
transform context (the safe-access cases, which may allocate an id). -/
def updateDeepestM (st : Expr)
    (f : Expr → SafeTransformContext → Expr × SafeTransformContext)
    (ctx : SafeTransformContext) : Expr × SafeTransformContext :=
  match st with
  | Expr.safeTernary g b =>
      if isSafeTernary b then
        let r := updateDeepestM b f ctx
        (Expr.safeTernary g r.1, r.2)
      else
        let r := f b ctx
        (Expr.safeTernary g r.1, r.2)
  | e => (e, ctx)

/-- `safeTransform`: the per-node transform of the first sweep.  For an
access expression whose receiver is a safe-ternary chain (`dst` found), a
plain access is folded onto the deepest open body and the node is replaced by
its (updated) receiver, while a safe access nests a fresh guarded ternary
onto the deepest body; without `dst`, a safe access becomes a fresh top-level
guarded ternary and everything else is left unchanged. -/
def safeTransform (e : Expr) (ctx : SafeTransformContext) :
    Expr × SafeTransformContext :=
  if isAccessExpression e = false then (e, ctx)
  else if hasDeepestSafeTernary e then
    match e with
    | Expr.invokeFn r args => (updateDeepest r (fun b => Expr.invokeFn b args), ctx)
    | Expr.readProp r name => (updateDeepest r (fun b => Expr.readProp b name), ctx)
    | Expr.readKey r index => (updateDeepest r (fun b => Expr.readKey b index), ctx)
    | Expr.safeInvokeFn r args =>
        updateDeepestM r
          (fun b c => safeTernaryWithTemporary b (fun x => Expr.invokeFn x args) c) ctx
    | Expr.safePropertyRead r name =>
        updateDeepestM r
          (fun b c => safeTernaryWithTemporary b (fun x => Expr.readProp x name) c) ctx
    | Expr.safeKeyedRead r index =>
        updateDeepestM r
          (fun b c => safeTernaryWithTemporary b (fun x => Expr.readKey x index) c) ctx
    | e => (e, ctx)
  else
    match e with
    | Expr.safeInvokeFn r args =>
        safeTernaryWithTemporary r (fun x => Expr.invokeFn x args) ctx
    | Expr.safePropertyRead r name =>
        safeTernaryWithTemporary r (fun x => Expr.readProp x name) ctx
    | Expr.safeKeyedRead r index =>
        safeTernaryWithTemporary r (fun x => Expr.readKey x index) ctx
    | e => (e, ctx)

/-- `ternaryTransform`: the per-node transform of the second sweep; a
`safe-ternary(guard, body)` becomes
`conditional(guard == null, null, body)`, everything else is unchanged. -/
def ternaryTransform : Expr → Expr
  | Expr.safeTernary g b =>
      Expr.conditional (Expr.binary BinaryOperator.equals g NULL_EXPR) NULL_EXPR
        (OptExpr.some b)
  | e => e

mutual
/-- Modelled from the spec: the visitor of the first sweep, threading the
transform context (the job's id allocator) through a post-order rewrite,
children left to right and then the node itself. -/
def transformExprM (f : Expr → SafeTransformContext → Expr × SafeTransformContext) :
    Expr → SafeTransformContext → Expr × SafeTransformContext
  | Expr.literal v, c => f (Expr.literal v) c
  | Expr.readVar n, c => f (Expr.readVar n) c
  | Expr.unary op e, c =>
      let r := transformExprM f e c
      f (Expr.unary op r.1) r.2
  | Expr.binary op lhs rhs, c =>
      let r1 := transformExprM f lhs c
      let r2 := transformExprM f rhs r1.2
      f (Expr.binary op r1.1 r2.1) r2.2
  | Expr.conditional cond t fc, c =>
      let r1 := transformExprM f cond c
      let r2 := transformExprM f t r1.2
      let r3 := transformOptExprM f fc r2.2
      f (Expr.conditional r1.1 r2.1 r3.1) r3.2
  | Expr.notExpr cond, c =>
      let r := transformExprM f cond c
      f (Expr.notExpr r.1) r.2
  | Expr.literalArray es, c =>
      let r := transformExprListM f es c
      f (Expr.literalArray r.1) r.2
  | Expr.literalMap ks vs, c =>
      let r := transformExprListM f vs c
      f (Expr.literalMap ks r.1) r.2
  | Expr.readProp rcv n, c =>
      let r := transformExprM f rcv c
      f (Expr.readProp r.1 n) r.2
  | Expr.readKey rcv i, c =>
      let r1 := transformExprM f rcv c
      let r2 := transformExprM f i r1.2
      f (Expr.readKey r1.1 r2.1) r2.2
  | Expr.invokeFn rcv as, c =>
      let r1 := transformExprM f rcv c
      let r2 := transformExprListM f as r1.2
      f (Expr.invokeFn r1.1 r2.1) r2.2
  | Expr.safePropertyRead rcv n, c =>
      let r := transformExprM f rcv c
      f (Expr.safePropertyRead r.1 n) r.2
  | Expr.safeKeyedRead rcv i, c =>
      let r1 := transformExprM f rcv c
      let r2 := transformExprM f i r1.2
      f (Expr.safeKeyedRead r1.1 r2.1) r2.2
  | Expr.safeInvokeFn rcv as, c =>
      let r1 := transformExprM f rcv c
      let r2 := transformExprListM f as r1.2
      f (Expr.safeInvokeFn r1.1 r2.1) r2.2
  | Expr.pipeBinding n as, c =>
      let r := transformExprListM f as c
      f (Expr.pipeBinding n r.1) r.2
  | Expr.assignTemporary e x, c =>
      let r := transformExprM f e c
      f (Expr.assignTemporary r.1 x) r.2
  | Expr.readTemporary x, c => f (Expr.readTemporary x) c
  | Expr.safeTernary g b, c =>
      let r1 := transformExprM f g c
      let r2 := transformExprM f b r1.2
      f (Expr.safeTernary r1.1 r2.1) r2.2

/-- Modelled from the spec: context-threading rewrite of an optional child. -/
def transformOptExprM (f : Expr → SafeTransformContext → Expr × SafeTransformContext) :
    OptExpr → SafeTransformContext → OptExpr × SafeTransformContext
  | OptExpr.none, c => (OptExpr.none, c)
  | OptExpr.some e, c =>
      let r := transformExprM f e c
      (OptExpr.some r.1, r.2)

/-- Modelled from the spec: context-threading rewrite of a child list. -/
def transformExprListM (f : Expr → SafeTransformContext → Expr × SafeTransformContext) :
    ExprList → SafeTransformContext → ExprList × SafeTransformContext
  | ExprList.nil, c => (ExprList.nil, c)
  | ExprList.cons e es, c =>
      let r1 := transformExprM f e c
      let r2 := transformExprListM f es r1.2
      (ExprList.cons r1.1 r2.1, r2.2)
end

/-- `expandSafeReads`, restricted to one expression of one instruction: the
`safeTransform` sweep followed by the `ternaryTransform` sweep (the phase
runs exactly this pair over every expression of every instruction of every
compilation unit). -/
def expandSafeReadsExpr (e : Expr) (ctx : SafeTransformContext) :
    Expr × SafeTransformContext :=
  let r := transformExprM safeTransform e ctx
  (transformExpr ternaryTransform r.1, r.2)

deriving instance DecidableEq for Expr

/-- A context in standard compatibility mode, with next fresh id `n`. -/
def stdCtx (n : Nat) : SafeTransformContext :=
  { job := { compatibility := CompatibilityMode.normal, nextXrefId := n } }

/-- A context in legacy (`TemplateDefinitionBuilder`) compatibility mode,
with next fresh id `n`. -/
def legacyCtx (n : Nat) : SafeTransformContext :=
  { job := { compatibility := CompatibilityMode.templateDefinitionBuilder, nextXrefId := n } }

mutual
/-- The number of nodes of a tree satisfying a node predicate (the tool for
stating occurrence-counting properties of output trees). -/
def countNodes (p : Expr → Bool) : Expr → Nat
  | Expr.literal v => if p (Expr.literal v) then 1 else 0
  | Expr.readVar n => if p (Expr.readVar n) then 1 else 0
  | Expr.unary op e =>
      (if p (Expr.unary op e) then 1 else 0) + countNodes p e
  | Expr.binary op lhs rhs =>
      (if p (Expr.binary op lhs rhs) then 1 else 0) + (countNodes p lhs + countNodes p rhs)
  | Expr.conditional c t fc =>
      (if p (Expr.conditional c t fc) then 1 else 0) +
        (countNodes p c + countNodes p t + countNodesOpt p fc)
  | Expr.notExpr c => (if p (Expr.notExpr c) then 1 else 0) + countNodes p c
  | Expr.literalArray es =>
      (if p (Expr.literalArray es) then 1 else 0) + countNodesList p es
  | Expr.literalMap ks vs =>
      (if p (Expr.literalMap ks vs) then 1 else 0) + countNodesList p vs
  | Expr.readProp r n => (if p (Expr.readProp r n) then 1 else 0) + countNodes p r
  | Expr.readKey r i =>
      (if p (Expr.readKey r i) then 1 else 0) + (countNodes p r + countNodes p i)
  | Expr.invokeFn r as =>
      (if p (Expr.invokeFn r as) then 1 else 0) + (countNodes p r + countNodesList p as)
  | Expr.safePropertyRead r n =>
      (if p (Expr.safePropertyRead r n) then 1 else 0) + countNodes p r
  | Expr.safeKeyedRead r i =>
      (if p (Expr.safeKeyedRead r i) then 1 else 0) + (countNodes p r + countNodes p i)
  | Expr.safeInvokeFn r as =>
      (if p (Expr.safeInvokeFn r as) then 1 else 0) + (countNodes p r + countNodesList p as)
  | Expr.pipeBinding n as =>
      (if p (Expr.pipeBinding n as) then 1 else 0) + countNodesList p as
  | Expr.assignTemporary e x =>
      (if p (Expr.assignTemporary e x) then 1 else 0) + countNodes p e
  | Expr.readTemporary x => if p (Expr.readTemporary x) then 1 else 0
  | Expr.safeTernary g b =>
      (if p (Expr.safeTernary g b) then 1 else 0) + (countNodes p g + countNodes p b)

/-- Node count inside an optional child. -/
def countNodesOpt (p : Expr → Bool) : OptExpr → Nat
  | OptExpr.none => 0
  | OptExpr.some e => countNodes p e

/-- Node count inside a child list. -/
def countNodesList (p : Expr → Bool) : ExprList → Nat
  | ExprList.nil => 0
  | ExprList.cons e es => countNodes p e + countNodesList p es
end

/-- Whether a node is an invocation (`o.InvokeFunctionExpr` or
`ir.SafeInvokeFunctionExpr`): the node kinds whose evaluation performs a
call. -/
def isInvocation : Expr → Bool
  | Expr.invokeFn _ _ => true
  | Expr.safeInvokeFn _ _ => true
  | _ => false

/-- Whether a node is `assign-temporary(_, x)`. -/
def isAssignOf (x : Nat) : Expr → Bool
  | Expr.assignTemporary _ y => y = x
  | _ => false

/-- Whether a node is `read-temporary(x)`. -/
def isReadTempOf (x : Nat) : Expr → Bool
  | Expr.readTemporary y => y = x
  | _ => false

/-- Whether a node is a temporary node (an assignment or a read). -/
def isTempNode : Expr → Bool
  | Expr.assignTemporary _ _ => true
  | Expr.readTemporary _ => true
  | _ => false

/-- Whether a node is a *defining* `assign-temporary(_, x)`: one whose inner
expression is not the bare self-read `read-temporary(x)` (the legacy
self-assignment wrapper is not defining). -/
def isDefiningAssignOf (x : Nat) : Expr → Bool
  | Expr.assignTemporary (Expr.readTemporary z) y => y = x && z ≠ y
  | Expr.assignTemporary _ y => y = x
  | _ => false

/-- Number of invocation nodes in a tree. -/
def invocationCount (e : Expr) : Nat := countNodes isInvocation e

/-- Number of `assign-temporary` nodes with id `x` in a tree. -/
def assignTemporaryCount (x : Nat) (e : Expr) : Nat := countNodes (isAssignOf x) e

/-- Number of `read-temporary(x)` nodes in a tree. -/
def readTemporaryCount (x : Nat) (e : Expr) : Nat := countNodes (isReadTempOf x) e

/-- Number of defining `assign-temporary` nodes with id `x` in a tree. -/
def definingAssignCount (x : Nat) (e : Expr) : Nat :=
  countNodes (isDefiningAssignOf x) e

/-- Number of temporary nodes (assignments or reads) in a tree; a tree with
none is a tree the parser could have produced, since temporaries are minted
only by this phase. -/
def tempNodeCount (e : Expr) : Nat := countNodes isTempNode e

/-- Number of `safe-ternary` nodes in a tree. -/
def safeTernaryCount (e : Expr) : Nat := countNodes isSafeTernary e

/-- Number of safe-access nodes in a tree. -/
def safeAccessCount (e : Expr) : Nat := countNodes isSafeAccessExpression e

/-- The guards along a safe-ternary chain, outermost first (empty for a
non-safe-ternary). -/
def stGuards : Expr → List Expr
  | Expr.safeTernary g b => g :: stGuards b
  | _ => []

/-- The body slot at the bottom of a safe-ternary chain: the `expr` of the
deepest safe ternary (the slot `deepestSafeTernary` exposes for update). -/
def deepBody : Expr → Expr
  | Expr.safeTernary _ b => if isSafeTernary b then deepBody b else b
  | e => e

mutual
/-- Every temporary id mentioned in the tree, by an assignment or by a
read. -/
def allTempIds : Expr → List Nat
  | Expr.literal _ => []
  | Expr.readVar _ => []
  | Expr.unary _ e => allTempIds e
  | Expr.binary _ lhs rhs => allTempIds lhs ++ allTempIds rhs
  | Expr.conditional c t fc => allTempIds c ++ allTempIds t ++ allTempIdsOpt fc
  | Expr.notExpr c => allTempIds c
  | Expr.literalArray es => allTempIdsList es
  | Expr.literalMap _ vs => allTempIdsList vs
  | Expr.readProp r _ => allTempIds r
  | Expr.readKey r i => allTempIds r ++ allTempIds i
  | Expr.invokeFn r as => allTempIds r ++ allTempIdsList as
  | Expr.safePropertyRead r _ => allTempIds r
  | Expr.safeKeyedRead r i => allTempIds r ++ allTempIds i
  | Expr.safeInvokeFn r as => allTempIds r ++ allTempIdsList as
  | Expr.pipeBinding _ as => allTempIdsList as
  | Expr.assignTemporary e x => x :: allTempIds e
  | Expr.readTemporary x => [x]
  | Expr.safeTernary g b => allTempIds g ++ allTempIds b

/-- Temporary ids mentioned in an optional child. -/
def allTempIdsOpt : OptExpr → List Nat
  | OptExpr.none => []
  | OptExpr.some e => allTempIds e

/-- Temporary ids mentioned in a child list. -/
def allTempIdsList : ExprList → List Nat
  | ExprList.nil => []
  | ExprList.cons e es => allTempIds e ++ allTempIdsList es
end

mutual
/-- The correspondence between the standard-mode output and the legacy-mode
output of the phase on one and the same input: the trees agree node for
node, except that where the standard tree has a bare `read-temporary(id)` the
legacy tree is allowed to carry the self-assignment
`assign-temporary(read-temporary(id), id)` instead.  This is the shape of
difference the legacy quirk of `eliminateTemporaryAssignments` produces. -/
def modeRel : Expr → Expr → Prop
  | Expr.readTemporary x, l =>
      l = Expr.readTemporary x ∨
        l = Expr.assignTemporary (Expr.readTemporary x) x
  | Expr.literal v, l => l = Expr.literal v
  | Expr.readVar n, l => l = Expr.readVar n
  | Expr.unary op e, l => ∃ e2, l = Expr.unary op e2 ∧ modeRel e e2
  | Expr.binary op lhs rhs, l =>
      ∃ l2 r2, l = Expr.binary op l2 r2 ∧ modeRel lhs l2 ∧ modeRel rhs r2
  | Expr.conditional c t fc, l =>
      ∃ c2 t2 fc2, l = Expr.conditional c2 t2 fc2 ∧ modeRel c c2 ∧ modeRel t t2 ∧
        modeRelOpt fc fc2
  | Expr.notExpr c, l => ∃ c2, l = Expr.notExpr c2 ∧ modeRel c c2
  | Expr.literalArray es, l => ∃ es2, l = Expr.literalArray es2 ∧ modeRelList es es2
  | Expr.literalMap ks vs, l => ∃ vs2, l = Expr.literalMap ks vs2 ∧ modeRelList vs vs2
  | Expr.readProp r n, l => ∃ r2, l = Expr.readProp r2 n ∧ modeRel r r2
  | Expr.readKey r i, l => ∃ r2 i2, l = Expr.readKey r2 i2 ∧ modeRel r r2 ∧ modeRel i i2
  | Expr.invokeFn r as, l =>
      ∃ r2 as2, l = Expr.invokeFn r2 as2 ∧ modeRel r r2 ∧ modeRelList as as2
  | Expr.safePropertyRead r n, l => ∃ r2, l = Expr.safePropertyRead r2 n ∧ modeRel r r2
  | Expr.safeKeyedRead r i, l =>
      ∃ r2 i2, l = Expr.safeKeyedRead r2 i2 ∧ modeRel r r2 ∧ modeRel i i2
  | Expr.safeInvokeFn r as, l =>
      ∃ r2 as2, l = Expr.safeInvokeFn r2 as2 ∧ modeRel r r2 ∧ modeRelList as as2
  | Expr.pipeBinding n as, l => ∃ as2, l = Expr.pipeBinding n as2 ∧ modeRelList as as2
  | Expr.assignTemporary e x, l => ∃ e2, l = Expr.assignTemporary e2 x ∧ modeRel e e2
  | Expr.safeTernary g b, l =>
      ∃ g2 b2, l = Expr.safeTernary g2 b2 ∧ modeRel g g2 ∧ modeRel b b2

/-- `modeRel` on optional children. -/
def modeRelOpt : OptExpr → OptExpr → Prop
  | OptExpr.none, l => l = OptExpr.none
  | OptExpr.some e, l => ∃ e2, l = OptExpr.some e2 ∧ modeRel e e2

/-- `modeRel` on child lists. -/
def modeRelList : ExprList → ExprList → Prop
  | ExprList.nil, l => l = ExprList.nil
  | ExprList.cons e es, l =>
      ∃ e2 es2, l = ExprList.cons e2 es2 ∧ modeRel e e2 ∧ modeRelList es es2
end

/-- The specification's reading of the temporary-necessity classifier: the
expression is, or structurally contains, one of the five effectful kinds
(function invoke, array literal, map literal, safe function invoke, pipe
binding call), descending only through a unary operand, either side of a
binary, any branch of a conditional, a logical-not operand, the inner
expression of an assign-temporary, a property-read receiver, or a keyed-read
receiver or index. -/
inductive ContainsEffectful : Expr → Prop where
  | invokeBase (r : Expr) (as : ExprList) : ContainsEffectful (Expr.invokeFn r as)
  | arrayBase (es : ExprList) : ContainsEffectful (Expr.literalArray es)
  | mapBase (ks : List String) (vs : ExprList) : ContainsEffectful (Expr.literalMap ks vs)
  | safeInvokeBase (r : Expr) (as : ExprList) : ContainsEffectful (Expr.safeInvokeFn r as)
  | pipeBase (n : String) (as : ExprList) : ContainsEffectful (Expr.pipeBinding n as)
  | unaryStep (op : UnaryOperator) (e : Expr) :
      ContainsEffectful e → ContainsEffectful (Expr.unary op e)
  | binaryLhs (op : BinaryOperator) (lhs rhs : Expr) :
      ContainsEffectful lhs → ContainsEffectful (Expr.binary op lhs rhs)
  | binaryRhs (op : BinaryOperator) (lhs rhs : Expr) :
      ContainsEffectful rhs → ContainsEffectful (Expr.binary op lhs rhs)
  | condCondition (c t : Expr) (fc : OptExpr) :
      ContainsEffectful c → ContainsEffectful (Expr.conditional c t fc)
  | condTrueCase (c t : Expr) (fc : OptExpr) :
      ContainsEffectful t → ContainsEffectful (Expr.conditional c t fc)
  | condFalseCase (c t f : Expr) :
      ContainsEffectful f → ContainsEffectful (Expr.conditional c t (OptExpr.some f))
  | notStep (c : Expr) : ContainsEffectful c → ContainsEffectful (Expr.notExpr c)
  | assignStep (e : Expr) (x : Nat) :
      ContainsEffectful e → ContainsEffectful (Expr.assignTemporary e x)
  | readPropStep (r : Expr) (n : String) :
      ContainsEffectful r → ContainsEffectful (Expr.readProp r n)
  | readKeyReceiver (r i : Expr) :
      ContainsEffectful r → ContainsEffectful (Expr.readKey r i)
  | readKeyIndex (r i : Expr) :
      ContainsEffectful i → ContainsEffectful (Expr.readKey r i)

/-- Runtime values for the evaluation semantics used to observe side-effect
order: null, numbers, booleans, strings, and opaque object references. -/
inductive Val : Type where
  | vnull : Val
  | vint (n : Int) : Val
  | vbool (b : Bool) : Val
  | vstr (s : String) : Val
  | vobj (tag : Nat) : Val
deriving DecidableEq, Repr

/-- Observable side-effect events: a function call or a pipe invocation. -/
inductive Event : Type where
  | callEvent : Event
  | pipeEvent : Event
deriving DecidableEq, Repr

/-- The external world the evaluator consults: variable values, the result
of property and keyed reads on a value, call results, pipe results, and the
results of unary and binary operators other than the null-equality used by
the lowered guards. -/
structure World : Type where
  varVal : String → Val
  propVal : Val → String → Val
  keyVal : Val → Val → Val
  callVal : Val → List Val → Val
  pipeVal : String → List Val → Val
  arrVal : List Val → Val
  mapVal : List Val → Val
  unaryVal : UnaryOperator → Val → Val
  binOther : BinaryOperator → Val → Val → Val

/-- The temporary store: values of assigned temporaries. -/
def Store : Type := Nat → Val

/-- Updating the temporary store. -/
def storeSet (s : Store) (x : Nat) (v : Val) : Store :=
  fun y => if y = x then v else s y

/-- JavaScript-style truthiness, restricted to the value forms above. -/
def truthy : Val → Bool
  | Val.vnull => false
  | Val.vint n => n ≠ 0
  | Val.vbool b => b
  | Val.vstr s => s ≠ ""
  | Val.vobj _ => true

/-- Loose null-equality: the lowered guards compare against the null
literal, where only null is equal to null. -/
def valEq (a b : Val) : Bool := a = b

mutual
/-- A big-step evaluator with an explicit effect trace, used to observe in
what order and how often the side effects (calls, pipes) of a lowered tree
occur.  Invocations append a `callEvent` after their receiver and arguments
are evaluated; pipe bindings append a `pipeEvent`; safe forms short-circuit
on a null receiver; `safe-ternary(g, b)` evaluates `g` and then `b` only if
the guard was not null; `assign-temporary` stores and returns its value;
a conditional evaluates the chosen branch only. -/
def eval (w : World) : Expr → Store → Val × Store × List Event
  | Expr.literal LiteralValue.nullValue, s => (Val.vnull, s, [])
  | Expr.literal (LiteralValue.intValue n), s => (Val.vint n, s, [])
  | Expr.literal (LiteralValue.strValue t), s => (Val.vstr t, s, [])
  | Expr.readVar n, s => (w.varVal n, s, [])
  | Expr.unary op e, s =>
      let r := eval w e s
      (w.unaryVal op r.1, r.2.1, r.2.2)
  | Expr.binary op lhs rhs, s =>
      let r1 := eval w lhs s
      let r2 := eval w rhs r1.2.1
      ((match op with
         | BinaryOperator.equals => Val.vbool (valEq r1.1 r2.1)
         | op => w.binOther op r1.1 r2.1),
        r2.2.1, r1.2.2 ++ r2.2.2)
  | Expr.conditional c t fc, s =>
      let rc := eval w c s
      if truthy rc.1 then
        let rt := eval w t rc.2.1
        (rt.1, rt.2.1, rc.2.2 ++ rt.2.2)
      else
        match fc with
        | OptExpr.some f =>
            let rf := eval w f rc.2.1
            (rf.1, rf.2.1, rc.2.2 ++ rf.2.2)
        | OptExpr.none => (Val.vnull, rc.2.1, rc.2.2)
  | Expr.notExpr c, s =>
      let r := eval w c s
      (Val.vbool (! truthy r.1), r.2.1, r.2.2)
  | Expr.literalArray es, s =>
      let r := evalList w es s
      (w.arrVal r.1, r.2.1, r.2.2)
  | Expr.literalMap _ vs, s =>
      let r := evalList w vs s
      (w.mapVal r.1, r.2.1, r.2.2)
  | Expr.readProp r n, s =>
      let rr := eval w r s
      (w.propVal rr.1 n, rr.2.1, rr.2.2)
  | Expr.readKey r i, s =>
      let rr := eval w r s
      let ri := eval w i rr.2.1
      (w.keyVal rr.1 ri.1, ri.2.1, rr.2.2 ++ ri.2.2)
  | Expr.invokeFn r as, s =>
      let rr := eval w r s
      let ra := evalList w as rr.2.1
      (w.callVal rr.1 ra.1, ra.2.1, rr.2.2 ++ ra.2.2 ++ [Event.callEvent])
  | Expr.safePropertyRead r n, s =>
      let rr := eval w r s
      (if rr.1 = Val.vnull then Val.vnull else w.propVal rr.1 n, rr.2.1, rr.2.2)
  | Expr.safeKeyedRead r i, s =>
      let rr := eval w r s
      if rr.1 = Val.vnull then (Val.vnull, rr.2.1, rr.2.2)
      else
        let ri := eval w i rr.2.1
        (w.keyVal rr.1 ri.1, ri.2.1, rr.2.2 ++ ri.2.2)
  | Expr.safeInvokeFn r as, s =>
      let rr := eval w r s
      if rr.1 = Val.vnull then (Val.vnull, rr.2.1, rr.2.2)
      else
        let ra := evalList w as rr.2.1
        (w.callVal rr.1 ra.1, ra.2.1, rr.2.2 ++ ra.2.2 ++ [Event.callEvent])
  | Expr.pipeBinding n as, s =>
      let ra := evalList w as s
      (w.pipeVal n ra.1, ra.2.1, ra.2.2 ++ [Event.pipeEvent])
  | Expr.assignTemporary e x, s =>
      let r := eval w e s
      (r.1, storeSet r.2.1 x r.1, r.2.2)
  | Expr.readTemporary x, s => (s x, s, [])
  | Expr.safeTernary g b, s =>
      let rg := eval w g s
      if rg.1 = Val.vnull then (Val.vnull, rg.2.1, rg.2.2)
      else
        let rb := eval w b rg.2.1
        (rb.1, rb.2.1, rg.2.2 ++ rb.2.2)

/-- Left-to-right evaluation of a child list. -/
def evalList (w : World) : ExprList → Store → List Val × Store × List Event
  | ExprList.nil, s => ([], s, [])
  | ExprList.cons e es, s =>
      let r1 := eval w e s
      let r2 := evalList w es r1.2.1
      (r1.1 :: r2.1, r2.2.1, r1.2.2 ++ r2.2.2)
end

/-- The effect trace of evaluating an expression from an empty store. -/
def evalEvents (w : World) (e : Expr) : List Event :=
  (eval w e (fun _ => Val.vnull)).2.2

/-- The number of call events in a trace. -/
def callEvents (tr : List Event) : Nat :=
  (tr.filter (fun ev => ev = Event.callEvent)).length

/-- A concrete world in which every variable, property, key and call result
is a non-null object, so that no guard of a lowered chain short-circuits. -/
def allObjWorld : World where
  varVal := fun _ => Val.vobj 1
  propVal := fun _ _ => Val.vobj 2
  keyVal := fun _ _ => Val.vobj 3
  callVal := fun _ _ => Val.vobj 4
  pipeVal := fun _ _ => Val.vobj 5
  arrVal := fun _ => Val.vobj 6
  mapVal := fun _ => Val.vobj 7
  unaryVal := fun _ _ => Val.vobj 8
  binOther := fun _ _ _ => Val.vobj 9

/-- The input `a?.b?.c`: a safe property read whose receiver is itself a
safe property read of the bare reference `a`. -/
def chainSafeSafe : Expr :=
  Expr.safePropertyRead (Expr.safePropertyRead (Expr.readVar "a") "b") "c"

/-- The input `a?.b.c`: a safe access followed by a plain property read. -/
def chainSafePlain : Expr :=
  Expr.readProp (Expr.safePropertyRead (Expr.readVar "a") "b") "c"

/-- The input `f()?.x`: a safe read whose receiver is a function call. -/
def chainCallSafe : Expr :=
  Expr.safePropertyRead (Expr.invokeFn (Expr.readVar "f") ExprList.nil) "x"

/-- The input `a?.x` for a bare reference `a`. -/
def chainBareSafe : Expr :=
  Expr.safePropertyRead (Expr.readVar "a") "x"

/-- The input `a?.[f()?.b]?.c`: the dedup example — the index of the safe
keyed read itself contains a safe access over a call. -/
def chainDedup : Expr :=
  Expr.safePropertyRead
    (Expr.safeKeyedRead (Expr.readVar "a")
      (Expr.safePropertyRead (Expr.invokeFn (Expr.readVar "f") ExprList.nil) "b")) "c"

/-- The deepest open body after `a?.[f()?.b]` has been expanded: the guard
that the trailing `?.c` of the dedup example hands to
`safeTernaryWithTemporary`.  It already defines temporary `0` inside a
safe-ternary. -/
def c3Guard : Expr :=
  Expr.readKey (Expr.readVar "a")
    (Expr.safeTernary
      (Expr.assignTemporary (Expr.invokeFn (Expr.readVar "f") ExprList.nil) 0)
      (Expr.readProp (Expr.readTemporary 0) "b"))

/-- The input `a?.[b?.c()]?.d`: the index contains a call reached through a
safe access, which ends up inside a safe-ternary body that the classifier
does not look into. -/
def chainCallInIndex : Expr :=
  Expr.safePropertyRead
    (Expr.safeKeyedRead (Expr.readVar "a")
      (Expr.invokeFn (Expr.safePropertyRead (Expr.readVar "b") "c") ExprList.nil)) "d"

/-- Whether the root node is an `assign-temporary`. -/
def isAssignRoot : Expr → Bool
  | Expr.assignTemporary _ _ => true
  | _ => false

mutual
/-- Structural well-formedness of body slots: the `expr` field of every
`safe-ternary` in the tree has a non-assignment root.  The chain-expansion
algorithm maintains this (body slots always hold accesses or nested
ternaries); it is what protects guards handed to the dedup step from the
eliminator's root blind spot. -/
def bodiesOk : Expr → Bool
  | Expr.literal _ => true
  | Expr.readVar _ => true
  | Expr.unary _ e => bodiesOk e
  | Expr.binary _ lhs rhs => bodiesOk lhs && bodiesOk rhs
  | Expr.conditional c t fc => bodiesOk c && bodiesOk t && bodiesOkOpt fc
  | Expr.notExpr c => bodiesOk c
  | Expr.literalArray es => bodiesOkList es
  | Expr.literalMap _ vs => bodiesOkList vs
  | Expr.readProp r _ => bodiesOk r
  | Expr.readKey r i => bodiesOk r && bodiesOk i
  | Expr.invokeFn r as => bodiesOk r && bodiesOkList as
  | Expr.safePropertyRead r _ => bodiesOk r
  | Expr.safeKeyedRead r i => bodiesOk r && bodiesOk i
  | Expr.safeInvokeFn r as => bodiesOk r && bodiesOkList as
  | Expr.pipeBinding _ as => bodiesOkList as
  | Expr.assignTemporary e _ => bodiesOk e
  | Expr.readTemporary _ => true
  | Expr.safeTernary g b => bodiesOk g && (bodiesOk b && !(isAssignRoot b))

/-- Optional-child part of `bodiesOk`. -/
def bodiesOkOpt : OptExpr → Bool
  | OptExpr.none => true
  | OptExpr.some e => bodiesOk e

/-- List part of `bodiesOk`. -/
def bodiesOkList : ExprList → Bool
  | ExprList.nil => true
  | ExprList.cons e es => bodiesOk e && bodiesOkList es
end

/-- The invariant the standard-mode sweep maintains on a produced subtree:
every mentioned temporary id lies in the id window `[lo, hi)`, every id is
assigned at most once, the root is not an assignment, and every safe-ternary
body slot has a non-assignment root. -/
def SweepInv (lo hi : Nat) (e : Expr) : Prop :=
  (∀ x, x ∈ allTempIds e → lo ≤ x ∧ x < hi) ∧
  (∀ x, countNodes (isAssignOf x) e ≤ 1) ∧
  isAssignRoot e = false ∧
  bodiesOk e = true

/-- `SweepInv` for an optional child. -/
def SweepInvOpt (lo hi : Nat) (fc : OptExpr) : Prop :=
  (∀ x, x ∈ allTempIdsOpt fc → lo ≤ x ∧ x < hi) ∧
  (∀ x, countNodesOpt (isAssignOf x) fc ≤ 1) ∧
  bodiesOkOpt fc = true

/-- `SweepInv` for a child list (id windows and at-most-one counts range
over the whole list). -/
def SweepInvList (lo hi : Nat) (es : ExprList) : Prop :=
  (∀ x, x ∈ allTempIdsList es → lo ≤ x ∧ x < hi) ∧
  (∀ x, countNodesList (isAssignOf x) es ≤ 1) ∧
  bodiesOkList es = true

/-- The contract of a pure body-updating function (the plain-access cases of
`safeTransform`) and of the tree it produces from a deepest body `b`: the
root is not an assignment, body slots are well-formed, temporary ids come
from `b` or from the folded-in extra children (`L`), and per-id assignment
counts grow by exactly the assignments of the extra children (`K`). -/
def PureStepOk (L : List Nat) (K : Nat → Nat) (b : Expr) (r : Expr) : Prop :=
  isAssignRoot r = false ∧
  bodiesOk r = true ∧
  (∀ x, x ∈ allTempIds r → x ∈ allTempIds b ∨ x ∈ L) ∧
  (∀ x, countNodes (isAssignOf x) r = countNodes (isAssignOf x) b + K x)

/-- The contract of a context-threading body-updating function (the
safe-access cases of `safeTransform`) started at counter `m` in standard
mode: the counter only grows, ids come from `b`, the extra children (`L`),
or the freshly allocated window `[m, m2)`, and per-id assignment counts grow
by the extra children's assignments (`K`) plus at most one assignment of a
freshly allocated id. -/
def BodyStepOk (L : List Nat) (K : Nat → Nat) (b : Expr) (m : Nat)
    (r : Expr × SafeTransformContext) : Prop :=
  ∃ m2, m ≤ m2 ∧ r.2 = stdCtx m2 ∧
    isAssignRoot r.1 = false ∧
    bodiesOk r.1 = true ∧
    (∀ x, x ∈ allTempIds r.1 → x ∈ allTempIds b ∨ x ∈ L ∨ (m ≤ x ∧ x < m2)) ∧
    (∀ x, countNodes (isAssignOf x) r.1 ≤
      countNodes (isAssignOf x) b + K x + (if m ≤ x ∧ x < m2 then 1 else 0))

/-!
## Helper lemmas
-/

theorem stGuards_of_not_st (e : Expr) (h : isSafeTernary e = false) :
    stGuards e = [] := by
  cases e <;> simp_all [stGuards, isSafeTernary]

theorem deepBody_of_not_st (e : Expr) (h : isSafeTernary e = false) :
    deepBody e = e := by
  cases e <;> simp_all [deepBody, isSafeTernary]

theorem stGuards_st (g b : Expr) :
    stGuards (Expr.safeTernary g b) = g :: stGuards b := rfl

theorem deepBody_st_of_st (g b : Expr) (hb : isSafeTernary b = true) :
    deepBody (Expr.safeTernary g b) = deepBody b := by
  rw [deepBody, hb]
  simp only [if_true]

theorem deepBody_st_of_not_st (g b : Expr) (hb : isSafeTernary b = false) :
    deepBody (Expr.safeTernary g b) = b := by
  rw [deepBody, hb]
  simp only [Bool.false_eq_true, if_false]

theorem updateDeepest_st_of_st (g b : Expr) (f : Expr → Expr)
    (hb : isSafeTernary b = true) :
    updateDeepest (Expr.safeTernary g b) f = Expr.safeTernary g (updateDeepest b f) := by
  rw [updateDeepest, hb]
  simp only [if_true]

theorem updateDeepest_st_of_not_st (g b : Expr) (f : Expr → Expr)
    (hb : isSafeTernary b = false) :
    updateDeepest (Expr.safeTernary g b) f = Expr.safeTernary g (f b) := by
  rw [updateDeepest, hb]
  simp only [Bool.false_eq_true, if_false]

theorem updateDeepest_spec_base (f : Expr → Expr)
    (hf : ∀ x, isSafeTernary (f x) = false) (g b : Expr)
    (hb : isSafeTernary b = false) :
    stGuards (updateDeepest (Expr.safeTernary g b) f) = stGuards (Expr.safeTernary g b) ∧
    deepBody (updateDeepest (Expr.safeTernary g b) f) = f (deepBody (Expr.safeTernary g b)) ∧
    isSafeTernary (updateDeepest (Expr.safeTernary g b) f) = true := by
  rw [updateDeepest_st_of_not_st g b f hb]
  refine ⟨?_, ?_, rfl⟩
  · rw [stGuards_st, stGuards_st, stGuards_of_not_st _ (hf b), stGuards_of_not_st _ hb]
  · rw [deepBody_st_of_not_st g (f b) (hf b), deepBody_st_of_not_st g b hb]

theorem updateDeepest_spec (f : Expr → Expr)
    (hf : ∀ x, isSafeTernary (f x) = false) :
    ∀ g b, stGuards (updateDeepest (Expr.safeTernary g b) f) = stGuards (Expr.safeTernary g b) ∧
      deepBody (updateDeepest (Expr.safeTernary g b) f) = f (deepBody (Expr.safeTernary g b)) ∧
      isSafeTernary (updateDeepest (Expr.safeTernary g b) f) = true
  | g, Expr.safeTernary g2 b2 => by
      have ih := updateDeepest_spec f hf g2 b2
      rw [updateDeepest_st_of_st g (Expr.safeTernary g2 b2) f rfl]
      refine ⟨?_, ?_, rfl⟩
      · rw [stGuards_st, stGuards_st, ih.1]
      · rw [deepBody_st_of_st g _ ih.2.2, ih.2.1,
          deepBody_st_of_st g (Expr.safeTernary g2 b2) rfl]
  | g, Expr.literal v => updateDeepest_spec_base f hf g (Expr.literal v) rfl
  | g, Expr.readVar n => updateDeepest_spec_base f hf g (Expr.readVar n) rfl
  | g, Expr.unary op e => updateDeepest_spec_base f hf g (Expr.unary op e) rfl
  | g, Expr.binary op lhs rhs => updateDeepest_spec_base f hf g (Expr.binary op lhs rhs) rfl
  | g, Expr.conditional c t fc => updateDeepest_spec_base f hf g (Expr.conditional c t fc) rfl
  | g, Expr.notExpr c => updateDeepest_spec_base f hf g (Expr.notExpr c) rfl
  | g, Expr.literalArray es => updateDeepest_spec_base f hf g (Expr.literalArray es) rfl
  | g, Expr.literalMap ks vs => updateDeepest_spec_base f hf g (Expr.literalMap ks vs) rfl
  | g, Expr.readProp r n => updateDeepest_spec_base f hf g (Expr.readProp r n) rfl
  | g, Expr.readKey r i => updateDeepest_spec_base f hf g (Expr.readKey r i) rfl
  | g, Expr.invokeFn r as => updateDeepest_spec_base f hf g (Expr.invokeFn r as) rfl
  | g, Expr.safePropertyRead r n =>
      updateDeepest_spec_base f hf g (Expr.safePropertyRead r n) rfl
  | g, Expr.safeKeyedRead r i => updateDeepest_spec_base f hf g (Expr.safeKeyedRead r i) rfl
  | g, Expr.safeInvokeFn r as => updateDeepest_spec_base f hf g (Expr.safeInvokeFn r as) rfl
  | g, Expr.pipeBinding n as => updateDeepest_spec_base f hf g (Expr.pipeBinding n as) rfl
  | g, Expr.assignTemporary e x => updateDeepest_spec_base f hf g (Expr.assignTemporary e x) rfl
  | g, Expr.readTemporary x => updateDeepest_spec_base f hf g (Expr.readTemporary x) rfl

/-!
## C1
-/

/-- C1: running the full pass on `a?.b?.c` (a safe property read whose
receiver is a safe property read of the bare reference `a`) produces the
nested conditional `a == null ? null : (a.b == null ? null : a.b.c)`: each
safe operator yields its own null-guarded conditional, nested inside the
previous guard's body. -/
theorem c1_double_safe_chain (ctx : SafeTransformContext) :
    expandSafeReadsExpr chainSafeSafe ctx
      = (Expr.conditional
           (Expr.binary BinaryOperator.equals (Expr.readVar "a") NULL_EXPR) NULL_EXPR
           (OptExpr.some (Expr.conditional
             (Expr.binary BinaryOperator.equals
               (Expr.readProp (Expr.readVar "a") "b") NULL_EXPR) NULL_EXPR
             (OptExpr.some
               (Expr.readProp (Expr.readProp (Expr.readVar "a") "b") "c")))),
         ctx) := rfl

/-!
## C2
-/

/-- C2: for every plain access (property read, keyed read, or invoke) whose
receiver is a safe-ternary chain, `safeTransform` keeps the chain's guards,
extends the deepest open guard's body slot with the same access operation,
and replaces the visited node by its (updated) receiver chain, allocating
nothing; consequently `a?.b.c` lowers under a single guard to
`a == null ? null : a.b.c`. -/
theorem c2_plain_access_folds_into_open_guard :
    (∀ g b name ctx,
      safeTransform (Expr.readProp (Expr.safeTernary g b) name) ctx
          = (updateDeepest (Expr.safeTernary g b) (fun x => Expr.readProp x name), ctx) ∧
      stGuards (safeTransform (Expr.readProp (Expr.safeTernary g b) name) ctx).1
          = stGuards (Expr.safeTernary g b) ∧
      deepBody (safeTransform (Expr.readProp (Expr.safeTernary g b) name) ctx).1
          = Expr.readProp (deepBody (Expr.safeTernary g b)) name) ∧
    (∀ g b index ctx,
      safeTransform (Expr.readKey (Expr.safeTernary g b) index) ctx
          = (updateDeepest (Expr.safeTernary g b) (fun x => Expr.readKey x index), ctx) ∧
      stGuards (safeTransform (Expr.readKey (Expr.safeTernary g b) index) ctx).1
          = stGuards (Expr.safeTernary g b) ∧
      deepBody (safeTransform (Expr.readKey (Expr.safeTernary g b) index) ctx).1
          = Expr.readKey (deepBody (Expr.safeTernary g b)) index) ∧
    (∀ g b args ctx,
      safeTransform (Expr.invokeFn (Expr.safeTernary g b) args) ctx
          = (updateDeepest (Expr.safeTernary g b) (fun x => Expr.invokeFn x args), ctx) ∧
      stGuards (safeTransform (Expr.invokeFn (Expr.safeTernary g b) args) ctx).1
          = stGuards (Expr.safeTernary g b) ∧
      deepBody (safeTransform (Expr.invokeFn (Expr.safeTernary g b) args) ctx).1
          = Expr.invokeFn (deepBody (Expr.safeTernary g b)) args) ∧
    (∀ ctx, expandSafeReadsExpr chainSafePlain ctx
        = (Expr.conditional
             (Expr.binary BinaryOperator.equals (Expr.readVar "a") NULL_EXPR) NULL_EXPR
             (OptExpr.some (Expr.readProp (Expr.readProp (Expr.readVar "a") "b") "c")),
           ctx)) := by
  refine ⟨?_, ?_, ?_, fun ctx => rfl⟩
  · intro g b name ctx
    have h := updateDeepest_spec (fun x => Expr.readProp x name) (fun x => rfl) g b
    exact ⟨rfl, h.1, h.2.1⟩
  · intro g b index ctx
    have h := updateDeepest_spec (fun x => Expr.readKey x index) (fun x => rfl) g b
    exact ⟨rfl, h.1, h.2.1⟩
  · intro g b args ctx
    have h := updateDeepest_spec (fun x => Expr.invokeFn x args) (fun x => rfl) g b
    exact ⟨rfl, h.1, h.2.1⟩

/-!
## C3
-/

/-- C3 counterexample: a guard of the shape the dedup example produces —
`readKey(a, safeTernary(assign-temporary(f(), 0), readTemporary(0).b))`, the
deepest open body after `a?.[f()?.b]` has been expanded.  The classifier
returns false for it (it contains a call, but only inside a safe-ternary,
which the classifier does not descend into), yet the ternary built over it is
*not* `safeTernary(G, f(copy of G))`: deduplication rewrites the copy. -/
theorem c3_structural_copy_counterexample :
    needsTemporaryInSafeAccess c3Guard = false ∧
    (safeTernaryWithTemporary c3Guard (fun x => Expr.readProp x "c") (stdCtx 1)).1
      ≠ Expr.safeTernary c3Guard (Expr.readProp c3Guard "c") ∧
    (safeTernaryWithTemporary c3Guard (fun x => Expr.readProp x "c") (stdCtx 1)).1
      = Expr.safeTernary c3Guard
          (Expr.readProp
            (Expr.readKey (Expr.readVar "a")
              (Expr.safeTernary (Expr.readTemporary 0)
                (Expr.readProp (Expr.readTemporary 0) "b"))) "c") := by
  refine ⟨rfl, by decide, rfl⟩

/-- C3 (amended): guard materialization follows the classifier exactly —
classifier true: a fresh id is minted, the guard is
`assign-temporary(G, id)` and the body is built over `read-temporary(id)`
(so `f()?.x` lowers to `(t = f()) == null ? null : t.x` with the call
appearing exactly once); classifier false: `G` itself is the guard, no id is
allocated, and the body is built over a structural copy of `G` *run through
temporary deduplication* (so `a?.x` introduces no temporary).  The original
claim's words "the body is built over a structural copy of G" fail when `G`
already defines temporaries, as the counterexample shows. -/
theorem c3_guard_materialization :
    (∀ guard f ctx, needsTemporaryInSafeAccess guard = true →
      safeTernaryWithTemporary guard f ctx
        = (Expr.safeTernary (Expr.assignTemporary guard ctx.job.nextXrefId)
             (f (Expr.readTemporary ctx.job.nextXrefId)),
           { job := { compatibility := ctx.job.compatibility,
                      nextXrefId := ctx.job.nextXrefId + 1 } })) ∧
    (∀ guard f ctx, needsTemporaryInSafeAccess guard = false →
      safeTernaryWithTemporary guard f ctx
        = (Expr.safeTernary guard
             (f (eliminateTemporaryAssignments guard (temporariesIn guard) ctx)),
           ctx)) ∧
    (∀ mode, expandSafeReadsExpr chainCallSafe ⟨⟨mode, 0⟩⟩
        = (Expr.conditional
             (Expr.binary BinaryOperator.equals
               (Expr.assignTemporary (Expr.invokeFn (Expr.readVar "f") ExprList.nil) 0)
               NULL_EXPR) NULL_EXPR
             (OptExpr.some (Expr.readProp (Expr.readTemporary 0) "x")),
           ⟨⟨mode, 1⟩⟩)
      ∧ invocationCount (expandSafeReadsExpr chainCallSafe ⟨⟨mode, 0⟩⟩).1 = 1) ∧
    (∀ mode n, expandSafeReadsExpr chainBareSafe ⟨⟨mode, n⟩⟩
        = (Expr.conditional
             (Expr.binary BinaryOperator.equals (Expr.readVar "a") NULL_EXPR) NULL_EXPR
             (OptExpr.some (Expr.readProp (Expr.readVar "a") "x")),
           ⟨⟨mode, n⟩⟩)
      ∧ tempNodeCount (expandSafeReadsExpr chainBareSafe ⟨⟨mode, n⟩⟩).1 = 0) := by
  refine ⟨?_, ?_, fun mode => ⟨rfl, rfl⟩, fun mode n => ⟨rfl, rfl⟩⟩
  · intro guard f ctx h
    simp [safeTernaryWithTemporary, h, CompilationJob.allocateXrefId]
  · intro guard f ctx h
    simp [safeTernaryWithTemporary, h]

/-- Closed witness for the two guarded branches of C3's theorem, at the
guards `f()` (classifier true) and `a` (classifier false). -/
theorem c3_guard_materialization_witness :
    safeTernaryWithTemporary (Expr.invokeFn (Expr.readVar "f") ExprList.nil)
        (fun x => Expr.readProp x "x") (stdCtx 0)
      = (Expr.safeTernary
           (Expr.assignTemporary (Expr.invokeFn (Expr.readVar "f") ExprList.nil) 0)
           (Expr.readProp (Expr.readTemporary 0) "x"), stdCtx 1) ∧
    safeTernaryWithTemporary (Expr.readVar "a") (fun x => Expr.readProp x "x") (stdCtx 0)
      = (Expr.safeTernary (Expr.readVar "a")
           (Expr.readProp (Expr.readVar "a") "x"), stdCtx 0) := by
  constructor
  · exact c3_guard_materialization.1 (Expr.invokeFn (Expr.readVar "f") ExprList.nil)
      (fun x => Expr.readProp x "x") (stdCtx 0) rfl
  · exact c3_guard_materialization.2.1 (Expr.readVar "a")
      (fun x => Expr.readProp x "x") (stdCtx 0) rfl

/-!
## C4
-/

mutual
/-- In standard mode, the dedup transform converts every assignment with an
id in `tmps` wherever the visitor applies it: the resulting subtree has no
such assignment left. -/
theorem elim_no_assign (tmps : List Nat) (x : Nat) (hx : x ∈ tmps) :
    ∀ e, countNodes (isAssignOf x)
        (transformExpr (eliminateOne tmps CompatibilityMode.normal) e) = 0
  | Expr.literal v => by simp [transformExpr, eliminateOne, countNodes, isAssignOf]
  | Expr.readVar n => by simp [transformExpr, eliminateOne, countNodes, isAssignOf]
  | Expr.unary op e => by
      simp [transformExpr, eliminateOne, countNodes, isAssignOf,
        elim_no_assign tmps x hx e]
  | Expr.binary op lhs rhs => by
      simp [transformExpr, eliminateOne, countNodes, isAssignOf,
        elim_no_assign tmps x hx lhs, elim_no_assign tmps x hx rhs]
  | Expr.conditional c t fc => by
      simp [transformExpr, eliminateOne, countNodes, isAssignOf,
        elim_no_assign tmps x hx c, elim_no_assign tmps x hx t,
        elim_no_assign_opt tmps x hx fc]
  | Expr.notExpr c => by
      simp [transformExpr, eliminateOne, countNodes, isAssignOf,
        elim_no_assign tmps x hx c]
  | Expr.literalArray es => by
      simp [transformExpr, eliminateOne, countNodes, isAssignOf,
        elim_no_assign_list tmps x hx es]
  | Expr.literalMap ks vs => by
      simp [transformExpr, eliminateOne, countNodes, isAssignOf,
        elim_no_assign_list tmps x hx vs]
  | Expr.readProp r n => by
      simp [transformExpr, eliminateOne, countNodes, isAssignOf,
        elim_no_assign tmps x hx r]
  | Expr.readKey r i => by
      simp [transformExpr, eliminateOne, countNodes, isAssignOf,
        elim_no_assign tmps x hx r, elim_no_assign tmps x hx i]
  | Expr.invokeFn r as => by
      simp [transformExpr, eliminateOne, countNodes, isAssignOf,
        elim_no_assign tmps x hx r, elim_no_assign_list tmps x hx as]
  | Expr.safePropertyRead r n => by
      simp [transformExpr, eliminateOne, countNodes, isAssignOf,
        elim_no_assign tmps x hx r]
  | Expr.safeKeyedRead r i => by
      simp [transformExpr, eliminateOne, countNodes, isAssignOf,
        elim_no_assign tmps x hx r, elim_no_assign tmps x hx i]
  | Expr.safeInvokeFn r as => by
      simp [transformExpr, eliminateOne, countNodes, isAssignOf,
        elim_no_assign tmps x hx r, elim_no_assign_list tmps x hx as]
  | Expr.pipeBinding n as => by
      simp [transformExpr, eliminateOne, countNodes, isAssignOf,
        elim_no_assign_list tmps x hx as]
  | Expr.assignTemporary e y => by
      by_cases hy : y ∈ tmps
      · simp [transformExpr, eliminateOne, hy, countNodes, isAssignOf]
      · have hne : (y = x) = False := by
          simp only [eq_iff_iff, iff_false]
          intro hh
          exact hy (hh ▸ hx)
        simp [transformExpr, eliminateOne, hy, countNodes, isAssignOf, hne,
          elim_no_assign tmps x hx e]
  | Expr.readTemporary y => by
      simp [transformExpr, eliminateOne, countNodes, isAssignOf]
  | Expr.safeTernary g b => by
      simp [transformExpr, eliminateOne, countNodes, isAssignOf,
        elim_no_assign tmps x hx g, elim_no_assign tmps x hx b]

/-- The optional-child part of `elim_no_assign`. -/
theorem elim_no_assign_opt (tmps : List Nat) (x : Nat) (hx : x ∈ tmps) :
    ∀ fc, countNodesOpt (isAssignOf x)
        (transformOptExpr (eliminateOne tmps CompatibilityMode.normal) fc) = 0
  | OptExpr.none => by simp [transformOptExpr, countNodesOpt]
  | OptExpr.some e => by
      simp [transformOptExpr, countNodesOpt, elim_no_assign tmps x hx e]

/-- The list part of `elim_no_assign`. -/
theorem elim_no_assign_list (tmps : List Nat) (x : Nat) (hx : x ∈ tmps) :
    ∀ es, countNodesList (isAssignOf x)
        (transformExprList (eliminateOne tmps CompatibilityMode.normal) es) = 0
  | ExprList.nil => by simp [transformExprList, countNodesList]
  | ExprList.cons e es => by
      simp [transformExprList, countNodesList, elim_no_assign tmps x hx e,
        elim_no_assign_list tmps x hx es]
end

/-- C4 counterexample: the eliminator returns its argument after the visitor
sweep (`return e`), so the *root* of the copy is never converted.  With the
guard `assign-temporary(a, 0)` (classifier false, id `0` defined in the
guard), the reuse branch leaves the copy's root assignment intact instead of
converting it into a read: the tree ends up with two assignments of id 0. -/
theorem c4_root_assignment_not_converted :
    0 ∈ temporariesIn (Expr.assignTemporary (Expr.readVar "a") 0) ∧
    needsTemporaryInSafeAccess (Expr.assignTemporary (Expr.readVar "a") 0) = false ∧
    safeTernaryWithTemporary (Expr.assignTemporary (Expr.readVar "a") 0)
        (fun x => x) (stdCtx 1)
      = (Expr.safeTernary (Expr.assignTemporary (Expr.readVar "a") 0)
           (Expr.assignTemporary (Expr.readVar "a") 0), stdCtx 1) ∧
    assignTemporaryCount 0
        ((safeTernaryWithTemporary (Expr.assignTemporary (Expr.readVar "a") 0)
          (fun x => x) (stdCtx 1)).1) = 2 := by
  exact ⟨by decide, rfl, rfl, rfl⟩

/-- C4 (amended): in standard mode the dedup conversion reaches every
assignment below the copy's root — after `eliminateTemporaryAssignments`,
an id in `tmps` is still assigned exactly where the *root itself* is an
assignment of that id (the eliminator returns the root unchanged), and
nowhere below; consequently `a?.[f()?.b]?.c` in standard mode assigns
temporary 0 exactly once, every other occurrence of it being a read, and the
call `f()` is evaluated exactly once. -/
theorem c4_dedup_standard :
    (∀ g tmps n x, x ∈ tmps →
      assignTemporaryCount x (eliminateTemporaryAssignments g tmps (stdCtx n))
        = (if isAssignOf x g then 1 else 0)) ∧
    (assignTemporaryCount 0 (expandSafeReadsExpr chainDedup (stdCtx 0)).1 = 1 ∧
     readTemporaryCount 0 (expandSafeReadsExpr chainDedup (stdCtx 0)).1 = 3 ∧
     callEvents (evalEvents allObjWorld (expandSafeReadsExpr chainDedup (stdCtx 0)).1) = 1) := by
  constructor
  · intro g tmps n x hx
    cases g <;>
      simp [eliminateTemporaryAssignments, transformChildren, assignTemporaryCount,
        countNodes, isAssignOf, stdCtx, elim_no_assign tmps x hx,
        elim_no_assign_list tmps x hx, elim_no_assign_opt tmps x hx]
  · exact ⟨rfl, rfl, rfl⟩

/-- Closed witness for the guarded part of C4's theorem: eliminating inside
`(t0 = a).b` with `tmps = [0]` converts the (non-root) assignment. -/
theorem c4_dedup_standard_witness :
    assignTemporaryCount 0
        (eliminateTemporaryAssignments
          (Expr.readProp (Expr.assignTemporary (Expr.readVar "a") 0) "b")
          [0] (stdCtx 0)) = 0 := by
  have h := c4_dedup_standard.1
    (Expr.readProp (Expr.assignTemporary (Expr.readVar "a") 0) "b") [0] 0 0 (by decide)
  simpa using h

/-!
## C7
-/

theorem needsTemp_imp_contains :
    ∀ e, needsTemporaryInSafeAccess e = true → ContainsEffectful e
  | Expr.literal v, h => by simp [needsTemporaryInSafeAccess] at h
  | Expr.readVar n, h => by simp [needsTemporaryInSafeAccess] at h
  | Expr.unary op e, h =>
      ContainsEffectful.unaryStep op e
        (needsTemp_imp_contains e (by simpa [needsTemporaryInSafeAccess] using h))
  | Expr.binary op lhs rhs, h => by
      rw [needsTemporaryInSafeAccess, Bool.or_eq_true] at h
      cases h with
      | inl h => exact ContainsEffectful.binaryLhs op lhs rhs (needsTemp_imp_contains lhs h)
      | inr h => exact ContainsEffectful.binaryRhs op lhs rhs (needsTemp_imp_contains rhs h)
  | Expr.conditional c t fc, h => by
      cases fc with
      | none =>
          simp only [needsTemporaryInSafeAccess, Bool.false_or, Bool.or_eq_true] at h
          rcases h with h | h
          · exact ContainsEffectful.condCondition c t OptExpr.none (needsTemp_imp_contains c h)
          · exact ContainsEffectful.condTrueCase c t OptExpr.none (needsTemp_imp_contains t h)
      | some f =>
          simp only [needsTemporaryInSafeAccess, Bool.or_eq_true] at h
          rcases h with h | h | h
          · exact ContainsEffectful.condFalseCase c t f (needsTemp_imp_contains f h)
          · exact ContainsEffectful.condCondition c t (OptExpr.some f)
              (needsTemp_imp_contains c h)
          · exact ContainsEffectful.condTrueCase c t (OptExpr.some f)
              (needsTemp_imp_contains t h)
  | Expr.notExpr c, h =>
      ContainsEffectful.notStep c
        (needsTemp_imp_contains c (by simpa [needsTemporaryInSafeAccess] using h))
  | Expr.literalArray es, _ => ContainsEffectful.arrayBase es
  | Expr.literalMap ks vs, _ => ContainsEffectful.mapBase ks vs
  | Expr.readProp r n, h =>
      ContainsEffectful.readPropStep r n
        (needsTemp_imp_contains r (by simpa [needsTemporaryInSafeAccess] using h))
  | Expr.readKey r i, h => by
      rw [needsTemporaryInSafeAccess, Bool.or_eq_true] at h
      cases h with
      | inl h => exact ContainsEffectful.readKeyReceiver r i (needsTemp_imp_contains r h)
      | inr h => exact ContainsEffectful.readKeyIndex r i (needsTemp_imp_contains i h)
  | Expr.invokeFn r as, _ => ContainsEffectful.invokeBase r as
  | Expr.safePropertyRead r n, h => by simp [needsTemporaryInSafeAccess] at h
  | Expr.safeKeyedRead r i, h => by simp [needsTemporaryInSafeAccess] at h
  | Expr.safeInvokeFn r as, _ => ContainsEffectful.safeInvokeBase r as
  | Expr.pipeBinding n as, _ => ContainsEffectful.pipeBase n as
  | Expr.assignTemporary e x, h =>
      ContainsEffectful.assignStep e x
        (needsTemp_imp_contains e (by simpa [needsTemporaryInSafeAccess] using h))
  | Expr.readTemporary x, h => by simp [needsTemporaryInSafeAccess] at h
  | Expr.safeTernary g b, h => by simp [needsTemporaryInSafeAccess] at h

theorem contains_imp_needsTemp (e : Expr) (h : ContainsEffectful e) :
    needsTemporaryInSafeAccess e = true := by
  induction h with
  | invokeBase r as => rfl
  | arrayBase es => rfl
  | mapBase ks vs => rfl
  | safeInvokeBase r as => rfl
  | pipeBase n as => rfl
  | unaryStep op e _ ih => rw [needsTemporaryInSafeAccess]; exact ih
  | binaryLhs op lhs rhs _ ih => rw [needsTemporaryInSafeAccess, ih, Bool.true_or]
  | binaryRhs op lhs rhs _ ih => rw [needsTemporaryInSafeAccess, ih, Bool.or_true]
  | condCondition c t fc _ ih =>
      cases fc <;> simp [needsTemporaryInSafeAccess, ih]
  | condTrueCase c t fc _ ih =>
      cases fc <;> simp [needsTemporaryInSafeAccess, ih]
  | condFalseCase c t f _ ih => simp [needsTemporaryInSafeAccess, ih]
  | notStep c _ ih => rw [needsTemporaryInSafeAccess]; exact ih
  | assignStep e x _ ih => rw [needsTemporaryInSafeAccess]; exact ih
  | readPropStep r n _ ih => rw [needsTemporaryInSafeAccess]; exact ih
  | readKeyReceiver r i _ ih => rw [needsTemporaryInSafeAccess, ih, Bool.true_or]
  | readKeyIndex r i _ ih => rw [needsTemporaryInSafeAccess, ih, Bool.or_true]

/-- C7: the temporary-necessity classifier returns true exactly for the
expressions that are, or structurally contain (descending only through the
listed paths — in particular never through the receiver of a safe property
or safe keyed read), one of: function invoke, array literal, map literal,
safe function invoke, pipe binding call. -/
theorem c7_classifier_characterization :
    (∀ e, needsTemporaryInSafeAccess e = true ↔ ContainsEffectful e) ∧
    (∀ r n, needsTemporaryInSafeAccess (Expr.safePropertyRead r n) = false) ∧
    (∀ r i, needsTemporaryInSafeAccess (Expr.safeKeyedRead r i) = false) :=
  ⟨fun e => ⟨needsTemp_imp_contains e, contains_imp_needsTemp e⟩,
   fun _ _ => rfl, fun _ _ => rfl⟩

/-!
## C8
-/

mutual
/-- The second sweep leaves no safe-ternary node anywhere: the per-node
transform replaces every safe ternary (children already clean) by a
conditional built of clean parts. -/
theorem tt_noST : ∀ e, safeTernaryCount (transformExpr ternaryTransform e) = 0
  | Expr.literal v => by simp [transformExpr, ternaryTransform, safeTernaryCount, countNodes, isSafeTernary]
  | Expr.readVar n => by simp [transformExpr, ternaryTransform, safeTernaryCount, countNodes, isSafeTernary]
  | Expr.unary op e => by
      have ih := tt_noST e
      simp_all [transformExpr, ternaryTransform, safeTernaryCount, countNodes, isSafeTernary]
  | Expr.binary op lhs rhs => by
      have ih1 := tt_noST lhs
      have ih2 := tt_noST rhs
      simp_all [transformExpr, ternaryTransform, safeTernaryCount, countNodes, isSafeTernary]
  | Expr.conditional c t fc => by
      have ih1 := tt_noST c
      have ih2 := tt_noST t
      have ih3 := tt_noST_opt fc
      simp_all [transformExpr, ternaryTransform, safeTernaryCount, countNodes, isSafeTernary]
  | Expr.notExpr c => by
      have ih := tt_noST c
      simp_all [transformExpr, ternaryTransform, safeTernaryCount, countNodes, isSafeTernary]
  | Expr.literalArray es => by
      have ih := tt_noST_list es
      simp_all [transformExpr, ternaryTransform, safeTernaryCount, countNodes, isSafeTernary]
  | Expr.literalMap ks vs => by
      have ih := tt_noST_list vs
      simp_all [transformExpr, ternaryTransform, safeTernaryCount, countNodes, isSafeTernary]
  | Expr.readProp r n => by
      have ih := tt_noST r
      simp_all [transformExpr, ternaryTransform, safeTernaryCount, countNodes, isSafeTernary]
  | Expr.readKey r i => by
      have ih1 := tt_noST r
      have ih2 := tt_noST i
      simp_all [transformExpr, ternaryTransform, safeTernaryCount, countNodes, isSafeTernary]
  | Expr.invokeFn r as => by
      have ih1 := tt_noST r
      have ih2 := tt_noST_list as
      simp_all [transformExpr, ternaryTransform, safeTernaryCount, countNodes, isSafeTernary]
  | Expr.safePropertyRead r n => by
      have ih := tt_noST r
      simp_all [transformExpr, ternaryTransform, safeTernaryCount, countNodes, isSafeTernary]
  | Expr.safeKeyedRead r i => by
      have ih1 := tt_noST r
      have ih2 := tt_noST i
      simp_all [transformExpr, ternaryTransform, safeTernaryCount, countNodes, isSafeTernary]
  | Expr.safeInvokeFn r as => by
      have ih1 := tt_noST r
      have ih2 := tt_noST_list as
      simp_all [transformExpr, ternaryTransform, safeTernaryCount, countNodes, isSafeTernary]
  | Expr.pipeBinding n as => by
      have ih := tt_noST_list as
      simp_all [transformExpr, ternaryTransform, safeTernaryCount, countNodes, isSafeTernary]
  | Expr.assignTemporary e x => by
      have ih := tt_noST e
      simp_all [transformExpr, ternaryTransform, safeTernaryCount, countNodes, isSafeTernary]
  | Expr.readTemporary x => by
      simp [transformExpr, ternaryTransform, safeTernaryCount, countNodes, isSafeTernary]
  | Expr.safeTernary g b => by
      have ih1 := tt_noST g
      have ih2 := tt_noST b
      simp_all [transformExpr, ternaryTransform, safeTernaryCount, countNodes,
        countNodesOpt, isSafeTernary, NULL_EXPR]

/-- Optional-child part of `tt_noST`. -/
theorem tt_noST_opt : ∀ fc, countNodesOpt isSafeTernary (transformOptExpr ternaryTransform fc) = 0
  | OptExpr.none => by simp [transformOptExpr, countNodesOpt]
  | OptExpr.some e => by
      have ih := tt_noST e
      simp_all [transformOptExpr, countNodesOpt, safeTernaryCount]

/-- List part of `tt_noST`. -/
theorem tt_noST_list : ∀ es, countNodesList isSafeTernary (transformExprList ternaryTransform es) = 0
  | ExprList.nil => by simp [transformExprList, countNodesList]
  | ExprList.cons e es => by
      have ih1 := tt_noST e
      have ih2 := tt_noST_list es
      simp_all [transformExprList, countNodesList, safeTernaryCount]
end

/-- C8: `ternaryTransform` maps every `safe-ternary(guard, body)` to
`conditional(guard == null, null, body)` and every other node to itself, and
after the second sweep no safe-ternary node remains anywhere in the
expression. -/
theorem c8_ternary_lowering :
    (∀ g b, ternaryTransform (Expr.safeTernary g b)
        = Expr.conditional (Expr.binary BinaryOperator.equals g NULL_EXPR) NULL_EXPR
            (OptExpr.some b)) ∧
    (∀ e, isSafeTernary e = false → ternaryTransform e = e) ∧
    (∀ e, safeTernaryCount (transformExpr ternaryTransform e) = 0) := by
  refine ⟨fun g b => rfl, ?_, tt_noST⟩
  intro e h
  cases e <;> simp_all [ternaryTransform, isSafeTernary]

/-- Closed witness for C8's guarded conjunct, at a non-safe-ternary node and
at a lowered chain. -/
theorem c8_ternary_lowering_witness :
    ternaryTransform (Expr.readVar "a") = Expr.readVar "a" ∧
    safeTernaryCount
        (transformExpr ternaryTransform
          (Expr.safeTernary (Expr.readVar "a")
            (Expr.readProp (Expr.readVar "a") "b"))) = 0 :=
  ⟨c8_ternary_lowering.2.1 (Expr.readVar "a") rfl,
   c8_ternary_lowering.2.2
     (Expr.safeTernary (Expr.readVar "a") (Expr.readProp (Expr.readVar "a") "b"))⟩

/-!
## C10
-/

/-- C10: evaluation-order violation.  For the chain `a?.[b?.c()]?.d` the
input contains a single invocation, and its direct evaluation performs one
call; but the lowered output contains the invocation twice (the deepest open
body, which contains the call inside a safe-ternary, is classified as not
needing a temporary and is therefore duplicated into guard and body), and
evaluating the output in a world where no guard is null performs the call
twice — the guard's side effects do not occur exactly once. -/
theorem c10_call_duplicated_in_output :
    invocationCount chainCallInIndex = 1 ∧
    callEvents (evalEvents allObjWorld chainCallInIndex) = 1 ∧
    invocationCount (expandSafeReadsExpr chainCallInIndex (stdCtx 0)).1 = 2 ∧
    callEvents (evalEvents allObjWorld (expandSafeReadsExpr chainCallInIndex (stdCtx 0)).1) = 2 :=
  ⟨rfl, rfl, rfl, rfl⟩

/-!
## C9: the first run leaves no safe access and no safe ternary, and both
sweeps of a second run are identities.
-/

theorem countNodes_zero_root (p : Expr → Bool) :
    ∀ e, countNodes p e = 0 → p e = false := by
  intro e h
  by_cases hp : p e = true
  · exfalso
    cases e <;> rw [countNodes, hp] at h <;> simp at h
  · simpa using hp

mutual
/-- The dedup transform introduces only temporary reads and self-assignments
of temporaries, so a subtree without safe accesses stays without them. -/
theorem elim_nsa (tmps : List Nat) (mode : CompatibilityMode) :
    ∀ e, countNodes isSafeAccessExpression e = 0 →
      countNodes isSafeAccessExpression (transformExpr (eliminateOne tmps mode) e) = 0
  | Expr.literal v, h => by
      simp [transformExpr, eliminateOne, countNodes, isSafeAccessExpression]
  | Expr.readVar n, h => by
      simp [transformExpr, eliminateOne, countNodes, isSafeAccessExpression]
  | Expr.unary op e, h => by
      rw [countNodes] at h
      simp only [isSafeAccessExpression, Bool.false_eq_true, if_false, Nat.zero_add] at h
      simp [transformExpr, eliminateOne, countNodes, isSafeAccessExpression,
        elim_nsa tmps mode e h]
  | Expr.binary op lhs rhs, h => by
      rw [countNodes] at h
      simp only [isSafeAccessExpression, Bool.false_eq_true, if_false, Nat.zero_add,
        Nat.add_eq_zero] at h
      simp [transformExpr, eliminateOne, countNodes, isSafeAccessExpression,
        elim_nsa tmps mode lhs h.1, elim_nsa tmps mode rhs h.2]
  | Expr.conditional c t fc, h => by
      rw [countNodes] at h
      simp only [isSafeAccessExpression, Bool.false_eq_true, if_false, Nat.zero_add,
        Nat.add_eq_zero] at h
      simp [transformExpr, eliminateOne, countNodes, isSafeAccessExpression,
        elim_nsa tmps mode c h.1.1, elim_nsa tmps mode t h.1.2,
        elim_nsa_opt tmps mode fc h.2]
  | Expr.notExpr c, h => by
      rw [countNodes] at h
      simp only [isSafeAccessExpression, Bool.false_eq_true, if_false, Nat.zero_add] at h
      simp [transformExpr, eliminateOne, countNodes, isSafeAccessExpression,
        elim_nsa tmps mode c h]
  | Expr.literalArray es, h => by
      rw [countNodes] at h
      simp only [isSafeAccessExpression, Bool.false_eq_true, if_false, Nat.zero_add] at h
      simp [transformExpr, eliminateOne, countNodes, isSafeAccessExpression,
        elim_nsa_list tmps mode es h]
  | Expr.literalMap ks vs, h => by
      rw [countNodes] at h
      simp only [isSafeAccessExpression, Bool.false_eq_true, if_false, Nat.zero_add] at h
      simp [transformExpr, eliminateOne, countNodes, isSafeAccessExpression,
        elim_nsa_list tmps mode vs h]
  | Expr.readProp r n, h => by
      rw [countNodes] at h
      simp only [isSafeAccessExpression, Bool.false_eq_true, if_false, Nat.zero_add] at h
      simp [transformExpr, eliminateOne, countNodes, isSafeAccessExpression,
        elim_nsa tmps mode r h]
  | Expr.readKey r i, h => by
      rw [countNodes] at h
      simp only [isSafeAccessExpression, Bool.false_eq_true, if_false, Nat.zero_add,
        Nat.add_eq_zero] at h
      simp [transformExpr, eliminateOne, countNodes, isSafeAccessExpression,
        elim_nsa tmps mode r h.1, elim_nsa tmps mode i h.2]
  | Expr.invokeFn r as, h => by
      rw [countNodes] at h
      simp only [isSafeAccessExpression, Bool.false_eq_true, if_false, Nat.zero_add,
        Nat.add_eq_zero] at h
      simp [transformExpr, eliminateOne, countNodes, isSafeAccessExpression,
        elim_nsa tmps mode r h.1, elim_nsa_list tmps mode as h.2]
  | Expr.safePropertyRead r n, h => by
      rw [countNodes] at h
      simp [isSafeAccessExpression] at h
  | Expr.safeKeyedRead r i, h => by
      rw [countNodes] at h
      simp [isSafeAccessExpression] at h
  | Expr.safeInvokeFn r as, h => by
      rw [countNodes] at h
      simp [isSafeAccessExpression] at h
  | Expr.pipeBinding n as, h => by
      rw [countNodes] at h
      simp only [isSafeAccessExpression, Bool.false_eq_true, if_false, Nat.zero_add] at h
      simp [transformExpr, eliminateOne, countNodes, isSafeAccessExpression,
        elim_nsa_list tmps mode as h]
  | Expr.assignTemporary e y, h => by
      rw [countNodes] at h
      simp only [isSafeAccessExpression, Bool.false_eq_true, if_false, Nat.zero_add] at h
      by_cases hy : y ∈ tmps
      · cases mode <;>
          simp [transformExpr, eliminateOne, hy, countNodes, isSafeAccessExpression]
      · simp [transformExpr, eliminateOne, hy, countNodes, isSafeAccessExpression,
          elim_nsa tmps mode e h]
  | Expr.readTemporary y, h => by
      simp [transformExpr, eliminateOne, countNodes, isSafeAccessExpression]
  | Expr.safeTernary g b, h => by
      rw [countNodes] at h
      simp only [isSafeAccessExpression, Bool.false_eq_true, if_false, Nat.zero_add,
        Nat.add_eq_zero] at h
      simp [transformExpr, eliminateOne, countNodes, isSafeAccessExpression,
        elim_nsa tmps mode g h.1, elim_nsa tmps mode b h.2]

/-- Optional-child part of `elim_nsa`. -/
theorem elim_nsa_opt (tmps : List Nat) (mode : CompatibilityMode) :
    ∀ fc, countNodesOpt isSafeAccessExpression fc = 0 →
      countNodesOpt isSafeAccessExpression (transformOptExpr (eliminateOne tmps mode) fc) = 0
  | OptExpr.none, _ => by simp [transformOptExpr, countNodesOpt]
  | OptExpr.some e, h => by
      rw [countNodesOpt] at h
      simp [transformOptExpr, countNodesOpt, elim_nsa tmps mode e h]

/-- List part of `elim_nsa`. -/
theorem elim_nsa_list (tmps : List Nat) (mode : CompatibilityMode) :
    ∀ es, countNodesList isSafeAccessExpression es = 0 →
      countNodesList isSafeAccessExpression (transformExprList (eliminateOne tmps mode) es) = 0
  | ExprList.nil, _ => by simp [transformExprList, countNodesList]
  | ExprList.cons e es, h => by
      rw [countNodesList] at h
      simp only [Nat.add_eq_zero] at h
      simp [transformExprList, countNodesList, elim_nsa tmps mode e h.1,
        elim_nsa_list tmps mode es h.2]
end

/-- The root-preserving visitor run of the eliminator also keeps a tree free
of safe accesses. -/
theorem elim_children_nsa (tmps : List Nat) (ctx : SafeTransformContext) (e : Expr)
    (h : countNodes isSafeAccessExpression e = 0) :
    countNodes isSafeAccessExpression (eliminateTemporaryAssignments e tmps ctx) = 0 := by
  cases e <;>
    simp_all [eliminateTemporaryAssignments, transformChildren, countNodes,
      countNodesOpt, countNodesList, isSafeAccessExpression,
      elim_nsa tmps ctx.job.compatibility, elim_nsa_opt tmps ctx.job.compatibility,
      elim_nsa_list tmps ctx.job.compatibility]

theorem safeTransform_nonaccess (e : Expr) (ctx : SafeTransformContext)
    (h : isAccessExpression e = false) : safeTransform e ctx = (e, ctx) := by
  simp [safeTransform, h]

theorem updateDeepestM_st_of_st (g b : Expr)
    (f : Expr → SafeTransformContext → Expr × SafeTransformContext)
    (c : SafeTransformContext) (hb : isSafeTernary b = true) :
    updateDeepestM (Expr.safeTernary g b) f c
      = (Expr.safeTernary g (updateDeepestM b f c).1, (updateDeepestM b f c).2) := by
  rw [updateDeepestM, hb]
  simp only [if_true]

theorem updateDeepestM_st_of_not_st (g b : Expr)
    (f : Expr → SafeTransformContext → Expr × SafeTransformContext)
    (c : SafeTransformContext) (hb : isSafeTernary b = false) :
    updateDeepestM (Expr.safeTernary g b) f c
      = (Expr.safeTernary g (f b c).1, (f b c).2) := by
  rw [updateDeepestM, hb]
  simp only [Bool.false_eq_true, if_false]

theorem safeTransform_readProp_st (r : Expr) (n : String) (ctx : SafeTransformContext)
    (h : isSafeTernary r = true) :
    safeTransform (Expr.readProp r n) ctx
      = (updateDeepest r (fun b => Expr.readProp b n), ctx) := by
  simp [safeTransform, isAccessExpression, isSafeAccessExpression,
    isUnsafeAccessExpression, hasDeepestSafeTernary, accessReceiver, h]

theorem safeTransform_readProp_no (r : Expr) (n : String) (ctx : SafeTransformContext)
    (h : isSafeTernary r = false) :
    safeTransform (Expr.readProp r n) ctx = (Expr.readProp r n, ctx) := by
  simp [safeTransform, isAccessExpression, isSafeAccessExpression,
    isUnsafeAccessExpression, hasDeepestSafeTernary, accessReceiver, h]

theorem safeTransform_readKey_st (r i : Expr) (ctx : SafeTransformContext)
    (h : isSafeTernary r = true) :
    safeTransform (Expr.readKey r i) ctx
      = (updateDeepest r (fun b => Expr.readKey b i), ctx) := by
  simp [safeTransform, isAccessExpression, isSafeAccessExpression,
    isUnsafeAccessExpression, hasDeepestSafeTernary, accessReceiver, h]

theorem safeTransform_readKey_no (r i : Expr) (ctx : SafeTransformContext)
    (h : isSafeTernary r = false) :
    safeTransform (Expr.readKey r i) ctx = (Expr.readKey r i, ctx) := by
  simp [safeTransform, isAccessExpression, isSafeAccessExpression,
    isUnsafeAccessExpression, hasDeepestSafeTernary, accessReceiver, h]

theorem safeTransform_invokeFn_st (r : Expr) (as : ExprList) (ctx : SafeTransformContext)
    (h : isSafeTernary r = true) :
    safeTransform (Expr.invokeFn r as) ctx
      = (updateDeepest r (fun b => Expr.invokeFn b as), ctx) := by
  simp [safeTransform, isAccessExpression, isSafeAccessExpression,
    isUnsafeAccessExpression, hasDeepestSafeTernary, accessReceiver, h]

theorem safeTransform_invokeFn_no (r : Expr) (as : ExprList) (ctx : SafeTransformContext)
    (h : isSafeTernary r = false) :
    safeTransform (Expr.invokeFn r as) ctx = (Expr.invokeFn r as, ctx) := by
  simp [safeTransform, isAccessExpression, isSafeAccessExpression,
    isUnsafeAccessExpression, hasDeepestSafeTernary, accessReceiver, h]

theorem safeTransform_safeProp_st (r : Expr) (n : String) (ctx : SafeTransformContext)
    (h : isSafeTernary r = true) :
    safeTransform (Expr.safePropertyRead r n) ctx
      = updateDeepestM r
          (fun b c => safeTernaryWithTemporary b (fun x => Expr.readProp x n) c) ctx := by
  simp [safeTransform, isAccessExpression, isSafeAccessExpression,
    isUnsafeAccessExpression, hasDeepestSafeTernary, accessReceiver, h]

theorem safeTransform_safeProp_no (r : Expr) (n : String) (ctx : SafeTransformContext)
    (h : isSafeTernary r = false) :
    safeTransform (Expr.safePropertyRead r n) ctx
      = safeTernaryWithTemporary r (fun x => Expr.readProp x n) ctx := by
  simp [safeTransform, isAccessExpression, isSafeAccessExpression,
    isUnsafeAccessExpression, hasDeepestSafeTernary, accessReceiver, h]

theorem safeTransform_safeKey_st (r i : Expr) (ctx : SafeTransformContext)
    (h : isSafeTernary r = true) :
    safeTransform (Expr.safeKeyedRead r i) ctx
      = updateDeepestM r
          (fun b c => safeTernaryWithTemporary b (fun x => Expr.readKey x i) c) ctx := by
  simp [safeTransform, isAccessExpression, isSafeAccessExpression,
    isUnsafeAccessExpression, hasDeepestSafeTernary, accessReceiver, h]

theorem safeTransform_safeKey_no (r i : Expr) (ctx : SafeTransformContext)
    (h : isSafeTernary r = false) :
    safeTransform (Expr.safeKeyedRead r i) ctx
      = safeTernaryWithTemporary r (fun x => Expr.readKey x i) ctx := by
  simp [safeTransform, isAccessExpression, isSafeAccessExpression,
    isUnsafeAccessExpression, hasDeepestSafeTernary, accessReceiver, h]

theorem safeTransform_safeInvoke_st (r : Expr) (as : ExprList) (ctx : SafeTransformContext)
    (h : isSafeTernary r = true) :
    safeTransform (Expr.safeInvokeFn r as) ctx
      = updateDeepestM r
          (fun b c => safeTernaryWithTemporary b (fun x => Expr.invokeFn x as) c) ctx := by
  simp [safeTransform, isAccessExpression, isSafeAccessExpression,
    isUnsafeAccessExpression, hasDeepestSafeTernary, accessReceiver, h]

theorem safeTransform_safeInvoke_no (r : Expr) (as : ExprList) (ctx : SafeTransformContext)
    (h : isSafeTernary r = false) :
    safeTransform (Expr.safeInvokeFn r as) ctx
      = safeTernaryWithTemporary r (fun x => Expr.invokeFn x as) ctx := by
  simp [safeTransform, isAccessExpression, isSafeAccessExpression,
    isUnsafeAccessExpression, hasDeepestSafeTernary, accessReceiver, h]

theorem sTWT_nsa (guard : Expr) (body : Expr → Expr) (ctx : SafeTransformContext)
    (hg : countNodes isSafeAccessExpression guard = 0)
    (hb : ∀ x, countNodes isSafeAccessExpression x = 0 →
      countNodes isSafeAccessExpression (body x) = 0) :
    countNodes isSafeAccessExpression (safeTernaryWithTemporary guard body ctx).1 = 0 := by
  by_cases hn : needsTemporaryInSafeAccess guard
  · have hx := hb (Expr.readTemporary ctx.job.nextXrefId)
      (by simp [countNodes, isSafeAccessExpression])
    simp [safeTernaryWithTemporary, hn, countNodes, isSafeAccessExpression, hg,
      CompilationJob.allocateXrefId, hx]
  · have hc := elim_children_nsa (temporariesIn guard) ctx guard hg
    simp only [Bool.not_eq_true] at hn
    simp [safeTernaryWithTemporary, hn, countNodes, isSafeAccessExpression, hg, hb _ hc]

theorem updateDeepest_nsa (f : Expr → Expr)
    (hf : ∀ b, countNodes isSafeAccessExpression b = 0 →
      countNodes isSafeAccessExpression (f b) = 0) :
    ∀ st, countNodes isSafeAccessExpression st = 0 →
      countNodes isSafeAccessExpression (updateDeepest st f) = 0
  | Expr.safeTernary g b, h => by
      rw [countNodes] at h
      simp only [isSafeAccessExpression, Bool.false_eq_true, if_false, Nat.zero_add,
        Nat.add_eq_zero] at h
      by_cases hb : isSafeTernary b
      · rw [updateDeepest_st_of_st g b f hb]
        simp [countNodes, isSafeAccessExpression, h.1, updateDeepest_nsa f hf b h.2]
      · simp only [Bool.not_eq_true] at hb
        rw [updateDeepest_st_of_not_st g b f hb]
        simp [countNodes, isSafeAccessExpression, h.1, hf b h.2]
  | Expr.literal v, h => by rw [updateDeepest] <;> first | exact h | (intro g2 e2 hh; exact Expr.noConfusion hh)
  | Expr.readVar n, h => by rw [updateDeepest] <;> first | exact h | (intro g2 e2 hh; exact Expr.noConfusion hh)
  | Expr.unary op e, h => by rw [updateDeepest] <;> first | exact h | (intro g2 e2 hh; exact Expr.noConfusion hh)
  | Expr.binary op lhs rhs, h => by rw [updateDeepest] <;> first | exact h | (intro g2 e2 hh; exact Expr.noConfusion hh)
  | Expr.conditional c t fc, h => by rw [updateDeepest] <;> first | exact h | (intro g2 e2 hh; exact Expr.noConfusion hh)
  | Expr.notExpr c, h => by rw [updateDeepest] <;> first | exact h | (intro g2 e2 hh; exact Expr.noConfusion hh)
  | Expr.literalArray es, h => by rw [updateDeepest] <;> first | exact h | (intro g2 e2 hh; exact Expr.noConfusion hh)
  | Expr.literalMap ks vs, h => by rw [updateDeepest] <;> first | exact h | (intro g2 e2 hh; exact Expr.noConfusion hh)
  | Expr.readProp r n, h => by rw [updateDeepest] <;> first | exact h | (intro g2 e2 hh; exact Expr.noConfusion hh)
  | Expr.readKey r i, h => by rw [updateDeepest] <;> first | exact h | (intro g2 e2 hh; exact Expr.noConfusion hh)
  | Expr.invokeFn r as, h => by rw [updateDeepest] <;> first | exact h | (intro g2 e2 hh; exact Expr.noConfusion hh)
  | Expr.safePropertyRead r n, h => by rw [updateDeepest] <;> first | exact h | (intro g2 e2 hh; exact Expr.noConfusion hh)
  | Expr.safeKeyedRead r i, h => by rw [updateDeepest] <;> first | exact h | (intro g2 e2 hh; exact Expr.noConfusion hh)
  | Expr.safeInvokeFn r as, h => by rw [updateDeepest] <;> first | exact h | (intro g2 e2 hh; exact Expr.noConfusion hh)
  | Expr.pipeBinding n as, h => by rw [updateDeepest] <;> first | exact h | (intro g2 e2 hh; exact Expr.noConfusion hh)
  | Expr.assignTemporary e x, h => by rw [updateDeepest] <;> first | exact h | (intro g2 e2 hh; exact Expr.noConfusion hh)
  | Expr.readTemporary x, h => by rw [updateDeepest] <;> first | exact h | (intro g2 e2 hh; exact Expr.noConfusion hh)

theorem updateDeepestM_nsa (f : Expr → SafeTransformContext → Expr × SafeTransformContext)
    (hf : ∀ b c, countNodes isSafeAccessExpression b = 0 →
      countNodes isSafeAccessExpression (f b c).1 = 0) :
    ∀ st c, countNodes isSafeAccessExpression st = 0 →
      countNodes isSafeAccessExpression (updateDeepestM st f c).1 = 0
  | Expr.safeTernary g b, c, h => by
      rw [countNodes] at h
      simp only [isSafeAccessExpression, Bool.false_eq_true, if_false, Nat.zero_add,
        Nat.add_eq_zero] at h
      by_cases hb : isSafeTernary b
      · rw [updateDeepestM_st_of_st g b f c hb]
        simp [countNodes, isSafeAccessExpression, h.1, updateDeepestM_nsa f hf b c h.2]
      · simp only [Bool.not_eq_true] at hb
        rw [updateDeepestM_st_of_not_st g b f c hb]
        simp [countNodes, isSafeAccessExpression, h.1, hf b c h.2]
  | Expr.literal v, c, h => by rw [updateDeepestM] <;> first | exact h | (intro g2 e2 hh; exact Expr.noConfusion hh)
  | Expr.readVar n, c, h => by rw [updateDeepestM] <;> first | exact h | (intro g2 e2 hh; exact Expr.noConfusion hh)
  | Expr.unary op e, c, h => by rw [updateDeepestM] <;> first | exact h | (intro g2 e2 hh; exact Expr.noConfusion hh)
  | Expr.binary op lhs rhs, c, h => by rw [updateDeepestM] <;> first | exact h | (intro g2 e2 hh; exact Expr.noConfusion hh)
  | Expr.conditional cc t fc, c, h => by rw [updateDeepestM] <;> first | exact h | (intro g2 e2 hh; exact Expr.noConfusion hh)
  | Expr.notExpr cc, c, h => by rw [updateDeepestM] <;> first | exact h | (intro g2 e2 hh; exact Expr.noConfusion hh)
  | Expr.literalArray es, c, h => by rw [updateDeepestM] <;> first | exact h | (intro g2 e2 hh; exact Expr.noConfusion hh)
  | Expr.literalMap ks vs, c, h => by rw [updateDeepestM] <;> first | exact h | (intro g2 e2 hh; exact Expr.noConfusion hh)
  | Expr.readProp r n, c, h => by rw [updateDeepestM] <;> first | exact h | (intro g2 e2 hh; exact Expr.noConfusion hh)
  | Expr.readKey r i, c, h => by rw [updateDeepestM] <;> first | exact h | (intro g2 e2 hh; exact Expr.noConfusion hh)
  | Expr.invokeFn r as, c, h => by rw [updateDeepestM] <;> first | exact h | (intro g2 e2 hh; exact Expr.noConfusion hh)
  | Expr.safePropertyRead r n, c, h => by rw [updateDeepestM] <;> first | exact h | (intro g2 e2 hh; exact Expr.noConfusion hh)
  | Expr.safeKeyedRead r i, c, h => by rw [updateDeepestM] <;> first | exact h | (intro g2 e2 hh; exact Expr.noConfusion hh)
  | Expr.safeInvokeFn r as, c, h => by rw [updateDeepestM] <;> first | exact h | (intro g2 e2 hh; exact Expr.noConfusion hh)
  | Expr.pipeBinding n as, c, h => by rw [updateDeepestM] <;> first | exact h | (intro g2 e2 hh; exact Expr.noConfusion hh)
  | Expr.assignTemporary e x, c, h => by rw [updateDeepestM] <;> first | exact h | (intro g2 e2 hh; exact Expr.noConfusion hh)
  | Expr.readTemporary x, c, h => by rw [updateDeepestM] <;> first | exact h | (intro g2 e2 hh; exact Expr.noConfusion hh)

theorem safeTransform_literal (v : LiteralValue) (ctx : SafeTransformContext) :
    safeTransform (Expr.literal v) ctx = (Expr.literal v, ctx) := rfl

theorem safeTransform_readVar (n : String) (ctx : SafeTransformContext) :
    safeTransform (Expr.readVar n) ctx = (Expr.readVar n, ctx) := rfl

theorem safeTransform_unary (op : UnaryOperator) (e : Expr) (ctx : SafeTransformContext) :
    safeTransform (Expr.unary op e) ctx = (Expr.unary op e, ctx) := rfl

theorem safeTransform_binary (op : BinaryOperator) (lhs rhs : Expr)
    (ctx : SafeTransformContext) :
    safeTransform (Expr.binary op lhs rhs) ctx = (Expr.binary op lhs rhs, ctx) := rfl

theorem safeTransform_conditional (c t : Expr) (fc : OptExpr) (ctx : SafeTransformContext) :
    safeTransform (Expr.conditional c t fc) ctx = (Expr.conditional c t fc, ctx) := rfl

theorem safeTransform_notExpr (c : Expr) (ctx : SafeTransformContext) :
    safeTransform (Expr.notExpr c) ctx = (Expr.notExpr c, ctx) := rfl

theorem safeTransform_literalArray (es : ExprList) (ctx : SafeTransformContext) :
    safeTransform (Expr.literalArray es) ctx = (Expr.literalArray es, ctx) := rfl

theorem safeTransform_literalMap (ks : List String) (vs : ExprList)
    (ctx : SafeTransformContext) :
    safeTransform (Expr.literalMap ks vs) ctx = (Expr.literalMap ks vs, ctx) := rfl

theorem safeTransform_pipeBinding (n : String) (as : ExprList) (ctx : SafeTransformContext) :
    safeTransform (Expr.pipeBinding n as) ctx = (Expr.pipeBinding n as, ctx) := rfl

theorem safeTransform_assignTemporary (e : Expr) (x : Nat) (ctx : SafeTransformContext) :
    safeTransform (Expr.assignTemporary e x) ctx = (Expr.assignTemporary e x, ctx) := rfl

theorem safeTransform_readTemporary (x : Nat) (ctx : SafeTransformContext) :
    safeTransform (Expr.readTemporary x) ctx = (Expr.readTemporary x, ctx) := rfl

theorem safeTransform_safeTernary (g b : Expr) (ctx : SafeTransformContext) :
    safeTransform (Expr.safeTernary g b) ctx = (Expr.safeTernary g b, ctx) := rfl

mutual
/-- The first sweep eliminates every safe access: the output of
`transformExprM safeTransform` contains no safe-access node, whatever the
input. -/
theorem sweep1_nsa :
    ∀ e c, countNodes isSafeAccessExpression (transformExprM safeTransform e c).1 = 0
  | Expr.literal v, c => by
      simp only [transformExprM]
      rw [safeTransform_literal]
      simp [countNodes, isSafeAccessExpression]
  | Expr.readVar n, c => by
      simp only [transformExprM]
      rw [safeTransform_readVar]
      simp [countNodes, isSafeAccessExpression]
  | Expr.readTemporary x, c => by
      simp only [transformExprM]
      rw [safeTransform_readTemporary]
      simp [countNodes, isSafeAccessExpression]
  | Expr.unary op e, c => by
      simp only [transformExprM]
      rw [safeTransform_unary]
      simp [countNodes, isSafeAccessExpression, sweep1_nsa e c]
  | Expr.binary op lhs rhs, c => by
      simp only [transformExprM]
      rw [safeTransform_binary]
      simp [countNodes, isSafeAccessExpression, sweep1_nsa lhs c,
        sweep1_nsa rhs (transformExprM safeTransform lhs c).2]
  | Expr.conditional ce t fc, c => by
      simp only [transformExprM]
      rw [safeTransform_conditional]
      simp [countNodes, isSafeAccessExpression, sweep1_nsa ce c,
        sweep1_nsa t (transformExprM safeTransform ce c).2,
        sweep1_nsa_opt fc
          (transformExprM safeTransform t (transformExprM safeTransform ce c).2).2]
  | Expr.notExpr ce, c => by
      simp only [transformExprM]
      rw [safeTransform_notExpr]
      simp [countNodes, isSafeAccessExpression, sweep1_nsa ce c]
  | Expr.literalArray es, c => by
      simp only [transformExprM]
      rw [safeTransform_literalArray]
      simp [countNodes, isSafeAccessExpression, sweep1_nsa_list es c]
  | Expr.literalMap ks vs, c => by
      simp only [transformExprM]
      rw [safeTransform_literalMap]
      simp [countNodes, isSafeAccessExpression, sweep1_nsa_list vs c]
  | Expr.pipeBinding n as, c => by
      simp only [transformExprM]
      rw [safeTransform_pipeBinding]
      simp [countNodes, isSafeAccessExpression, sweep1_nsa_list as c]
  | Expr.assignTemporary e x, c => by
      simp only [transformExprM]
      rw [safeTransform_assignTemporary]
      simp [countNodes, isSafeAccessExpression, sweep1_nsa e c]
  | Expr.safeTernary g b, c => by
      simp only [transformExprM]
      rw [safeTransform_safeTernary]
      simp [countNodes, isSafeAccessExpression, sweep1_nsa g c,
        sweep1_nsa b (transformExprM safeTransform g c).2]
  | Expr.readProp r n, c => by
      simp only [transformExprM]
      by_cases hst : isSafeTernary (transformExprM safeTransform r c).1
      · rw [safeTransform_readProp_st _ _ _ hst]
        exact updateDeepest_nsa _
          (fun b hb => by simp [countNodes, isSafeAccessExpression, hb])
          _ (sweep1_nsa r c)
      · simp only [Bool.not_eq_true] at hst
        rw [safeTransform_readProp_no _ _ _ hst]
        simp [countNodes, isSafeAccessExpression, sweep1_nsa r c]
  | Expr.readKey r i, c => by
      simp only [transformExprM]
      have hi := sweep1_nsa i (transformExprM safeTransform r c).2
      by_cases hst : isSafeTernary (transformExprM safeTransform r c).1
      · rw [safeTransform_readKey_st _ _ _ hst]
        exact updateDeepest_nsa _
          (fun b hb => by simp [countNodes, isSafeAccessExpression, hb, hi])
          _ (sweep1_nsa r c)
      · simp only [Bool.not_eq_true] at hst
        rw [safeTransform_readKey_no _ _ _ hst]
        simp [countNodes, isSafeAccessExpression, sweep1_nsa r c, hi]
  | Expr.invokeFn r as, c => by
      simp only [transformExprM]
      have ha := sweep1_nsa_list as (transformExprM safeTransform r c).2
      by_cases hst : isSafeTernary (transformExprM safeTransform r c).1
      · rw [safeTransform_invokeFn_st _ _ _ hst]
        exact updateDeepest_nsa _
          (fun b hb => by simp [countNodes, isSafeAccessExpression, hb, ha])
          _ (sweep1_nsa r c)
      · simp only [Bool.not_eq_true] at hst
        rw [safeTransform_invokeFn_no _ _ _ hst]
        simp [countNodes, isSafeAccessExpression, sweep1_nsa r c, ha]
  | Expr.safePropertyRead r n, c => by
      simp only [transformExprM]
      by_cases hst : isSafeTernary (transformExprM safeTransform r c).1
      · rw [safeTransform_safeProp_st _ _ _ hst]
        exact updateDeepestM_nsa _
          (fun b cc hb => sTWT_nsa b _ cc hb
            (fun x hx => by simp [countNodes, isSafeAccessExpression, hx]))
          _ _ (sweep1_nsa r c)
      · simp only [Bool.not_eq_true] at hst
        rw [safeTransform_safeProp_no _ _ _ hst]
        exact sTWT_nsa _ _ _ (sweep1_nsa r c)
          (fun x hx => by simp [countNodes, isSafeAccessExpression, hx])
  | Expr.safeKeyedRead r i, c => by
      simp only [transformExprM]
      have hi := sweep1_nsa i (transformExprM safeTransform r c).2
      by_cases hst : isSafeTernary (transformExprM safeTransform r c).1
      · rw [safeTransform_safeKey_st _ _ _ hst]
        exact updateDeepestM_nsa _
          (fun b cc hb => sTWT_nsa b _ cc hb
            (fun x hx => by simp [countNodes, isSafeAccessExpression, hx, hi]))
          _ _ (sweep1_nsa r c)
      · simp only [Bool.not_eq_true] at hst
        rw [safeTransform_safeKey_no _ _ _ hst]
        exact sTWT_nsa _ _ _ (sweep1_nsa r c)
          (fun x hx => by simp [countNodes, isSafeAccessExpression, hx, hi])
  | Expr.safeInvokeFn r as, c => by
      simp only [transformExprM]
      have ha := sweep1_nsa_list as (transformExprM safeTransform r c).2
      by_cases hst : isSafeTernary (transformExprM safeTransform r c).1
      · rw [safeTransform_safeInvoke_st _ _ _ hst]
        exact updateDeepestM_nsa _
          (fun b cc hb => sTWT_nsa b _ cc hb
            (fun x hx => by simp [countNodes, isSafeAccessExpression, hx, ha]))
          _ _ (sweep1_nsa r c)
      · simp only [Bool.not_eq_true] at hst
        rw [safeTransform_safeInvoke_no _ _ _ hst]
        exact sTWT_nsa _ _ _ (sweep1_nsa r c)
          (fun x hx => by simp [countNodes, isSafeAccessExpression, hx, ha])

/-- Optional-child part of `sweep1_nsa`. -/
theorem sweep1_nsa_opt :
    ∀ fc c, countNodesOpt isSafeAccessExpression (transformOptExprM safeTransform fc c).1 = 0
  | OptExpr.none, c => by simp [transformOptExprM, countNodesOpt]
  | OptExpr.some e, c => by
      simp [transformOptExprM, countNodesOpt, sweep1_nsa e c]

/-- List part of `sweep1_nsa`. -/
theorem sweep1_nsa_list :
    ∀ es c, countNodesList isSafeAccessExpression (transformExprListM safeTransform es c).1 = 0
  | ExprList.nil, c => by simp [transformExprListM, countNodesList]
  | ExprList.cons e es, c => by
      simp [transformExprListM, countNodesList, sweep1_nsa e c,
        sweep1_nsa_list es (transformExprM safeTransform e c).2]
end

mutual
/-- The ternary sweep neither creates nor destroys safe-access nodes. -/
theorem tt_nsa_eq :
    ∀ e, countNodes isSafeAccessExpression (transformExpr ternaryTransform e)
      = countNodes isSafeAccessExpression e
  | Expr.literal v => by simp [transformExpr, ternaryTransform, countNodes, isSafeAccessExpression]
  | Expr.readVar n => by simp [transformExpr, ternaryTransform, countNodes, isSafeAccessExpression]
  | Expr.readTemporary x => by simp [transformExpr, ternaryTransform, countNodes, isSafeAccessExpression]
  | Expr.unary op e => by
      simp [transformExpr, ternaryTransform, countNodes, isSafeAccessExpression, tt_nsa_eq e]
  | Expr.binary op lhs rhs => by
      simp [transformExpr, ternaryTransform, countNodes, isSafeAccessExpression, tt_nsa_eq lhs, tt_nsa_eq rhs]
  | Expr.conditional c t fc => by
      simp [transformExpr, ternaryTransform, countNodes, isSafeAccessExpression, tt_nsa_eq c, tt_nsa_eq t,
        tt_nsa_eq_opt fc]
  | Expr.notExpr c => by
      simp [transformExpr, ternaryTransform, countNodes, isSafeAccessExpression, tt_nsa_eq c]
  | Expr.literalArray es => by
      simp [transformExpr, ternaryTransform, countNodes, isSafeAccessExpression, tt_nsa_eq_list es]
  | Expr.literalMap ks vs => by
      simp [transformExpr, ternaryTransform, countNodes, isSafeAccessExpression, tt_nsa_eq_list vs]
  | Expr.readProp r n => by
      simp [transformExpr, ternaryTransform, countNodes, isSafeAccessExpression, tt_nsa_eq r]
  | Expr.readKey r i => by
      simp [transformExpr, ternaryTransform, countNodes, isSafeAccessExpression, tt_nsa_eq r, tt_nsa_eq i]
  | Expr.invokeFn r as => by
      simp [transformExpr, ternaryTransform, countNodes, isSafeAccessExpression, tt_nsa_eq r, tt_nsa_eq_list as]
  | Expr.safePropertyRead r n => by
      simp [transformExpr, ternaryTransform, countNodes, isSafeAccessExpression, tt_nsa_eq r]
  | Expr.safeKeyedRead r i => by
      simp [transformExpr, ternaryTransform, countNodes, isSafeAccessExpression, tt_nsa_eq r, tt_nsa_eq i]
  | Expr.safeInvokeFn r as => by
      simp [transformExpr, ternaryTransform, countNodes, isSafeAccessExpression, tt_nsa_eq r, tt_nsa_eq_list as]
  | Expr.pipeBinding n as => by
      simp [transformExpr, ternaryTransform, countNodes, isSafeAccessExpression, tt_nsa_eq_list as]
  | Expr.assignTemporary e x => by
      simp [transformExpr, ternaryTransform, countNodes, isSafeAccessExpression, tt_nsa_eq e]
  | Expr.safeTernary g b => by
      simp [transformExpr, ternaryTransform, countNodes, isSafeAccessExpression, countNodesOpt,
        isSafeAccessExpression, NULL_EXPR, tt_nsa_eq g, tt_nsa_eq b]

/-- Optional-child part of `tt_nsa_eq`. -/
theorem tt_nsa_eq_opt :
    ∀ fc, countNodesOpt isSafeAccessExpression (transformOptExpr ternaryTransform fc)
      = countNodesOpt isSafeAccessExpression fc
  | OptExpr.none => rfl
  | OptExpr.some e => by simp [transformOptExpr, countNodesOpt, tt_nsa_eq e]

/-- List part of `tt_nsa_eq`. -/
theorem tt_nsa_eq_list :
    ∀ es, countNodesList isSafeAccessExpression (transformExprList ternaryTransform es)
      = countNodesList isSafeAccessExpression es
  | ExprList.nil => rfl
  | ExprList.cons e es => by
      simp [transformExprList, countNodesList, tt_nsa_eq e, tt_nsa_eq_list es]
end

mutual
/-- On a tree that contains no safe ternary, the ternary sweep is the
identity. -/
theorem tt_id : ∀ e, countNodes isSafeTernary e = 0 → transformExpr ternaryTransform e = e
  | Expr.literal v, _ => rfl
  | Expr.readVar n, _ => rfl
  | Expr.readTemporary x, _ => rfl
  | Expr.unary op e, h => by
      rw [countNodes] at h
      simp only [isSafeTernary, Bool.false_eq_true, if_false, Nat.zero_add] at h
      simp [transformExpr, ternaryTransform, tt_id e h]
  | Expr.binary op lhs rhs, h => by
      rw [countNodes] at h
      simp only [isSafeTernary, Bool.false_eq_true, if_false, Nat.zero_add,
        Nat.add_eq_zero] at h
      simp [transformExpr, ternaryTransform, tt_id lhs h.1, tt_id rhs h.2]
  | Expr.conditional c t fc, h => by
      rw [countNodes] at h
      simp only [isSafeTernary, Bool.false_eq_true, if_false, Nat.zero_add,
        Nat.add_eq_zero] at h
      simp [transformExpr, ternaryTransform, tt_id c h.1.1, tt_id t h.1.2,
        tt_id_opt fc h.2]
  | Expr.notExpr c, h => by
      rw [countNodes] at h
      simp only [isSafeTernary, Bool.false_eq_true, if_false, Nat.zero_add] at h
      simp [transformExpr, ternaryTransform, tt_id c h]
  | Expr.literalArray es, h => by
      rw [countNodes] at h
      simp only [isSafeTernary, Bool.false_eq_true, if_false, Nat.zero_add] at h
      simp [transformExpr, ternaryTransform, tt_id_list es h]
  | Expr.literalMap ks vs, h => by
      rw [countNodes] at h
      simp only [isSafeTernary, Bool.false_eq_true, if_false, Nat.zero_add] at h
      simp [transformExpr, ternaryTransform, tt_id_list vs h]
  | Expr.readProp r n, h => by
      rw [countNodes] at h
      simp only [isSafeTernary, Bool.false_eq_true, if_false, Nat.zero_add] at h
      simp [transformExpr, ternaryTransform, tt_id r h]
  | Expr.readKey r i, h => by
      rw [countNodes] at h
      simp only [isSafeTernary, Bool.false_eq_true, if_false, Nat.zero_add,
        Nat.add_eq_zero] at h
      simp [transformExpr, ternaryTransform, tt_id r h.1, tt_id i h.2]
  | Expr.invokeFn r as, h => by
      rw [countNodes] at h
      simp only [isSafeTernary, Bool.false_eq_true, if_false, Nat.zero_add,
        Nat.add_eq_zero] at h
      simp [transformExpr, ternaryTransform, tt_id r h.1, tt_id_list as h.2]
  | Expr.safePropertyRead r n, h => by
      rw [countNodes] at h
      simp only [isSafeTernary, Bool.false_eq_true, if_false, Nat.zero_add] at h
      simp [transformExpr, ternaryTransform, tt_id r h]
  | Expr.safeKeyedRead r i, h => by
      rw [countNodes] at h
      simp only [isSafeTernary, Bool.false_eq_true, if_false, Nat.zero_add,
        Nat.add_eq_zero] at h
      simp [transformExpr, ternaryTransform, tt_id r h.1, tt_id i h.2]
  | Expr.safeInvokeFn r as, h => by
      rw [countNodes] at h
      simp only [isSafeTernary, Bool.false_eq_true, if_false, Nat.zero_add,
        Nat.add_eq_zero] at h
      simp [transformExpr, ternaryTransform, tt_id r h.1, tt_id_list as h.2]
  | Expr.pipeBinding n as, h => by
      rw [countNodes] at h
      simp only [isSafeTernary, Bool.false_eq_true, if_false, Nat.zero_add] at h
      simp [transformExpr, ternaryTransform, tt_id_list as h]
  | Expr.assignTemporary e x, h => by
      rw [countNodes] at h
      simp only [isSafeTernary, Bool.false_eq_true, if_false, Nat.zero_add] at h
      simp [transformExpr, ternaryTransform, tt_id e h]
  | Expr.safeTernary g b, h => by
      rw [countNodes] at h
      simp [isSafeTernary] at h

/-- Optional-child part of `tt_id`. -/
theorem tt_id_opt :
    ∀ fc, countNodesOpt isSafeTernary fc = 0 → transformOptExpr ternaryTransform fc = fc
  | OptExpr.none, _ => rfl
  | OptExpr.some e, h => by
      rw [countNodesOpt] at h
      simp [transformOptExpr, tt_id e h]

/-- List part of `tt_id`. -/
theorem tt_id_list :
    ∀ es, countNodesList isSafeTernary es = 0 → transformExprList ternaryTransform es = es
  | ExprList.nil, _ => rfl
  | ExprList.cons e es, h => by
      rw [countNodesList] at h
      simp only [Nat.add_eq_zero] at h
      simp [transformExprList, tt_id e h.1, tt_id_list es h.2]
end

mutual
/-- On a tree with no safe access and no safe ternary, the first sweep is the
identity and allocates nothing. -/
theorem sweep1_id :
    ∀ e, countNodes isSafeAccessExpression e = 0 → countNodes isSafeTernary e = 0 →
      ∀ c, transformExprM safeTransform e c = (e, c)
  | Expr.literal v, _, _, c => rfl
  | Expr.readVar n, _, _, c => rfl
  | Expr.readTemporary x, _, _, c => rfl
  | Expr.unary op e, h1, h2, c => by
      rw [countNodes] at h1 h2
      simp only [isSafeAccessExpression, isSafeTernary, Bool.false_eq_true, if_false,
        Nat.zero_add] at h1 h2
      simp only [transformExprM]
      rw [sweep1_id e h1 h2 c, safeTransform_unary]
  | Expr.binary op lhs rhs, h1, h2, c => by
      rw [countNodes] at h1 h2
      simp only [isSafeAccessExpression, isSafeTernary, Bool.false_eq_true, if_false,
        Nat.zero_add, Nat.add_eq_zero] at h1 h2
      simp only [transformExprM]
      rw [sweep1_id lhs h1.1 h2.1 c]
      rw [sweep1_id rhs h1.2 h2.2 c, safeTransform_binary]
  | Expr.conditional ce t fc, h1, h2, c => by
      rw [countNodes] at h1 h2
      simp only [isSafeAccessExpression, isSafeTernary, Bool.false_eq_true, if_false,
        Nat.zero_add, Nat.add_eq_zero] at h1 h2
      simp only [transformExprM]
      rw [sweep1_id ce h1.1.1 h2.1.1 c]
      rw [sweep1_id t h1.1.2 h2.1.2 c]
      rw [sweep1_id_opt fc h1.2 h2.2 c, safeTransform_conditional]
  | Expr.notExpr ce, h1, h2, c => by
      rw [countNodes] at h1 h2
      simp only [isSafeAccessExpression, isSafeTernary, Bool.false_eq_true, if_false,
        Nat.zero_add] at h1 h2
      simp only [transformExprM]
      rw [sweep1_id ce h1 h2 c, safeTransform_notExpr]
  | Expr.literalArray es, h1, h2, c => by
      rw [countNodes] at h1 h2
      simp only [isSafeAccessExpression, isSafeTernary, Bool.false_eq_true, if_false,
        Nat.zero_add] at h1 h2
      simp only [transformExprM]
      rw [sweep1_id_list es h1 h2 c, safeTransform_literalArray]
  | Expr.literalMap ks vs, h1, h2, c => by
      rw [countNodes] at h1 h2
      simp only [isSafeAccessExpression, isSafeTernary, Bool.false_eq_true, if_false,
        Nat.zero_add] at h1 h2
      simp only [transformExprM]
      rw [sweep1_id_list vs h1 h2 c, safeTransform_literalMap]
  | Expr.pipeBinding n as, h1, h2, c => by
      rw [countNodes] at h1 h2
      simp only [isSafeAccessExpression, isSafeTernary, Bool.false_eq_true, if_false,
        Nat.zero_add] at h1 h2
      simp only [transformExprM]
      rw [sweep1_id_list as h1 h2 c, safeTransform_pipeBinding]
  | Expr.assignTemporary e x, h1, h2, c => by
      rw [countNodes] at h1 h2
      simp only [isSafeAccessExpression, isSafeTernary, Bool.false_eq_true, if_false,
        Nat.zero_add] at h1 h2
      simp only [transformExprM]
      rw [sweep1_id e h1 h2 c, safeTransform_assignTemporary]
  | Expr.safeTernary g b, h1, h2, c => by
      rw [countNodes] at h2
      simp [isSafeTernary] at h2
  | Expr.readProp r n, h1, h2, c => by
      rw [countNodes] at h1 h2
      simp only [isSafeAccessExpression, isSafeTernary, Bool.false_eq_true, if_false,
        Nat.zero_add] at h1 h2
      simp only [transformExprM]
      rw [sweep1_id r h1 h2 c,
        safeTransform_readProp_no r n c (countNodes_zero_root isSafeTernary r h2)]
  | Expr.readKey r i, h1, h2, c => by
      rw [countNodes] at h1 h2
      simp only [isSafeAccessExpression, isSafeTernary, Bool.false_eq_true, if_false,
        Nat.zero_add, Nat.add_eq_zero] at h1 h2
      simp only [transformExprM]
      rw [sweep1_id r h1.1 h2.1 c]
      rw [sweep1_id i h1.2 h2.2 c,
        safeTransform_readKey_no r i c (countNodes_zero_root isSafeTernary r h2.1)]
  | Expr.invokeFn r as, h1, h2, c => by
      rw [countNodes] at h1 h2
      simp only [isSafeAccessExpression, isSafeTernary, Bool.false_eq_true, if_false,
        Nat.zero_add, Nat.add_eq_zero] at h1 h2
      simp only [transformExprM]
      rw [sweep1_id r h1.1 h2.1 c]
      rw [sweep1_id_list as h1.2 h2.2 c,
        safeTransform_invokeFn_no r as c (countNodes_zero_root isSafeTernary r h2.1)]
  | Expr.safePropertyRead r n, h1, h2, c => by
      rw [countNodes] at h1
      simp [isSafeAccessExpression] at h1
  | Expr.safeKeyedRead r i, h1, h2, c => by
      rw [countNodes] at h1
      simp [isSafeAccessExpression] at h1
  | Expr.safeInvokeFn r as, h1, h2, c => by
      rw [countNodes] at h1
      simp [isSafeAccessExpression] at h1

/-- Optional-child part of `sweep1_id`. -/
theorem sweep1_id_opt :
    ∀ fc, countNodesOpt isSafeAccessExpression fc = 0 → countNodesOpt isSafeTernary fc = 0 →
      ∀ c, transformOptExprM safeTransform fc c = (fc, c)
  | OptExpr.none, _, _, c => rfl
  | OptExpr.some e, h1, h2, c => by
      rw [countNodesOpt] at h1 h2
      simp [transformOptExprM, sweep1_id e h1 h2 c]

/-- List part of `sweep1_id`. -/
theorem sweep1_id_list :
    ∀ es, countNodesList isSafeAccessExpression es = 0 → countNodesList isSafeTernary es = 0 →
      ∀ c, transformExprListM safeTransform es c = (es, c)
  | ExprList.nil, _, _, c => rfl
  | ExprList.cons e es, h1, h2, c => by
      rw [countNodesList] at h1 h2
      simp only [Nat.add_eq_zero] at h1 h2
      simp only [transformExprListM]
      rw [sweep1_id e h1.1 h2.1 c]
      rw [sweep1_id_list es h1.2 h2.2 c]
end

/-- C9: the pass is idempotent — running `expandSafeReadsExpr` on its own
output (with its own output context) returns that output unchanged, because
the first run leaves neither safe-access nor safe-ternary nodes, so both the
`safeTransform` sweep and the `ternaryTransform` sweep of a second run are
identities. -/
theorem c9_idempotent (e : Expr) (c : SafeTransformContext) :
    expandSafeReadsExpr (expandSafeReadsExpr e c).1 (expandSafeReadsExpr e c).2
        = expandSafeReadsExpr e c ∧
    transformExprM safeTransform (expandSafeReadsExpr e c).1 (expandSafeReadsExpr e c).2
        = ((expandSafeReadsExpr e c).1, (expandSafeReadsExpr e c).2) ∧
    transformExpr ternaryTransform (expandSafeReadsExpr e c).1
        = (expandSafeReadsExpr e c).1 ∧
    safeTernaryCount (expandSafeReadsExpr e c).1 = 0 ∧
    safeAccessCount (expandSafeReadsExpr e c).1 = 0 := by
  have hout_nsa : countNodes isSafeAccessExpression (expandSafeReadsExpr e c).1 = 0 := by
    show countNodes isSafeAccessExpression
        (transformExpr ternaryTransform (transformExprM safeTransform e c).1) = 0
    rw [tt_nsa_eq]
    exact sweep1_nsa e c
  have hout_nst : countNodes isSafeTernary (expandSafeReadsExpr e c).1 = 0 :=
    tt_noST (transformExprM safeTransform e c).1
  have hsweep := sweep1_id (expandSafeReadsExpr e c).1 hout_nsa hout_nst
    (expandSafeReadsExpr e c).2
  have htt := tt_id (expandSafeReadsExpr e c).1 hout_nst
  refine ⟨?_, hsweep, htt, hout_nst, hout_nsa⟩
  conv_lhs => rw [expandSafeReadsExpr]
  rw [hsweep]
  simp [htt]

/-!
## C5: the two compatibility modes differ exactly by the self-assignment
wrapper.  `modeRel s l` relates the standard-mode tree `s` to the legacy
tree `l`: identical everywhere except that `l` may carry
`assign-temporary(read-temporary(id), id)` where `s` has the bare read.
-/

mutual
theorem modeRel_refl : ∀ e, modeRel e e
  | Expr.literal v => by rw [modeRel]
  | Expr.readVar n => by rw [modeRel]
  | Expr.unary op e => by
      rw [modeRel]; exact ⟨e, rfl, modeRel_refl e⟩
  | Expr.binary op lhs rhs => by
      rw [modeRel]; exact ⟨lhs, rhs, rfl, modeRel_refl lhs, modeRel_refl rhs⟩
  | Expr.conditional c t fc => by
      rw [modeRel]; exact ⟨c, t, fc, rfl, modeRel_refl c, modeRel_refl t, modeRel_refl_opt fc⟩
  | Expr.notExpr c => by rw [modeRel]; exact ⟨c, rfl, modeRel_refl c⟩
  | Expr.literalArray es => by rw [modeRel]; exact ⟨es, rfl, modeRel_refl_list es⟩
  | Expr.literalMap ks vs => by rw [modeRel]; exact ⟨vs, rfl, modeRel_refl_list vs⟩
  | Expr.readProp r n => by rw [modeRel]; exact ⟨r, rfl, modeRel_refl r⟩
  | Expr.readKey r i => by rw [modeRel]; exact ⟨r, i, rfl, modeRel_refl r, modeRel_refl i⟩
  | Expr.invokeFn r as => by
      rw [modeRel]; exact ⟨r, as, rfl, modeRel_refl r, modeRel_refl_list as⟩
  | Expr.safePropertyRead r n => by rw [modeRel]; exact ⟨r, rfl, modeRel_refl r⟩
  | Expr.safeKeyedRead r i => by
      rw [modeRel]; exact ⟨r, i, rfl, modeRel_refl r, modeRel_refl i⟩
  | Expr.safeInvokeFn r as => by
      rw [modeRel]; exact ⟨r, as, rfl, modeRel_refl r, modeRel_refl_list as⟩
  | Expr.pipeBinding n as => by rw [modeRel]; exact ⟨as, rfl, modeRel_refl_list as⟩
  | Expr.assignTemporary e x => by rw [modeRel]; exact ⟨e, rfl, modeRel_refl e⟩
  | Expr.readTemporary x => by rw [modeRel]; exact Or.inl rfl
  | Expr.safeTernary g b => by
      rw [modeRel]; exact ⟨g, b, rfl, modeRel_refl g, modeRel_refl b⟩

theorem modeRel_refl_opt : ∀ fc, modeRelOpt fc fc
  | OptExpr.none => by rw [modeRelOpt]
  | OptExpr.some e => by rw [modeRelOpt]; exact ⟨e, rfl, modeRel_refl e⟩

theorem modeRel_refl_list : ∀ es, modeRelList es es
  | ExprList.nil => by rw [modeRelList]
  | ExprList.cons e es => by
      rw [modeRelList]; exact ⟨e, es, rfl, modeRel_refl e, modeRel_refl_list es⟩
end

theorem isSafeTernary_modeRel : ∀ s l, modeRel s l → isSafeTernary s = isSafeTernary l := by
  intro s l h
  cases s <;> rw [modeRel] at h
  case readTemporary x =>
    rcases h with rfl | rfl <;> rfl
  case literal v => subst h; rfl
  case readVar n => subst h; rfl
  case unary => obtain ⟨e2, rfl, _⟩ := h; rfl
  case binary => obtain ⟨a, b, rfl, _, _⟩ := h; rfl
  case conditional => obtain ⟨a, b, c, rfl, _, _, _⟩ := h; rfl
  case notExpr => obtain ⟨a, rfl, _⟩ := h; rfl
  case literalArray => obtain ⟨a, rfl, _⟩ := h; rfl
  case literalMap => obtain ⟨a, rfl, _⟩ := h; rfl
  case readProp => obtain ⟨a, rfl, _⟩ := h; rfl
  case readKey => obtain ⟨a, b, rfl, _, _⟩ := h; rfl
  case invokeFn => obtain ⟨a, b, rfl, _, _⟩ := h; rfl
  case safePropertyRead => obtain ⟨a, rfl, _⟩ := h; rfl
  case safeKeyedRead => obtain ⟨a, b, rfl, _, _⟩ := h; rfl
  case safeInvokeFn => obtain ⟨a, b, rfl, _, _⟩ := h; rfl
  case pipeBinding => obtain ⟨a, rfl, _⟩ := h; rfl
  case assignTemporary => obtain ⟨a, rfl, _⟩ := h; rfl
  case safeTernary => obtain ⟨a, b, rfl, _, _⟩ := h; rfl

mutual
theorem needsTemp_modeRel : ∀ s l, modeRel s l →
    needsTemporaryInSafeAccess s = needsTemporaryInSafeAccess l
  | Expr.literal v, l, h => by rw [modeRel] at h; subst h; rfl
  | Expr.readVar n, l, h => by rw [modeRel] at h; subst h; rfl
  | Expr.unary op e, l, h => by
      rw [modeRel] at h
      obtain ⟨e2, rfl, he⟩ := h
      simp only [needsTemporaryInSafeAccess]
      exact needsTemp_modeRel e e2 he
  | Expr.binary op lhs rhs, l, h => by
      rw [modeRel] at h
      obtain ⟨l2, r2, rfl, h1, h2⟩ := h
      simp only [needsTemporaryInSafeAccess]
      rw [needsTemp_modeRel lhs l2 h1, needsTemp_modeRel rhs r2 h2]
  | Expr.conditional c t fc, l, h => by
      rw [modeRel] at h
      obtain ⟨c2, t2, fc2, rfl, hc, ht, hfc⟩ := h
      cases fc with
      | none =>
          rw [modeRelOpt] at hfc
          subst hfc
          simp only [needsTemporaryInSafeAccess]
          rw [needsTemp_modeRel c c2 hc, needsTemp_modeRel t t2 ht]
      | some f =>
          rw [modeRelOpt] at hfc
          obtain ⟨f2, rfl, hf⟩ := hfc
          simp only [needsTemporaryInSafeAccess]
          rw [needsTemp_modeRel c c2 hc, needsTemp_modeRel t t2 ht,
            needsTemp_modeRel f f2 hf]
  | Expr.notExpr c, l, h => by
      rw [modeRel] at h
      obtain ⟨c2, rfl, hc⟩ := h
      simp only [needsTemporaryInSafeAccess]
      exact needsTemp_modeRel c c2 hc
  | Expr.literalArray es, l, h => by
      rw [modeRel] at h
      obtain ⟨es2, rfl, _⟩ := h
      rfl
  | Expr.literalMap ks vs, l, h => by
      rw [modeRel] at h
      obtain ⟨vs2, rfl, _⟩ := h
      rfl
  | Expr.readProp r n, l, h => by
      rw [modeRel] at h
      obtain ⟨r2, rfl, hr⟩ := h
      simp only [needsTemporaryInSafeAccess]
      exact needsTemp_modeRel r r2 hr
  | Expr.readKey r i, l, h => by
      rw [modeRel] at h
      obtain ⟨r2, i2, rfl, hr, hi⟩ := h
      simp only [needsTemporaryInSafeAccess]
      rw [needsTemp_modeRel r r2 hr, needsTemp_modeRel i i2 hi]
  | Expr.invokeFn r as, l, h => by
      rw [modeRel] at h
      obtain ⟨r2, as2, rfl, _, _⟩ := h
      rfl
  | Expr.safePropertyRead r n, l, h => by
      rw [modeRel] at h
      obtain ⟨r2, rfl, _⟩ := h
      rfl
  | Expr.safeKeyedRead r i, l, h => by
      rw [modeRel] at h
      obtain ⟨r2, i2, rfl, _, _⟩ := h
      rfl
  | Expr.safeInvokeFn r as, l, h => by
      rw [modeRel] at h
      obtain ⟨r2, as2, rfl, _, _⟩ := h
      rfl
  | Expr.pipeBinding n as, l, h => by
      rw [modeRel] at h
      obtain ⟨as2, rfl, _⟩ := h
      rfl
  | Expr.assignTemporary e x, l, h => by
      rw [modeRel] at h
      obtain ⟨e2, rfl, he⟩ := h
      simp only [needsTemporaryInSafeAccess]
      exact needsTemp_modeRel e e2 he
  | Expr.readTemporary x, l, h => by
      rw [modeRel] at h
      rcases h with rfl | rfl <;> rfl
  | Expr.safeTernary g b, l, h => by
      rw [modeRel] at h
      obtain ⟨g2, b2, rfl, _, _⟩ := h
      rfl
end

mutual
theorem temporariesIn_modeRel : ∀ s l, modeRel s l →
    ∀ x, x ∈ temporariesIn s → x ∈ temporariesIn l
  | Expr.literal v, l, h => by rw [modeRel] at h; subst h; intro x hx; exact hx
  | Expr.readVar n, l, h => by rw [modeRel] at h; subst h; intro x hx; exact hx
  | Expr.unary op e, l, h => by
      rw [modeRel] at h
      obtain ⟨e2, rfl, he⟩ := h
      exact temporariesIn_modeRel e e2 he
  | Expr.binary op lhs rhs, l, h => by
      rw [modeRel] at h
      obtain ⟨l2, r2, rfl, h1, h2⟩ := h
      intro x hx
      rw [temporariesIn, List.mem_append] at hx ⊢
      rcases hx with hx | hx
      · exact Or.inl (temporariesIn_modeRel lhs l2 h1 x hx)
      · exact Or.inr (temporariesIn_modeRel rhs r2 h2 x hx)
  | Expr.conditional c t fc, l, h => by
      rw [modeRel] at h
      obtain ⟨c2, t2, fc2, rfl, hc, ht, hfc⟩ := h
      intro x hx
      rw [temporariesIn, List.mem_append, List.mem_append] at hx ⊢
      rcases hx with (hx | hx) | hx
      · exact Or.inl (Or.inl (temporariesIn_modeRel c c2 hc x hx))
      · exact Or.inl (Or.inr (temporariesIn_modeRel t t2 ht x hx))
      · exact Or.inr (temporariesIn_modeRel_opt fc fc2 hfc x hx)
  | Expr.notExpr c, l, h => by
      rw [modeRel] at h
      obtain ⟨c2, rfl, hc⟩ := h
      exact temporariesIn_modeRel c c2 hc
  | Expr.literalArray es, l, h => by
      rw [modeRel] at h
      obtain ⟨es2, rfl, hes⟩ := h
      exact temporariesIn_modeRel_list es es2 hes
  | Expr.literalMap ks vs, l, h => by
      rw [modeRel] at h
      obtain ⟨vs2, rfl, hvs⟩ := h
      exact temporariesIn_modeRel_list vs vs2 hvs
  | Expr.readProp r n, l, h => by
      rw [modeRel] at h
      obtain ⟨r2, rfl, hr⟩ := h
      exact temporariesIn_modeRel r r2 hr
  | Expr.readKey r i, l, h => by
      rw [modeRel] at h
      obtain ⟨r2, i2, rfl, hr, hi⟩ := h
      intro x hx
      rw [temporariesIn, List.mem_append] at hx ⊢
      rcases hx with hx | hx
      · exact Or.inl (temporariesIn_modeRel r r2 hr x hx)
      · exact Or.inr (temporariesIn_modeRel i i2 hi x hx)
  | Expr.invokeFn r as, l, h => by
      rw [modeRel] at h
      obtain ⟨r2, as2, rfl, hr, has⟩ := h
      intro x hx
      rw [temporariesIn, List.mem_append] at hx ⊢
      rcases hx with hx | hx
      · exact Or.inl (temporariesIn_modeRel r r2 hr x hx)
      · exact Or.inr (temporariesIn_modeRel_list as as2 has x hx)
  | Expr.safePropertyRead r n, l, h => by
      rw [modeRel] at h
      obtain ⟨r2, rfl, hr⟩ := h
      exact temporariesIn_modeRel r r2 hr
  | Expr.safeKeyedRead r i, l, h => by
      rw [modeRel] at h
      obtain ⟨r2, i2, rfl, hr, hi⟩ := h
      intro x hx
      rw [temporariesIn, List.mem_append] at hx ⊢
      rcases hx with hx | hx
      · exact Or.inl (temporariesIn_modeRel r r2 hr x hx)
      · exact Or.inr (temporariesIn_modeRel i i2 hi x hx)
  | Expr.safeInvokeFn r as, l, h => by
      rw [modeRel] at h
      obtain ⟨r2, as2, rfl, hr, has⟩ := h
      intro x hx
      rw [temporariesIn, List.mem_append] at hx ⊢
      rcases hx with hx | hx
      · exact Or.inl (temporariesIn_modeRel r r2 hr x hx)
      · exact Or.inr (temporariesIn_modeRel_list as as2 has x hx)
  | Expr.pipeBinding n as, l, h => by
      rw [modeRel] at h
      obtain ⟨as2, rfl, has⟩ := h
      exact temporariesIn_modeRel_list as as2 has
  | Expr.assignTemporary e y, l, h => by
      rw [modeRel] at h
      obtain ⟨e2, rfl, he⟩ := h
      intro x hx
      rw [temporariesIn, List.mem_cons] at hx ⊢
      rcases hx with hx | hx
      · exact Or.inl hx
      · exact Or.inr (temporariesIn_modeRel e e2 he x hx)
  | Expr.readTemporary y, l, h => by
      intro x hx
      rw [temporariesIn] at hx
      simp at hx
  | Expr.safeTernary g b, l, h => by
      rw [modeRel] at h
      obtain ⟨g2, b2, rfl, hg, hb⟩ := h
      intro x hx
      rw [temporariesIn, List.mem_append] at hx ⊢
      rcases hx with hx | hx
      · exact Or.inl (temporariesIn_modeRel g g2 hg x hx)
      · exact Or.inr (temporariesIn_modeRel b b2 hb x hx)

theorem temporariesIn_modeRel_opt : ∀ fc fc2, modeRelOpt fc fc2 →
    ∀ x, x ∈ temporariesInOpt fc → x ∈ temporariesInOpt fc2
  | OptExpr.none, fc2, h => by
      rw [modeRelOpt] at h
      subst h
      intro x hx
      exact hx
  | OptExpr.some e, fc2, h => by
      rw [modeRelOpt] at h
      obtain ⟨e2, rfl, he⟩ := h
      exact temporariesIn_modeRel e e2 he

theorem temporariesIn_modeRel_list : ∀ es es2, modeRelList es es2 →
    ∀ x, x ∈ temporariesInList es → x ∈ temporariesInList es2
  | ExprList.nil, es2, h => by
      rw [modeRelList] at h
      subst h
      intro x hx
      exact hx
  | ExprList.cons e es, l, h => by
      rw [modeRelList] at h
      obtain ⟨e2, es2, rfl, he, hes⟩ := h
      intro x hx
      rw [temporariesInList, List.mem_append] at hx ⊢
      rcases hx with hx | hx
      · exact Or.inl (temporariesIn_modeRel e e2 he x hx)
      · exact Or.inr (temporariesIn_modeRel_list es es2 hes x hx)
end

mutual
/-- Dedup in the two modes sends related trees to related trees, provided
membership in the two temp-sets agrees on every id assigned in the standard
tree (extra legacy-only ids come only from self-assignments, which dedup
maps to themselves). -/
theorem elim_modeRel (tS tL : List Nat) :
    ∀ s l, modeRel s l → (∀ x, x ∈ temporariesIn s → (x ∈ tS ↔ x ∈ tL)) →
      modeRel (transformExpr (eliminateOne tS CompatibilityMode.normal) s)
        (transformExpr (eliminateOne tL CompatibilityMode.templateDefinitionBuilder) l)
  | Expr.literal v, l, h, _ => by
      rw [modeRel] at h
      subst h
      exact modeRel_refl (Expr.literal v)
  | Expr.readVar n, l, h, _ => by
      rw [modeRel] at h
      subst h
      exact modeRel_refl (Expr.readVar n)
  | Expr.unary op e, l, h, hmem => by
      rw [modeRel] at h
      obtain ⟨e2, rfl, he⟩ := h
      show modeRel
        (Expr.unary op (transformExpr (eliminateOne tS CompatibilityMode.normal) e))
        (Expr.unary op
          (transformExpr (eliminateOne tL CompatibilityMode.templateDefinitionBuilder) e2))
      rw [modeRel]
      exact ⟨_, rfl, elim_modeRel tS tL e e2 he hmem⟩
  | Expr.binary op lhs rhs, l, h, hmem => by
      rw [modeRel] at h
      obtain ⟨l2, r2, rfl, h1, h2⟩ := h
      show modeRel (Expr.binary op _ _) (Expr.binary op _ _)
      rw [modeRel]
      exact ⟨_, _, rfl,
        elim_modeRel tS tL lhs l2 h1
          (fun x hx => hmem x (by rw [temporariesIn, List.mem_append]; exact Or.inl hx)),
        elim_modeRel tS tL rhs r2 h2
          (fun x hx => hmem x (by rw [temporariesIn, List.mem_append]; exact Or.inr hx))⟩
  | Expr.conditional c t fc, l, h, hmem => by
      rw [modeRel] at h
      obtain ⟨c2, t2, fc2, rfl, hc, ht, hfc⟩ := h
      show modeRel (Expr.conditional _ _ _) (Expr.conditional _ _ _)
      rw [modeRel]
      exact ⟨_, _, _, rfl,
        elim_modeRel tS tL c c2 hc
          (fun x hx => hmem x (by
            rw [temporariesIn, List.mem_append, List.mem_append]
            exact Or.inl (Or.inl hx))),
        elim_modeRel tS tL t t2 ht
          (fun x hx => hmem x (by
            rw [temporariesIn, List.mem_append, List.mem_append]
            exact Or.inl (Or.inr hx))),
        elim_modeRel_opt tS tL fc fc2 hfc
          (fun x hx => hmem x (by
            rw [temporariesIn, List.mem_append, List.mem_append]
            exact Or.inr hx))⟩
  | Expr.notExpr c, l, h, hmem => by
      rw [modeRel] at h
      obtain ⟨c2, rfl, hc⟩ := h
      show modeRel (Expr.notExpr _) (Expr.notExpr _)
      rw [modeRel]
      exact ⟨_, rfl, elim_modeRel tS tL c c2 hc hmem⟩
  | Expr.literalArray es, l, h, hmem => by
      rw [modeRel] at h
      obtain ⟨es2, rfl, hes⟩ := h
      show modeRel (Expr.literalArray _) (Expr.literalArray _)
      rw [modeRel]
      exact ⟨_, rfl, elim_modeRel_list tS tL es es2 hes hmem⟩
  | Expr.literalMap ks vs, l, h, hmem => by
      rw [modeRel] at h
      obtain ⟨vs2, rfl, hvs⟩ := h
      show modeRel (Expr.literalMap ks _) (Expr.literalMap ks _)
      rw [modeRel]
      exact ⟨_, rfl, elim_modeRel_list tS tL vs vs2 hvs hmem⟩
  | Expr.readProp r n, l, h, hmem => by
      rw [modeRel] at h
      obtain ⟨r2, rfl, hr⟩ := h
      show modeRel (Expr.readProp _ n) (Expr.readProp _ n)
      rw [modeRel]
      exact ⟨_, rfl, elim_modeRel tS tL r r2 hr hmem⟩
  | Expr.readKey r i, l, h, hmem => by
      rw [modeRel] at h
      obtain ⟨r2, i2, rfl, hr, hi⟩ := h
      show modeRel (Expr.readKey _ _) (Expr.readKey _ _)
      rw [modeRel]
      exact ⟨_, _, rfl,
        elim_modeRel tS tL r r2 hr
          (fun x hx => hmem x (by rw [temporariesIn, List.mem_append]; exact Or.inl hx)),
        elim_modeRel tS tL i i2 hi
          (fun x hx => hmem x (by rw [temporariesIn, List.mem_append]; exact Or.inr hx))⟩
  | Expr.invokeFn r as, l, h, hmem => by
      rw [modeRel] at h
      obtain ⟨r2, as2, rfl, hr, has⟩ := h
      show modeRel (Expr.invokeFn _ _) (Expr.invokeFn _ _)
      rw [modeRel]
      exact ⟨_, _, rfl,
        elim_modeRel tS tL r r2 hr
          (fun x hx => hmem x (by rw [temporariesIn, List.mem_append]; exact Or.inl hx)),
        elim_modeRel_list tS tL as as2 has
          (fun x hx => hmem x (by rw [temporariesIn, List.mem_append]; exact Or.inr hx))⟩
  | Expr.safePropertyRead r n, l, h, hmem => by
      rw [modeRel] at h
      obtain ⟨r2, rfl, hr⟩ := h
      show modeRel (Expr.safePropertyRead _ n) (Expr.safePropertyRead _ n)
      rw [modeRel]
      exact ⟨_, rfl, elim_modeRel tS tL r r2 hr hmem⟩
  | Expr.safeKeyedRead r i, l, h, hmem => by
      rw [modeRel] at h
      obtain ⟨r2, i2, rfl, hr, hi⟩ := h
      show modeRel (Expr.safeKeyedRead _ _) (Expr.safeKeyedRead _ _)
      rw [modeRel]
      exact ⟨_, _, rfl,
        elim_modeRel tS tL r r2 hr
          (fun x hx => hmem x (by rw [temporariesIn, List.mem_append]; exact Or.inl hx)),
        elim_modeRel tS tL i i2 hi
          (fun x hx => hmem x (by rw [temporariesIn, List.mem_append]; exact Or.inr hx))⟩
  | Expr.safeInvokeFn r as, l, h, hmem => by
      rw [modeRel] at h
      obtain ⟨r2, as2, rfl, hr, has⟩ := h
      show modeRel (Expr.safeInvokeFn _ _) (Expr.safeInvokeFn _ _)
      rw [modeRel]
      exact ⟨_, _, rfl,
        elim_modeRel tS tL r r2 hr
          (fun x hx => hmem x (by rw [temporariesIn, List.mem_append]; exact Or.inl hx)),
        elim_modeRel_list tS tL as as2 has
          (fun x hx => hmem x (by rw [temporariesIn, List.mem_append]; exact Or.inr hx))⟩
  | Expr.pipeBinding n as, l, h, hmem => by
      rw [modeRel] at h
      obtain ⟨as2, rfl, has⟩ := h
      show modeRel (Expr.pipeBinding n _) (Expr.pipeBinding n _)
      rw [modeRel]
      exact ⟨_, rfl, elim_modeRel_list tS tL as as2 has hmem⟩
  | Expr.assignTemporary e y, l, h, hmem => by
      rw [modeRel] at h
      obtain ⟨e2, rfl, he⟩ := h
      have hmem_e : ∀ x, x ∈ temporariesIn e → (x ∈ tS ↔ x ∈ tL) := fun x hx =>
        hmem x (by rw [temporariesIn, List.mem_cons]; exact Or.inr hx)
      have hy_iff : y ∈ tS ↔ y ∈ tL :=
        hmem y (by rw [temporariesIn]; exact List.mem_cons_self y _)
      by_cases hy : y ∈ tS
      · have hyL : y ∈ tL := hy_iff.mp hy
        show modeRel
          (eliminateOne tS CompatibilityMode.normal
            (Expr.assignTemporary (transformExpr (eliminateOne tS CompatibilityMode.normal) e) y))
          (eliminateOne tL CompatibilityMode.templateDefinitionBuilder
            (Expr.assignTemporary
              (transformExpr (eliminateOne tL CompatibilityMode.templateDefinitionBuilder) e2) y))
        simp only [eliminateOne, hy, hyL, if_true]
        rw [modeRel]
        exact Or.inr rfl
      · have hyL : y ∉ tL := fun hc => hy (hy_iff.mpr hc)
        show modeRel
          (eliminateOne tS CompatibilityMode.normal
            (Expr.assignTemporary (transformExpr (eliminateOne tS CompatibilityMode.normal) e) y))
          (eliminateOne tL CompatibilityMode.templateDefinitionBuilder
            (Expr.assignTemporary
              (transformExpr (eliminateOne tL CompatibilityMode.templateDefinitionBuilder) e2) y))
        simp only [eliminateOne, hy, hyL, if_false]
        rw [modeRel]
        exact ⟨_, rfl, elim_modeRel tS tL e e2 he hmem_e⟩
  | Expr.readTemporary d, l, h, _ => by
      rw [modeRel] at h
      rcases h with rfl | rfl
      · show modeRel (Expr.readTemporary d) (Expr.readTemporary d)
        rw [modeRel]
        exact Or.inl rfl
      · show modeRel (Expr.readTemporary d)
          (eliminateOne tL CompatibilityMode.templateDefinitionBuilder
            (Expr.assignTemporary (Expr.readTemporary d) d))
        by_cases hd : d ∈ tL
        · simp only [eliminateOne, hd, if_true]
          rw [modeRel]
          exact Or.inr rfl
        · simp only [eliminateOne, hd, if_false]
          rw [modeRel]
          exact Or.inr rfl
  | Expr.safeTernary g b, l, h, hmem => by
      rw [modeRel] at h
      obtain ⟨g2, b2, rfl, hg, hb⟩ := h
      show modeRel (Expr.safeTernary _ _) (Expr.safeTernary _ _)
      rw [modeRel]
      exact ⟨_, _, rfl,
        elim_modeRel tS tL g g2 hg
          (fun x hx => hmem x (by rw [temporariesIn, List.mem_append]; exact Or.inl hx)),
        elim_modeRel tS tL b b2 hb
          (fun x hx => hmem x (by rw [temporariesIn, List.mem_append]; exact Or.inr hx))⟩

/-- Optional-child part of `elim_modeRel`. -/
theorem elim_modeRel_opt (tS tL : List Nat) :
    ∀ fc fc2, modeRelOpt fc fc2 →
      (∀ x, x ∈ temporariesInOpt fc → (x ∈ tS ↔ x ∈ tL)) →
      modeRelOpt (transformOptExpr (eliminateOne tS CompatibilityMode.normal) fc)
        (transformOptExpr (eliminateOne tL CompatibilityMode.templateDefinitionBuilder) fc2)
  | OptExpr.none, fc2, h, _ => by
      rw [modeRelOpt] at h
      subst h
      rw [transformOptExpr, transformOptExpr, modeRelOpt]
  | OptExpr.some e, fc2, h, hmem => by
      rw [modeRelOpt] at h
      obtain ⟨e2, rfl, he⟩ := h
      rw [transformOptExpr, transformOptExpr, modeRelOpt]
      exact ⟨_, rfl, elim_modeRel tS tL e e2 he hmem⟩

/-- List part of `elim_modeRel`. -/
theorem elim_modeRel_list (tS tL : List Nat) :
    ∀ es es2, modeRelList es es2 →
      (∀ x, x ∈ temporariesInList es → (x ∈ tS ↔ x ∈ tL)) →
      modeRelList (transformExprList (eliminateOne tS CompatibilityMode.normal) es)
        (transformExprList (eliminateOne tL CompatibilityMode.templateDefinitionBuilder) es2)
  | ExprList.nil, es2, h, _ => by
      rw [modeRelList] at h
      subst h
      rw [transformExprList, transformExprList, modeRelList]
  | ExprList.cons e es, l, h, hmem => by
      rw [modeRelList] at h
      obtain ⟨e2, es2, rfl, he, hes⟩ := h
      rw [transformExprList, transformExprList, modeRelList]
      exact ⟨_, _, rfl,
        elim_modeRel tS tL e e2 he
          (fun x hx => hmem x (by rw [temporariesInList, List.mem_append]; exact Or.inl hx)),
        elim_modeRel_list tS tL es es2 hes
          (fun x hx => hmem x (by rw [temporariesInList, List.mem_append]; exact Or.inr hx))⟩
end

/-- `eliminateTemporaryAssignments` (which leaves the root untouched and
rewrites strictly below it) also sends related trees to related trees. -/
theorem elimTA_modeRel (tS tL : List Nat) (nS nL : Nat) :
    ∀ s l, modeRel s l → (∀ x, x ∈ temporariesIn s → (x ∈ tS ↔ x ∈ tL)) →
      modeRel (eliminateTemporaryAssignments s tS (stdCtx nS))
        (eliminateTemporaryAssignments l tL (legacyCtx nL)) := by
  intro s l h hmem
  cases s <;> rw [modeRel] at h
  case literal v =>
    subst h
    exact modeRel_refl (Expr.literal v)
  case readVar n =>
    subst h
    exact modeRel_refl (Expr.readVar n)
  case readTemporary d =>
    rcases h with rfl | rfl
    · show modeRel (Expr.readTemporary d) (Expr.readTemporary d)
      rw [modeRel]
      exact Or.inl rfl
    · show modeRel (Expr.readTemporary d)
        (Expr.assignTemporary
          (transformExpr (eliminateOne tL CompatibilityMode.templateDefinitionBuilder)
            (Expr.readTemporary d)) d)
      rw [modeRel]
      exact Or.inr rfl
  case unary op e =>
    obtain ⟨e2, rfl, he⟩ := h
    show modeRel (Expr.unary op _) (Expr.unary op _)
    rw [modeRel]
    exact ⟨_, rfl, elim_modeRel tS tL e e2 he hmem⟩
  case binary op lhs rhs =>
    obtain ⟨l2, r2, rfl, h1, h2⟩ := h
    show modeRel (Expr.binary op _ _) (Expr.binary op _ _)
    rw [modeRel]
    exact ⟨_, _, rfl,
      elim_modeRel tS tL lhs l2 h1
        (fun x hx => hmem x (by rw [temporariesIn, List.mem_append]; exact Or.inl hx)),
      elim_modeRel tS tL rhs r2 h2
        (fun x hx => hmem x (by rw [temporariesIn, List.mem_append]; exact Or.inr hx))⟩
  case conditional c t fc =>
    obtain ⟨c2, t2, fc2, rfl, hc, ht, hfc⟩ := h
    show modeRel (Expr.conditional _ _ _) (Expr.conditional _ _ _)
    rw [modeRel]
    exact ⟨_, _, _, rfl,
      elim_modeRel tS tL c c2 hc
        (fun x hx => hmem x (by
          rw [temporariesIn, List.mem_append, List.mem_append]
          exact Or.inl (Or.inl hx))),
      elim_modeRel tS tL t t2 ht
        (fun x hx => hmem x (by
          rw [temporariesIn, List.mem_append, List.mem_append]
          exact Or.inl (Or.inr hx))),
      elim_modeRel_opt tS tL fc fc2 hfc
        (fun x hx => hmem x (by
          rw [temporariesIn, List.mem_append, List.mem_append]
          exact Or.inr hx))⟩
  case notExpr c =>
    obtain ⟨c2, rfl, hc⟩ := h
    show modeRel (Expr.notExpr _) (Expr.notExpr _)
    rw [modeRel]
    exact ⟨_, rfl, elim_modeRel tS tL c c2 hc hmem⟩
  case literalArray es =>
    obtain ⟨es2, rfl, hes⟩ := h
    show modeRel (Expr.literalArray _) (Expr.literalArray _)
    rw [modeRel]
    exact ⟨_, rfl, elim_modeRel_list tS tL es es2 hes hmem⟩
  case literalMap ks vs =>
    obtain ⟨vs2, rfl, hvs⟩ := h
    show modeRel (Expr.literalMap ks _) (Expr.literalMap ks _)
    rw [modeRel]
    exact ⟨_, rfl, elim_modeRel_list tS tL vs vs2 hvs hmem⟩
  case readProp r n =>
    obtain ⟨r2, rfl, hr⟩ := h
    show modeRel (Expr.readProp _ n) (Expr.readProp _ n)
    rw [modeRel]
    exact ⟨_, rfl, elim_modeRel tS tL r r2 hr hmem⟩
  case readKey r i =>
    obtain ⟨r2, i2, rfl, hr, hi⟩ := h
    show modeRel (Expr.readKey _ _) (Expr.readKey _ _)
    rw [modeRel]
    exact ⟨_, _, rfl,
      elim_modeRel tS tL r r2 hr
        (fun x hx => hmem x (by rw [temporariesIn, List.mem_append]; exact Or.inl hx)),
      elim_modeRel tS tL i i2 hi
        (fun x hx => hmem x (by rw [temporariesIn, List.mem_append]; exact Or.inr hx))⟩
  case invokeFn r as =>
    obtain ⟨r2, as2, rfl, hr, has⟩ := h
    show modeRel (Expr.invokeFn _ _) (Expr.invokeFn _ _)
    rw [modeRel]
    exact ⟨_, _, rfl,
      elim_modeRel tS tL r r2 hr
        (fun x hx => hmem x (by rw [temporariesIn, List.mem_append]; exact Or.inl hx)),
      elim_modeRel_list tS tL as as2 has
        (fun x hx => hmem x (by rw [temporariesIn, List.mem_append]; exact Or.inr hx))⟩
  case safePropertyRead r n =>
    obtain ⟨r2, rfl, hr⟩ := h
    show modeRel (Expr.safePropertyRead _ n) (Expr.safePropertyRead _ n)
    rw [modeRel]
    exact ⟨_, rfl, elim_modeRel tS tL r r2 hr hmem⟩
  case safeKeyedRead r i =>
    obtain ⟨r2, i2, rfl, hr, hi⟩ := h
    show modeRel (Expr.safeKeyedRead _ _) (Expr.safeKeyedRead _ _)
    rw [modeRel]
    exact ⟨_, _, rfl,
      elim_modeRel tS tL r r2 hr
        (fun x hx => hmem x (by rw [temporariesIn, List.mem_append]; exact Or.inl hx)),
      elim_modeRel tS tL i i2 hi
        (fun x hx => hmem x (by rw [temporariesIn, List.mem_append]; exact Or.inr hx))⟩
  case safeInvokeFn r as =>
    obtain ⟨r2, as2, rfl, hr, has⟩ := h
    show modeRel (Expr.safeInvokeFn _ _) (Expr.safeInvokeFn _ _)
    rw [modeRel]
    exact ⟨_, _, rfl,
      elim_modeRel tS tL r r2 hr
        (fun x hx => hmem x (by rw [temporariesIn, List.mem_append]; exact Or.inl hx)),
      elim_modeRel_list tS tL as as2 has
        (fun x hx => hmem x (by rw [temporariesIn, List.mem_append]; exact Or.inr hx))⟩
  case pipeBinding n as =>
    obtain ⟨as2, rfl, has⟩ := h
    show modeRel (Expr.pipeBinding n _) (Expr.pipeBinding n _)
    rw [modeRel]
    exact ⟨_, rfl, elim_modeRel_list tS tL as as2 has hmem⟩
  case assignTemporary e y =>
    obtain ⟨e2, rfl, he⟩ := h
    show modeRel (Expr.assignTemporary _ y) (Expr.assignTemporary _ y)
    rw [modeRel]
    exact ⟨_, rfl, elim_modeRel tS tL e e2 he
      (fun x hx => hmem x (by rw [temporariesIn, List.mem_cons]; exact Or.inr hx))⟩
  case safeTernary g b =>
    obtain ⟨g2, b2, rfl, hg, hb⟩ := h
    show modeRel (Expr.safeTernary _ _) (Expr.safeTernary _ _)
    rw [modeRel]
    exact ⟨_, _, rfl,
      elim_modeRel tS tL g g2 hg
        (fun x hx => hmem x (by rw [temporariesIn, List.mem_append]; exact Or.inl hx)),
      elim_modeRel tS tL b b2 hb
        (fun x hx => hmem x (by rw [temporariesIn, List.mem_append]; exact Or.inr hx))⟩

/-- Reduction of `safeTernaryWithTemporary` when the classifier fires. -/
theorem sTWT_true (guard : Expr) (f : Expr → Expr) (ctx : SafeTransformContext)
    (h : needsTemporaryInSafeAccess guard = true) :
    safeTernaryWithTemporary guard f ctx
      = (Expr.safeTernary (Expr.assignTemporary guard ctx.job.nextXrefId)
           (f (Expr.readTemporary ctx.job.nextXrefId)),
         { job := { compatibility := ctx.job.compatibility,
                    nextXrefId := ctx.job.nextXrefId + 1 } }) := by
  simp [safeTernaryWithTemporary, h, CompilationJob.allocateXrefId]

/-- Reduction of `safeTernaryWithTemporary` when the classifier does not
fire. -/
theorem sTWT_false (guard : Expr) (f : Expr → Expr) (ctx : SafeTransformContext)
    (h : needsTemporaryInSafeAccess guard = false) :
    safeTernaryWithTemporary guard f ctx
      = (Expr.safeTernary guard
           (f (eliminateTemporaryAssignments guard (temporariesIn guard) ctx)), ctx) := by
  simp [safeTernaryWithTemporary, h]

/-- `safeTernaryWithTemporary` in the two modes: from related guards and
related body builders, it produces related ternaries and advances the two id
counters identically. -/
theorem sTWT_modeRel (gS gL : Expr) (bS bL : Expr → Expr) (n : Nat)
    (hg : modeRel gS gL)
    (hb : ∀ x y, modeRel x y → modeRel (bS x) (bL y)) :
    modeRel (safeTernaryWithTemporary gS bS (stdCtx n)).1
        (safeTernaryWithTemporary gL bL (legacyCtx n)).1 ∧
    (∃ m, (safeTernaryWithTemporary gS bS (stdCtx n)).2 = stdCtx m ∧
      (safeTernaryWithTemporary gL bL (legacyCtx n)).2 = legacyCtx m) := by
  have hneed := needsTemp_modeRel gS gL hg
  by_cases hn : needsTemporaryInSafeAccess gS
  · have hnL : needsTemporaryInSafeAccess gL = true := by rw [← hneed]; exact hn
    rw [sTWT_true gS bS _ hn, sTWT_true gL bL _ hnL]
    refine ⟨?_, n + 1, rfl, rfl⟩
    rw [modeRel]
    refine ⟨_, _, rfl, ?_, ?_⟩
    · rw [modeRel]
      exact ⟨_, rfl, hg⟩
    · exact hb _ _ (by rw [modeRel]; exact Or.inl rfl)
  · have hnF : needsTemporaryInSafeAccess gS = false := by simpa using hn
    have hnL : needsTemporaryInSafeAccess gL = false := by rw [← hneed]; exact hnF
    have hmem : ∀ x, x ∈ temporariesIn gS →
        (x ∈ temporariesIn gS ↔ x ∈ temporariesIn gL) := fun x hx =>
      ⟨fun _ => temporariesIn_modeRel gS gL hg x hx, fun _ => hx⟩
    rw [sTWT_false gS bS _ hnF, sTWT_false gL bL _ hnL]
    refine ⟨?_, n, rfl, rfl⟩
    rw [modeRel]
    exact ⟨_, _, rfl, hg,
      hb _ _ (elimTA_modeRel (temporariesIn gS) (temporariesIn gL) n n gS gL hg hmem)⟩

theorem updateDeepest_not_st (st : Expr) (f : Expr → Expr)
    (h : isSafeTernary st = false) : updateDeepest st f = st := by
  cases st <;> simp_all [updateDeepest, isSafeTernary]

theorem updateDeepestM_not_st (st : Expr)
    (f : Expr → SafeTransformContext → Expr × SafeTransformContext)
    (c : SafeTransformContext) (h : isSafeTernary st = false) :
    updateDeepestM st f c = (st, c) := by
  cases st <;> simp_all [updateDeepestM, isSafeTernary]

theorem updateDeepest_modeRel (f g : Expr → Expr)
    (hfg : ∀ b b2, modeRel b b2 → modeRel (f b) (g b2)) :
    ∀ st st2, modeRel st st2 → modeRel (updateDeepest st f) (updateDeepest st2 g)
  | Expr.safeTernary gg b, st2, h => by
      rw [modeRel] at h
      obtain ⟨g2, b2, rfl, hgrel, hbrel⟩ := h
      by_cases hb : isSafeTernary b
      · have hb2 : isSafeTernary b2 = true := by
          rw [← isSafeTernary_modeRel b b2 hbrel]; exact hb
        rw [updateDeepest_st_of_st _ _ _ hb, updateDeepest_st_of_st _ _ _ hb2, modeRel]
        exact ⟨_, _, rfl, hgrel, updateDeepest_modeRel f g hfg b b2 hbrel⟩
      · have hbF : isSafeTernary b = false := by simpa using hb
        have hb2 : isSafeTernary b2 = false := by
          rw [← isSafeTernary_modeRel b b2 hbrel]; exact hbF
        rw [updateDeepest_st_of_not_st _ _ _ hbF, updateDeepest_st_of_not_st _ _ _ hb2,
          modeRel]
        exact ⟨_, _, rfl, hgrel, hfg b b2 hbrel⟩
  | Expr.literal v, st2, h => by
      rw [modeRel] at h
      subst h
      simp only [updateDeepest_not_st, isSafeTernary]
      exact modeRel_refl (Expr.literal v)
  | Expr.readVar nm, st2, h => by
      rw [modeRel] at h
      subst h
      simp only [updateDeepest_not_st, isSafeTernary]
      exact modeRel_refl (Expr.readVar nm)
  | Expr.unary op e, st2, h => by
      rw [modeRel] at h
      obtain ⟨e2, rfl, hrel⟩ := h
      simp only [updateDeepest_not_st, isSafeTernary]
      rw [modeRel]
      exact ⟨e2, rfl, hrel⟩
  | Expr.binary op lhs rhs, st2, h => by
      rw [modeRel] at h
      obtain ⟨l2, r2, rfl, h1, h2⟩ := h
      simp only [updateDeepest_not_st, isSafeTernary]
      rw [modeRel]
      exact ⟨l2, r2, rfl, h1, h2⟩
  | Expr.conditional c t fc, st2, h => by
      rw [modeRel] at h
      obtain ⟨c2, t2, fc2, rfl, hc, ht, hfc⟩ := h
      simp only [updateDeepest_not_st, isSafeTernary]
      rw [modeRel]
      exact ⟨c2, t2, fc2, rfl, hc, ht, hfc⟩
  | Expr.notExpr c, st2, h => by
      rw [modeRel] at h
      obtain ⟨c2, rfl, hc⟩ := h
      simp only [updateDeepest_not_st, isSafeTernary]
      rw [modeRel]
      exact ⟨c2, rfl, hc⟩
  | Expr.literalArray es, st2, h => by
      rw [modeRel] at h
      obtain ⟨es2, rfl, hes⟩ := h
      simp only [updateDeepest_not_st, isSafeTernary]
      rw [modeRel]
      exact ⟨es2, rfl, hes⟩
  | Expr.literalMap ks vs, st2, h => by
      rw [modeRel] at h
      obtain ⟨vs2, rfl, hvs⟩ := h
      simp only [updateDeepest_not_st, isSafeTernary]
      rw [modeRel]
      exact ⟨vs2, rfl, hvs⟩
  | Expr.readProp r nm, st2, h => by
      rw [modeRel] at h
      obtain ⟨r2, rfl, hr⟩ := h
      simp only [updateDeepest_not_st, isSafeTernary]
      rw [modeRel]
      exact ⟨r2, rfl, hr⟩
  | Expr.readKey r i, st2, h => by
      rw [modeRel] at h
      obtain ⟨r2, i2, rfl, hr, hi⟩ := h
      simp only [updateDeepest_not_st, isSafeTernary]
      rw [modeRel]
      exact ⟨r2, i2, rfl, hr, hi⟩
  | Expr.invokeFn r as, st2, h => by
      rw [modeRel] at h
      obtain ⟨r2, as2, rfl, hr, has⟩ := h
      simp only [updateDeepest_not_st, isSafeTernary]
      rw [modeRel]
      exact ⟨r2, as2, rfl, hr, has⟩
  | Expr.safePropertyRead r nm, st2, h => by
      rw [modeRel] at h
      obtain ⟨r2, rfl, hr⟩ := h
      simp only [updateDeepest_not_st, isSafeTernary]
      rw [modeRel]
      exact ⟨r2, rfl, hr⟩
  | Expr.safeKeyedRead r i, st2, h => by
      rw [modeRel] at h
      obtain ⟨r2, i2, rfl, hr, hi⟩ := h
      simp only [updateDeepest_not_st, isSafeTernary]
      rw [modeRel]
      exact ⟨r2, i2, rfl, hr, hi⟩
  | Expr.safeInvokeFn r as, st2, h => by
      rw [modeRel] at h
      obtain ⟨r2, as2, rfl, hr, has⟩ := h
      simp only [updateDeepest_not_st, isSafeTernary]
      rw [modeRel]
      exact ⟨r2, as2, rfl, hr, has⟩
  | Expr.pipeBinding nm as, st2, h => by
      rw [modeRel] at h
      obtain ⟨as2, rfl, has⟩ := h
      simp only [updateDeepest_not_st, isSafeTernary]
      rw [modeRel]
      exact ⟨as2, rfl, has⟩
  | Expr.assignTemporary e x, st2, h => by
      rw [modeRel] at h
      obtain ⟨e2, rfl, he⟩ := h
      simp only [updateDeepest_not_st, isSafeTernary]
      rw [modeRel]
      exact ⟨e2, rfl, he⟩
  | Expr.readTemporary d, st2, h => by
      rw [modeRel] at h
      rcases h with rfl | rfl
      · simp only [updateDeepest_not_st, isSafeTernary]
        rw [modeRel]
        exact Or.inl rfl
      · simp only [updateDeepest_not_st, isSafeTernary]
        rw [modeRel]
        exact Or.inr rfl

theorem updateDeepestM_modeRel
    (f g : Expr → SafeTransformContext → Expr × SafeTransformContext)
    (hfg : ∀ b b2 nn, modeRel b b2 →
      modeRel (f b (stdCtx nn)).1 (g b2 (legacyCtx nn)).1 ∧
      ∃ m, (f b (stdCtx nn)).2 = stdCtx m ∧ (g b2 (legacyCtx nn)).2 = legacyCtx m) :
    ∀ st st2 n, modeRel st st2 →
      modeRel (updateDeepestM st f (stdCtx n)).1 (updateDeepestM st2 g (legacyCtx n)).1 ∧
      ∃ m, (updateDeepestM st f (stdCtx n)).2 = stdCtx m ∧
        (updateDeepestM st2 g (legacyCtx n)).2 = legacyCtx m
  | Expr.safeTernary gg b, st2, n, h => by
      rw [modeRel] at h
      obtain ⟨g2, b2, rfl, hgrel, hbrel⟩ := h
      by_cases hb : isSafeTernary b
      · have hb2 : isSafeTernary b2 = true := by
          rw [← isSafeTernary_modeRel b b2 hbrel]; exact hb
        obtain ⟨hrel, m, hmS, hmL⟩ := updateDeepestM_modeRel f g hfg b b2 n hbrel
        rw [updateDeepestM_st_of_st _ _ _ _ hb, updateDeepestM_st_of_st _ _ _ _ hb2]
        refine ⟨?_, m, hmS, hmL⟩
        rw [modeRel]
        exact ⟨_, _, rfl, hgrel, hrel⟩
      · have hbF : isSafeTernary b = false := by simpa using hb
        have hb2 : isSafeTernary b2 = false := by
          rw [← isSafeTernary_modeRel b b2 hbrel]; exact hbF
        obtain ⟨hrel, m, hmS, hmL⟩ := hfg b b2 n hbrel
        rw [updateDeepestM_st_of_not_st _ _ _ _ hbF, updateDeepestM_st_of_not_st _ _ _ _ hb2]
        refine ⟨?_, m, hmS, hmL⟩
        rw [modeRel]
        exact ⟨_, _, rfl, hgrel, hrel⟩
  | Expr.literal v, st2, n, h => by
      rw [modeRel] at h
      subst h
      simp only [updateDeepestM_not_st, isSafeTernary]
      exact ⟨modeRel_refl (Expr.literal v), n, rfl, rfl⟩
  | Expr.readVar nm, st2, n, h => by
      rw [modeRel] at h
      subst h
      simp only [updateDeepestM_not_st, isSafeTernary]
      exact ⟨modeRel_refl (Expr.readVar nm), n, rfl, rfl⟩
  | Expr.unary op e, st2, n, h => by
      rw [modeRel] at h
      obtain ⟨e2, rfl, hrel⟩ := h
      simp only [updateDeepestM_not_st, isSafeTernary]
      exact ⟨by rw [modeRel]; exact ⟨e2, rfl, hrel⟩, n, rfl, rfl⟩
  | Expr.binary op lhs rhs, st2, n, h => by
      rw [modeRel] at h
      obtain ⟨l2, r2, rfl, h1, h2⟩ := h
      simp only [updateDeepestM_not_st, isSafeTernary]
      exact ⟨by rw [modeRel]; exact ⟨l2, r2, rfl, h1, h2⟩, n, rfl, rfl⟩
  | Expr.conditional c t fc, st2, n, h => by
      rw [modeRel] at h
      obtain ⟨c2, t2, fc2, rfl, hc, ht, hfc⟩ := h
      simp only [updateDeepestM_not_st, isSafeTernary]
      exact ⟨by rw [modeRel]; exact ⟨c2, t2, fc2, rfl, hc, ht, hfc⟩, n, rfl, rfl⟩
  | Expr.notExpr c, st2, n, h => by
      rw [modeRel] at h
      obtain ⟨c2, rfl, hc⟩ := h
      simp only [updateDeepestM_not_st, isSafeTernary]
      exact ⟨by rw [modeRel]; exact ⟨c2, rfl, hc⟩, n, rfl, rfl⟩
  | Expr.literalArray es, st2, n, h => by
      rw [modeRel] at h
      obtain ⟨es2, rfl, hes⟩ := h
      simp only [updateDeepestM_not_st, isSafeTernary]
      exact ⟨by rw [modeRel]; exact ⟨es2, rfl, hes⟩, n, rfl, rfl⟩
  | Expr.literalMap ks vs, st2, n, h => by
      rw [modeRel] at h
      obtain ⟨vs2, rfl, hvs⟩ := h
      simp only [updateDeepestM_not_st, isSafeTernary]
      exact ⟨by rw [modeRel]; exact ⟨vs2, rfl, hvs⟩, n, rfl, rfl⟩
  | Expr.readProp r nm, st2, n, h => by
      rw [modeRel] at h
      obtain ⟨r2, rfl, hr⟩ := h
      simp only [updateDeepestM_not_st, isSafeTernary]
      exact ⟨by rw [modeRel]; exact ⟨r2, rfl, hr⟩, n, rfl, rfl⟩
  | Expr.readKey r i, st2, n, h => by
      rw [modeRel] at h
      obtain ⟨r2, i2, rfl, hr, hi⟩ := h
      simp only [updateDeepestM_not_st, isSafeTernary]
      exact ⟨by rw [modeRel]; exact ⟨r2, i2, rfl, hr, hi⟩, n, rfl, rfl⟩
  | Expr.invokeFn r as, st2, n, h => by
      rw [modeRel] at h
      obtain ⟨r2, as2, rfl, hr, has⟩ := h
      simp only [updateDeepestM_not_st, isSafeTernary]
      exact ⟨by rw [modeRel]; exact ⟨r2, as2, rfl, hr, has⟩, n, rfl, rfl⟩
  | Expr.safePropertyRead r nm, st2, n, h => by
      rw [modeRel] at h
      obtain ⟨r2, rfl, hr⟩ := h
      simp only [updateDeepestM_not_st, isSafeTernary]
      exact ⟨by rw [modeRel]; exact ⟨r2, rfl, hr⟩, n, rfl, rfl⟩
  | Expr.safeKeyedRead r i, st2, n, h => by
      rw [modeRel] at h
      obtain ⟨r2, i2, rfl, hr, hi⟩ := h
      simp only [updateDeepestM_not_st, isSafeTernary]
      exact ⟨by rw [modeRel]; exact ⟨r2, i2, rfl, hr, hi⟩, n, rfl, rfl⟩
  | Expr.safeInvokeFn r as, st2, n, h => by
      rw [modeRel] at h
      obtain ⟨r2, as2, rfl, hr, has⟩ := h
      simp only [updateDeepestM_not_st, isSafeTernary]
      exact ⟨by rw [modeRel]; exact ⟨r2, as2, rfl, hr, has⟩, n, rfl, rfl⟩
  | Expr.pipeBinding nm as, st2, n, h => by
      rw [modeRel] at h
      obtain ⟨as2, rfl, has⟩ := h
      simp only [updateDeepestM_not_st, isSafeTernary]
      exact ⟨by rw [modeRel]; exact ⟨as2, rfl, has⟩, n, rfl, rfl⟩
  | Expr.assignTemporary e x, st2, n, h => by
      rw [modeRel] at h
      obtain ⟨e2, rfl, he⟩ := h
      simp only [updateDeepestM_not_st, isSafeTernary]
      exact ⟨by rw [modeRel]; exact ⟨e2, rfl, he⟩, n, rfl, rfl⟩
  | Expr.readTemporary d, st2, n, h => by
      rw [modeRel] at h
      rcases h with rfl | rfl
      · simp only [updateDeepestM_not_st, isSafeTernary]
        exact ⟨by rw [modeRel]; exact Or.inl rfl, n, rfl, rfl⟩
      · simp only [updateDeepestM_not_st, isSafeTernary]
        exact ⟨by rw [modeRel]; exact Or.inr rfl, n, rfl, rfl⟩

/-- One application of `safeTransform` in the two modes sends related nodes
to related results and advances the two counters identically. -/
theorem safeTransform_modeRel :
    ∀ e e2 n, modeRel e e2 →
      modeRel (safeTransform e (stdCtx n)).1 (safeTransform e2 (legacyCtx n)).1 ∧
      ∃ m, (safeTransform e (stdCtx n)).2 = stdCtx m ∧
        (safeTransform e2 (legacyCtx n)).2 = legacyCtx m := by
  intro e e2 n h
  cases e <;> rw [modeRel] at h
  case literal v =>
    subst h
    rw [safeTransform_literal, safeTransform_literal]
    exact ⟨modeRel_refl (Expr.literal v), n, rfl, rfl⟩
  case readVar nm =>
    subst h
    rw [safeTransform_readVar, safeTransform_readVar]
    exact ⟨modeRel_refl (Expr.readVar nm), n, rfl, rfl⟩
  case unary op e1 =>
    obtain ⟨e3, rfl, he⟩ := h
    rw [safeTransform_unary, safeTransform_unary]
    exact ⟨by rw [modeRel]; exact ⟨_, rfl, he⟩, n, rfl, rfl⟩
  case binary op lhs rhs =>
    obtain ⟨l2, r2, rfl, h1, h2⟩ := h
    rw [safeTransform_binary, safeTransform_binary]
    exact ⟨by rw [modeRel]; exact ⟨_, _, rfl, h1, h2⟩, n, rfl, rfl⟩
  case conditional c t fc =>
    obtain ⟨c2, t2, fc2, rfl, hc, ht, hfc⟩ := h
    rw [safeTransform_conditional, safeTransform_conditional]
    exact ⟨by rw [modeRel]; exact ⟨_, _, _, rfl, hc, ht, hfc⟩, n, rfl, rfl⟩
  case notExpr c =>
    obtain ⟨c2, rfl, hc⟩ := h
    rw [safeTransform_notExpr, safeTransform_notExpr]
    exact ⟨by rw [modeRel]; exact ⟨_, rfl, hc⟩, n, rfl, rfl⟩
  case literalArray es =>
    obtain ⟨es2, rfl, hes⟩ := h
    rw [safeTransform_literalArray, safeTransform_literalArray]
    exact ⟨by rw [modeRel]; exact ⟨_, rfl, hes⟩, n, rfl, rfl⟩
  case literalMap ks vs =>
    obtain ⟨vs2, rfl, hvs⟩ := h
    rw [safeTransform_literalMap, safeTransform_literalMap]
    exact ⟨by rw [modeRel]; exact ⟨_, rfl, hvs⟩, n, rfl, rfl⟩
  case pipeBinding nm as =>
    obtain ⟨as2, rfl, has⟩ := h
    rw [safeTransform_pipeBinding, safeTransform_pipeBinding]
    exact ⟨by rw [modeRel]; exact ⟨_, rfl, has⟩, n, rfl, rfl⟩
  case assignTemporary e1 x =>
    obtain ⟨e3, rfl, he⟩ := h
    rw [safeTransform_assignTemporary, safeTransform_assignTemporary]
    exact ⟨by rw [modeRel]; exact ⟨_, rfl, he⟩, n, rfl, rfl⟩
  case readTemporary d =>
    rcases h with rfl | rfl
    · rw [safeTransform_readTemporary, safeTransform_readTemporary]
      exact ⟨by rw [modeRel]; exact Or.inl rfl, n, rfl, rfl⟩
    · rw [safeTransform_readTemporary, safeTransform_assignTemporary]
      exact ⟨by rw [modeRel]; exact Or.inr rfl, n, rfl, rfl⟩
  case safeTernary g b =>
    obtain ⟨g2, b2, rfl, hg, hb⟩ := h
    rw [safeTransform_safeTernary, safeTransform_safeTernary]
    exact ⟨by rw [modeRel]; exact ⟨_, _, rfl, hg, hb⟩, n, rfl, rfl⟩
  case readProp r nm =>
    obtain ⟨r2, rfl, hr⟩ := h
    by_cases hst : isSafeTernary r
    · have hst2 : isSafeTernary r2 = true := by
        rw [← isSafeTernary_modeRel r r2 hr]; exact hst
      rw [safeTransform_readProp_st _ _ _ hst, safeTransform_readProp_st _ _ _ hst2]
      exact ⟨updateDeepest_modeRel _ _
        (fun b b2 hb => by rw [modeRel]; exact ⟨_, rfl, hb⟩) r r2 hr, n, rfl, rfl⟩
    · have hstF : isSafeTernary r = false := by simpa using hst
      have hst2 : isSafeTernary r2 = false := by
        rw [← isSafeTernary_modeRel r r2 hr]; exact hstF
      rw [safeTransform_readProp_no _ _ _ hstF, safeTransform_readProp_no _ _ _ hst2]
      exact ⟨by rw [modeRel]; exact ⟨_, rfl, hr⟩, n, rfl, rfl⟩
  case readKey r i =>
    obtain ⟨r2, i2, rfl, hr, hi⟩ := h
    by_cases hst : isSafeTernary r
    · have hst2 : isSafeTernary r2 = true := by
        rw [← isSafeTernary_modeRel r r2 hr]; exact hst
      rw [safeTransform_readKey_st _ _ _ hst, safeTransform_readKey_st _ _ _ hst2]
      exact ⟨updateDeepest_modeRel _ _
        (fun b b2 hb => by rw [modeRel]; exact ⟨_, _, rfl, hb, hi⟩) r r2 hr, n, rfl, rfl⟩
    · have hstF : isSafeTernary r = false := by simpa using hst
      have hst2 : isSafeTernary r2 = false := by
        rw [← isSafeTernary_modeRel r r2 hr]; exact hstF
      rw [safeTransform_readKey_no _ _ _ hstF, safeTransform_readKey_no _ _ _ hst2]
      exact ⟨by rw [modeRel]; exact ⟨_, _, rfl, hr, hi⟩, n, rfl, rfl⟩
  case invokeFn r as =>
    obtain ⟨r2, as2, rfl, hr, has⟩ := h
    by_cases hst : isSafeTernary r
    · have hst2 : isSafeTernary r2 = true := by
        rw [← isSafeTernary_modeRel r r2 hr]; exact hst
      rw [safeTransform_invokeFn_st _ _ _ hst, safeTransform_invokeFn_st _ _ _ hst2]
      exact ⟨updateDeepest_modeRel _ _
        (fun b b2 hb => by rw [modeRel]; exact ⟨_, _, rfl, hb, has⟩) r r2 hr, n, rfl, rfl⟩
    · have hstF : isSafeTernary r = false := by simpa using hst
      have hst2 : isSafeTernary r2 = false := by
        rw [← isSafeTernary_modeRel r r2 hr]; exact hstF
      rw [safeTransform_invokeFn_no _ _ _ hstF, safeTransform_invokeFn_no _ _ _ hst2]
      exact ⟨by rw [modeRel]; exact ⟨_, _, rfl, hr, has⟩, n, rfl, rfl⟩
  case safePropertyRead r nm =>
    obtain ⟨r2, rfl, hr⟩ := h
    by_cases hst : isSafeTernary r
    · have hst2 : isSafeTernary r2 = true := by
        rw [← isSafeTernary_modeRel r r2 hr]; exact hst
      rw [safeTransform_safeProp_st _ _ _ hst, safeTransform_safeProp_st _ _ _ hst2]
      exact updateDeepestM_modeRel _ _
        (fun b b2 nn hb => sTWT_modeRel b b2 _ _ nn hb
          (fun x y hxy => by rw [modeRel]; exact ⟨_, rfl, hxy⟩)) r r2 n hr
    · have hstF : isSafeTernary r = false := by simpa using hst
      have hst2 : isSafeTernary r2 = false := by
        rw [← isSafeTernary_modeRel r r2 hr]; exact hstF
      rw [safeTransform_safeProp_no _ _ _ hstF, safeTransform_safeProp_no _ _ _ hst2]
      exact sTWT_modeRel r r2 _ _ n hr
        (fun x y hxy => by rw [modeRel]; exact ⟨_, rfl, hxy⟩)
  case safeKeyedRead r i =>
    obtain ⟨r2, i2, rfl, hr, hi⟩ := h
    by_cases hst : isSafeTernary r
    · have hst2 : isSafeTernary r2 = true := by
        rw [← isSafeTernary_modeRel r r2 hr]; exact hst
      rw [safeTransform_safeKey_st _ _ _ hst, safeTransform_safeKey_st _ _ _ hst2]
      exact updateDeepestM_modeRel _ _
        (fun b b2 nn hb => sTWT_modeRel b b2 _ _ nn hb
          (fun x y hxy => by rw [modeRel]; exact ⟨_, _, rfl, hxy, hi⟩)) r r2 n hr
    · have hstF : isSafeTernary r = false := by simpa using hst
      have hst2 : isSafeTernary r2 = false := by
        rw [← isSafeTernary_modeRel r r2 hr]; exact hstF
      rw [safeTransform_safeKey_no _ _ _ hstF, safeTransform_safeKey_no _ _ _ hst2]
      exact sTWT_modeRel r r2 _ _ n hr
        (fun x y hxy => by rw [modeRel]; exact ⟨_, _, rfl, hxy, hi⟩)
  case safeInvokeFn r as =>
    obtain ⟨r2, as2, rfl, hr, has⟩ := h
    by_cases hst : isSafeTernary r
    · have hst2 : isSafeTernary r2 = true := by
        rw [← isSafeTernary_modeRel r r2 hr]; exact hst
      rw [safeTransform_safeInvoke_st _ _ _ hst, safeTransform_safeInvoke_st _ _ _ hst2]
      exact updateDeepestM_modeRel _ _
        (fun b b2 nn hb => sTWT_modeRel b b2 _ _ nn hb
          (fun x y hxy => by rw [modeRel]; exact ⟨_, _, rfl, hxy, has⟩)) r r2 n hr
    · have hstF : isSafeTernary r = false := by simpa using hst
      have hst2 : isSafeTernary r2 = false := by
        rw [← isSafeTernary_modeRel r r2 hr]; exact hstF
      rw [safeTransform_safeInvoke_no _ _ _ hstF, safeTransform_safeInvoke_no _ _ _ hst2]
      exact sTWT_modeRel r r2 _ _ n hr
        (fun x y hxy => by rw [modeRel]; exact ⟨_, _, rfl, hxy, has⟩)

mutual
/-- The whole first sweep in the two modes: related inputs yield related
outputs and identical counter evolution. -/
theorem sweep_modeRel : ∀ s l n, modeRel s l →
    modeRel (transformExprM safeTransform s (stdCtx n)).1
        (transformExprM safeTransform l (legacyCtx n)).1 ∧
    ∃ m, (transformExprM safeTransform s (stdCtx n)).2 = stdCtx m ∧
      (transformExprM safeTransform l (legacyCtx n)).2 = legacyCtx m
  | Expr.literal v, l, n, h => by
      rw [modeRel] at h
      subst h
      exact safeTransform_modeRel (Expr.literal v) (Expr.literal v) n (modeRel_refl _)
  | Expr.readVar nm, l, n, h => by
      rw [modeRel] at h
      subst h
      exact safeTransform_modeRel (Expr.readVar nm) (Expr.readVar nm) n (modeRel_refl _)
  | Expr.readTemporary d, l, n, h => by
      rw [modeRel] at h
      rcases h with rfl | rfl
      · exact safeTransform_modeRel (Expr.readTemporary d) (Expr.readTemporary d) n
          (by rw [modeRel]; exact Or.inl rfl)
      · exact safeTransform_modeRel (Expr.readTemporary d)
          (Expr.assignTemporary (Expr.readTemporary d) d) n
          (by rw [modeRel]; exact Or.inr rfl)
  | Expr.unary op e, l, n, h => by
      rw [modeRel] at h
      obtain ⟨e2, rfl, he⟩ := h
      obtain ⟨hrel, m, hmS, hmL⟩ := sweep_modeRel e e2 n he
      simp only [transformExprM]
      rw [hmS, hmL]
      exact safeTransform_modeRel _ _ m (by rw [modeRel]; exact ⟨_, rfl, hrel⟩)
  | Expr.binary op lhs rhs, l, n, h => by
      rw [modeRel] at h
      obtain ⟨l2, r2, rfl, h1, h2⟩ := h
      obtain ⟨hrel1, m1, hmS1, hmL1⟩ := sweep_modeRel lhs l2 n h1
      simp only [transformExprM]
      rw [hmS1, hmL1]
      obtain ⟨hrel2, m2, hmS2, hmL2⟩ := sweep_modeRel rhs r2 m1 h2
      rw [hmS2, hmL2]
      exact safeTransform_modeRel _ _ m2 (by rw [modeRel]; exact ⟨_, _, rfl, hrel1, hrel2⟩)
  | Expr.conditional c t fc, l, n, h => by
      rw [modeRel] at h
      obtain ⟨c2, t2, fc2, rfl, hc, ht, hfc⟩ := h
      obtain ⟨hrel1, m1, hmS1, hmL1⟩ := sweep_modeRel c c2 n hc
      simp only [transformExprM]
      rw [hmS1, hmL1]
      obtain ⟨hrel2, m2, hmS2, hmL2⟩ := sweep_modeRel t t2 m1 ht
      rw [hmS2, hmL2]
      obtain ⟨hrel3, m3, hmS3, hmL3⟩ := sweep_modeRel_opt fc fc2 m2 hfc
      rw [hmS3, hmL3]
      exact safeTransform_modeRel _ _ m3
        (by rw [modeRel]; exact ⟨_, _, _, rfl, hrel1, hrel2, hrel3⟩)
  | Expr.notExpr c, l, n, h => by
      rw [modeRel] at h
      obtain ⟨c2, rfl, hc⟩ := h
      obtain ⟨hrel, m, hmS, hmL⟩ := sweep_modeRel c c2 n hc
      simp only [transformExprM]
      rw [hmS, hmL]
      exact safeTransform_modeRel _ _ m (by rw [modeRel]; exact ⟨_, rfl, hrel⟩)
  | Expr.literalArray es, l, n, h => by
      rw [modeRel] at h
      obtain ⟨es2, rfl, hes⟩ := h
      obtain ⟨hrel, m, hmS, hmL⟩ := sweep_modeRel_list es es2 n hes
      simp only [transformExprM]
      rw [hmS, hmL]
      exact safeTransform_modeRel _ _ m (by rw [modeRel]; exact ⟨_, rfl, hrel⟩)
  | Expr.literalMap ks vs, l, n, h => by
      rw [modeRel] at h
      obtain ⟨vs2, rfl, hvs⟩ := h
      obtain ⟨hrel, m, hmS, hmL⟩ := sweep_modeRel_list vs vs2 n hvs
      simp only [transformExprM]
      rw [hmS, hmL]
      exact safeTransform_modeRel _ _ m (by rw [modeRel]; exact ⟨_, rfl, hrel⟩)
  | Expr.readProp r nm, l, n, h => by
      rw [modeRel] at h
      obtain ⟨r2, rfl, hr⟩ := h
      obtain ⟨hrel, m, hmS, hmL⟩ := sweep_modeRel r r2 n hr
      simp only [transformExprM]
      rw [hmS, hmL]
      exact safeTransform_modeRel _ _ m (by rw [modeRel]; exact ⟨_, rfl, hrel⟩)
  | Expr.readKey r i, l, n, h => by
      rw [modeRel] at h
      obtain ⟨r2, i2, rfl, hr, hi⟩ := h
      obtain ⟨hrel1, m1, hmS1, hmL1⟩ := sweep_modeRel r r2 n hr
      simp only [transformExprM]
      rw [hmS1, hmL1]
      obtain ⟨hrel2, m2, hmS2, hmL2⟩ := sweep_modeRel i i2 m1 hi
      rw [hmS2, hmL2]
      exact safeTransform_modeRel _ _ m2 (by rw [modeRel]; exact ⟨_, _, rfl, hrel1, hrel2⟩)
  | Expr.invokeFn r as, l, n, h => by
      rw [modeRel] at h
      obtain ⟨r2, as2, rfl, hr, has⟩ := h
      obtain ⟨hrel1, m1, hmS1, hmL1⟩ := sweep_modeRel r r2 n hr
      simp only [transformExprM]
      rw [hmS1, hmL1]
      obtain ⟨hrel2, m2, hmS2, hmL2⟩ := sweep_modeRel_list as as2 m1 has
      rw [hmS2, hmL2]
      exact safeTransform_modeRel _ _ m2 (by rw [modeRel]; exact ⟨_, _, rfl, hrel1, hrel2⟩)
  | Expr.safePropertyRead r nm, l, n, h => by
      rw [modeRel] at h
      obtain ⟨r2, rfl, hr⟩ := h
      obtain ⟨hrel, m, hmS, hmL⟩ := sweep_modeRel r r2 n hr
      simp only [transformExprM]
      rw [hmS, hmL]
      exact safeTransform_modeRel _ _ m (by rw [modeRel]; exact ⟨_, rfl, hrel⟩)
  | Expr.safeKeyedRead r i, l, n, h => by
      rw [modeRel] at h
      obtain ⟨r2, i2, rfl, hr, hi⟩ := h
      obtain ⟨hrel1, m1, hmS1, hmL1⟩ := sweep_modeRel r r2 n hr
      simp only [transformExprM]
      rw [hmS1, hmL1]
      obtain ⟨hrel2, m2, hmS2, hmL2⟩ := sweep_modeRel i i2 m1 hi
      rw [hmS2, hmL2]
      exact safeTransform_modeRel _ _ m2 (by rw [modeRel]; exact ⟨_, _, rfl, hrel1, hrel2⟩)
  | Expr.safeInvokeFn r as, l, n, h => by
      rw [modeRel] at h
      obtain ⟨r2, as2, rfl, hr, has⟩ := h
      obtain ⟨hrel1, m1, hmS1, hmL1⟩ := sweep_modeRel r r2 n hr
      simp only [transformExprM]
      rw [hmS1, hmL1]
      obtain ⟨hrel2, m2, hmS2, hmL2⟩ := sweep_modeRel_list as as2 m1 has
      rw [hmS2, hmL2]
      exact safeTransform_modeRel _ _ m2 (by rw [modeRel]; exact ⟨_, _, rfl, hrel1, hrel2⟩)
  | Expr.pipeBinding nm as, l, n, h => by
      rw [modeRel] at h
      obtain ⟨as2, rfl, has⟩ := h
      obtain ⟨hrel, m, hmS, hmL⟩ := sweep_modeRel_list as as2 n has
      simp only [transformExprM]
      rw [hmS, hmL]
      exact safeTransform_modeRel _ _ m (by rw [modeRel]; exact ⟨_, rfl, hrel⟩)
  | Expr.assignTemporary e x, l, n, h => by
      rw [modeRel] at h
      obtain ⟨e2, rfl, he⟩ := h
      obtain ⟨hrel, m, hmS, hmL⟩ := sweep_modeRel e e2 n he
      simp only [transformExprM]
      rw [hmS, hmL]
      exact safeTransform_modeRel _ _ m (by rw [modeRel]; exact ⟨_, rfl, hrel⟩)
  | Expr.safeTernary g b, l, n, h => by
      rw [modeRel] at h
      obtain ⟨g2, b2, rfl, hg, hb⟩ := h
      obtain ⟨hrel1, m1, hmS1, hmL1⟩ := sweep_modeRel g g2 n hg
      simp only [transformExprM]
      rw [hmS1, hmL1]
      obtain ⟨hrel2, m2, hmS2, hmL2⟩ := sweep_modeRel b b2 m1 hb
      rw [hmS2, hmL2]
      exact safeTransform_modeRel _ _ m2 (by rw [modeRel]; exact ⟨_, _, rfl, hrel1, hrel2⟩)

/-- Optional-child part of `sweep_modeRel`. -/
theorem sweep_modeRel_opt : ∀ fc fc2 n, modeRelOpt fc fc2 →
    modeRelOpt (transformOptExprM safeTransform fc (stdCtx n)).1
        (transformOptExprM safeTransform fc2 (legacyCtx n)).1 ∧
    ∃ m, (transformOptExprM safeTransform fc (stdCtx n)).2 = stdCtx m ∧
      (transformOptExprM safeTransform fc2 (legacyCtx n)).2 = legacyCtx m
  | OptExpr.none, fc2, n, h => by
      rw [modeRelOpt] at h
      subst h
      refine ⟨?_, n, rfl, rfl⟩
      show modeRelOpt OptExpr.none OptExpr.none
      rw [modeRelOpt]
  | OptExpr.some e, l, n, h => by
      rw [modeRelOpt] at h
      obtain ⟨e2, rfl, he⟩ := h
      obtain ⟨hrel, m, hmS, hmL⟩ := sweep_modeRel e e2 n he
      simp only [transformOptExprM]
      rw [hmS, hmL]
      exact ⟨by rw [modeRelOpt]; exact ⟨_, rfl, hrel⟩, m, rfl, rfl⟩

/-- List part of `sweep_modeRel`. -/
theorem sweep_modeRel_list : ∀ es es2 n, modeRelList es es2 →
    modeRelList (transformExprListM safeTransform es (stdCtx n)).1
        (transformExprListM safeTransform es2 (legacyCtx n)).1 ∧
    ∃ m, (transformExprListM safeTransform es (stdCtx n)).2 = stdCtx m ∧
      (transformExprListM safeTransform es2 (legacyCtx n)).2 = legacyCtx m
  | ExprList.nil, es2, n, h => by
      rw [modeRelList] at h
      subst h
      refine ⟨?_, n, rfl, rfl⟩
      show modeRelList ExprList.nil ExprList.nil
      rw [modeRelList]
  | ExprList.cons e es, l, n, h => by
      rw [modeRelList] at h
      obtain ⟨e2, es2, rfl, he, hes⟩ := h
      obtain ⟨hrel1, m1, hmS1, hmL1⟩ := sweep_modeRel e e2 n he
      simp only [transformExprListM]
      rw [hmS1, hmL1]
      obtain ⟨hrel2, m2, hmS2, hmL2⟩ := sweep_modeRel_list es es2 m1 hes
      rw [hmS2, hmL2]
      exact ⟨by rw [modeRelList]; exact ⟨_, _, rfl, hrel1, hrel2⟩, m2, rfl, rfl⟩
end

mutual
/-- The ternary sweep sends related trees to related trees. -/
theorem tt_modeRel : ∀ s l, modeRel s l →
    modeRel (transformExpr ternaryTransform s) (transformExpr ternaryTransform l)
  | Expr.literal v, l, h => by
      rw [modeRel] at h
      subst h
      exact modeRel_refl (Expr.literal v)
  | Expr.readVar nm, l, h => by
      rw [modeRel] at h
      subst h
      exact modeRel_refl (Expr.readVar nm)
  | Expr.readTemporary d, l, h => by
      rw [modeRel] at h
      rcases h with rfl | rfl
      · show modeRel (Expr.readTemporary d) (Expr.readTemporary d)
        rw [modeRel]
        exact Or.inl rfl
      · show modeRel (Expr.readTemporary d)
          (Expr.assignTemporary (Expr.readTemporary d) d)
        rw [modeRel]
        exact Or.inr rfl
  | Expr.unary op e, l, h => by
      rw [modeRel] at h
      obtain ⟨e2, rfl, he⟩ := h
      show modeRel (Expr.unary op _) (Expr.unary op _)
      rw [modeRel]
      exact ⟨_, rfl, tt_modeRel e e2 he⟩
  | Expr.binary op lhs rhs, l, h => by
      rw [modeRel] at h
      obtain ⟨l2, r2, rfl, h1, h2⟩ := h
      show modeRel (Expr.binary op _ _) (Expr.binary op _ _)
      rw [modeRel]
      exact ⟨_, _, rfl, tt_modeRel lhs l2 h1, tt_modeRel rhs r2 h2⟩
  | Expr.conditional c t fc, l, h => by
      rw [modeRel] at h
      obtain ⟨c2, t2, fc2, rfl, hc, ht, hfc⟩ := h
      show modeRel (Expr.conditional _ _ _) (Expr.conditional _ _ _)
      rw [modeRel]
      exact ⟨_, _, _, rfl, tt_modeRel c c2 hc, tt_modeRel t t2 ht,
        tt_modeRel_opt fc fc2 hfc⟩
  | Expr.notExpr c, l, h => by
      rw [modeRel] at h
      obtain ⟨c2, rfl, hc⟩ := h
      show modeRel (Expr.notExpr _) (Expr.notExpr _)
      rw [modeRel]
      exact ⟨_, rfl, tt_modeRel c c2 hc⟩
  | Expr.literalArray es, l, h => by
      rw [modeRel] at h
      obtain ⟨es2, rfl, hes⟩ := h
      show modeRel (Expr.literalArray _) (Expr.literalArray _)
      rw [modeRel]
      exact ⟨_, rfl, tt_modeRel_list es es2 hes⟩
  | Expr.literalMap ks vs, l, h => by
      rw [modeRel] at h
      obtain ⟨vs2, rfl, hvs⟩ := h
      show modeRel (Expr.literalMap ks _) (Expr.literalMap ks _)
      rw [modeRel]
      exact ⟨_, rfl, tt_modeRel_list vs vs2 hvs⟩
  | Expr.readProp r nm, l, h => by
      rw [modeRel] at h
      obtain ⟨r2, rfl, hr⟩ := h
      show modeRel (Expr.readProp _ nm) (Expr.readProp _ nm)
      rw [modeRel]
      exact ⟨_, rfl, tt_modeRel r r2 hr⟩
  | Expr.readKey r i, l, h => by
      rw [modeRel] at h
      obtain ⟨r2, i2, rfl, hr, hi⟩ := h
      show modeRel (Expr.readKey _ _) (Expr.readKey _ _)
      rw [modeRel]
      exact ⟨_, _, rfl, tt_modeRel r r2 hr, tt_modeRel i i2 hi⟩
  | Expr.invokeFn r as, l, h => by
      rw [modeRel] at h
      obtain ⟨r2, as2, rfl, hr, has⟩ := h
      show modeRel (Expr.invokeFn _ _) (Expr.invokeFn _ _)
      rw [modeRel]
      exact ⟨_, _, rfl, tt_modeRel r r2 hr, tt_modeRel_list as as2 has⟩
  | Expr.safePropertyRead r nm, l, h => by
      rw [modeRel] at h
      obtain ⟨r2, rfl, hr⟩ := h
      show modeRel (Expr.safePropertyRead _ nm) (Expr.safePropertyRead _ nm)
      rw [modeRel]
      exact ⟨_, rfl, tt_modeRel r r2 hr⟩
  | Expr.safeKeyedRead r i, l, h => by
      rw [modeRel] at h
      obtain ⟨r2, i2, rfl, hr, hi⟩ := h
      show modeRel (Expr.safeKeyedRead _ _) (Expr.safeKeyedRead _ _)
      rw [modeRel]
      exact ⟨_, _, rfl, tt_modeRel r r2 hr, tt_modeRel i i2 hi⟩
  | Expr.safeInvokeFn r as, l, h => by
      rw [modeRel] at h
      obtain ⟨r2, as2, rfl, hr, has⟩ := h
      show modeRel (Expr.safeInvokeFn _ _) (Expr.safeInvokeFn _ _)
      rw [modeRel]
      exact ⟨_, _, rfl, tt_modeRel r r2 hr, tt_modeRel_list as as2 has⟩
  | Expr.pipeBinding nm as, l, h => by
      rw [modeRel] at h
      obtain ⟨as2, rfl, has⟩ := h
      show modeRel (Expr.pipeBinding nm _) (Expr.pipeBinding nm _)
      rw [modeRel]
      exact ⟨_, rfl, tt_modeRel_list as as2 has⟩
  | Expr.assignTemporary e x, l, h => by
      rw [modeRel] at h
      obtain ⟨e2, rfl, he⟩ := h
      show modeRel (Expr.assignTemporary _ x) (Expr.assignTemporary _ x)
      rw [modeRel]
      exact ⟨_, rfl, tt_modeRel e e2 he⟩
  | Expr.safeTernary g b, l, h => by
      rw [modeRel] at h
      obtain ⟨g2, b2, rfl, hg, hb⟩ := h
      show modeRel
        (Expr.conditional
          (Expr.binary BinaryOperator.equals (transformExpr ternaryTransform g) NULL_EXPR)
          NULL_EXPR (OptExpr.some (transformExpr ternaryTransform b)))
        (Expr.conditional
          (Expr.binary BinaryOperator.equals (transformExpr ternaryTransform g2) NULL_EXPR)
          NULL_EXPR (OptExpr.some (transformExpr ternaryTransform b2)))
      rw [modeRel]
      refine ⟨_, _, _, rfl, ?_, modeRel_refl NULL_EXPR, ?_⟩
      · rw [modeRel]
        exact ⟨_, _, rfl, tt_modeRel g g2 hg, modeRel_refl NULL_EXPR⟩
      · rw [modeRelOpt]
        exact ⟨_, rfl, tt_modeRel b b2 hb⟩

/-- Optional-child part of `tt_modeRel`. -/
theorem tt_modeRel_opt : ∀ fc fc2, modeRelOpt fc fc2 →
    modeRelOpt (transformOptExpr ternaryTransform fc) (transformOptExpr ternaryTransform fc2)
  | OptExpr.none, fc2, h => by
      rw [modeRelOpt] at h
      subst h
      rw [transformOptExpr, modeRelOpt]
  | OptExpr.some e, l, h => by
      rw [modeRelOpt] at h
      obtain ⟨e2, rfl, he⟩ := h
      rw [transformOptExpr, transformOptExpr, modeRelOpt]
      exact ⟨_, rfl, tt_modeRel e e2 he⟩

/-- List part of `tt_modeRel`. -/
theorem tt_modeRel_list : ∀ es es2, modeRelList es es2 →
    modeRelList (transformExprList ternaryTransform es) (transformExprList ternaryTransform es2)
  | ExprList.nil, es2, h => by
      rw [modeRelList] at h
      subst h
      rw [transformExprList, modeRelList]
  | ExprList.cons e es, l, h => by
      rw [modeRelList] at h
      obtain ⟨e2, es2, rfl, he, hes⟩ := h
      rw [transformExprList, transformExprList, modeRelList]
      exact ⟨_, _, rfl, tt_modeRel e e2 he, tt_modeRel_list es es2 hes⟩
end

/-- C5: on one and the same input, the legacy-mode output differs from the
standard-mode output exactly by the self-assignment wrapper: the outputs are
`modeRel`-related (identical trees except that legacy carries
`assign-temporary(read-temporary(id), id)` where standard has the bare
read), the id counters evolve identically, the per-node dedup step maps an
assignment of an id in the set to the bare read in standard mode and to
exactly the self-assignment in legacy mode, and on the dedup example the two
outputs really differ (one extra, non-defining assignment in legacy). -/
theorem c5_modes_differ_only_by_self_assignment :
    (∀ e n,
      modeRel (expandSafeReadsExpr e (stdCtx n)).1 (expandSafeReadsExpr e (legacyCtx n)).1 ∧
      ∃ m, (expandSafeReadsExpr e (stdCtx n)).2 = stdCtx m ∧
        (expandSafeReadsExpr e (legacyCtx n)).2 = legacyCtx m) ∧
    (∀ tmps x inner, x ∈ tmps →
      eliminateOne tmps CompatibilityMode.normal (Expr.assignTemporary inner x)
        = Expr.readTemporary x ∧
      eliminateOne tmps CompatibilityMode.templateDefinitionBuilder
          (Expr.assignTemporary inner x)
        = Expr.assignTemporary (Expr.readTemporary x) x) ∧
    ((expandSafeReadsExpr chainDedup (stdCtx 0)).1
        ≠ (expandSafeReadsExpr chainDedup (legacyCtx 0)).1 ∧
     assignTemporaryCount 0 (expandSafeReadsExpr chainDedup (stdCtx 0)).1 = 1 ∧
     assignTemporaryCount 0 (expandSafeReadsExpr chainDedup (legacyCtx 0)).1 = 2 ∧
     definingAssignCount 0 (expandSafeReadsExpr chainDedup (legacyCtx 0)).1 = 1) := by
  refine ⟨?_, ?_, by decide, rfl, rfl, rfl⟩
  · intro e n
    obtain ⟨hrel, m, hmS, hmL⟩ := sweep_modeRel e e n (modeRel_refl e)
    exact ⟨tt_modeRel _ _ hrel, m, hmS, hmL⟩
  · intro tmps x inner hx
    constructor
    · simp [eliminateOne, hx]
    · simp [eliminateOne, hx]

/-- Closed witness for the guarded conjunct of C5's theorem: the dedup step
at `assign-temporary(a, 0)` with the id in the set. -/
theorem c5_modes_differ_only_by_self_assignment_witness :
    eliminateOne [0] CompatibilityMode.normal (Expr.assignTemporary (Expr.readVar "a") 0)
      = Expr.readTemporary 0 ∧
    eliminateOne [0] CompatibilityMode.templateDefinitionBuilder
        (Expr.assignTemporary (Expr.readVar "a") 0)
      = Expr.assignTemporary (Expr.readTemporary 0) 0 :=
  c5_modes_differ_only_by_self_assignment.2.1 [0] 0 (Expr.readVar "a") (by decide)

/-!
## Machinery for the single-definition invariant

Membership and window lemmas about assigned temporary ids, used to combine
per-child invariants of the first sweep into the parent's invariant.
-/

mutual
/-- Every assigned id is a mentioned id. -/
theorem mem_tmp_allTempIds : ∀ e (x : Nat), x ∈ temporariesIn e → x ∈ allTempIds e
  | Expr.literal _, x, hx => by rw [temporariesIn] at hx; simp at hx
  | Expr.readVar _, x, hx => by rw [temporariesIn] at hx; simp at hx
  | Expr.unary op e, x, hx => by
      rw [temporariesIn] at hx
      rw [allTempIds]
      exact mem_tmp_allTempIds e x hx
  | Expr.binary op lhs rhs, x, hx => by
      rw [temporariesIn, List.mem_append] at hx
      rw [allTempIds, List.mem_append]
      rcases hx with hx | hx
      · exact Or.inl (mem_tmp_allTempIds lhs x hx)
      · exact Or.inr (mem_tmp_allTempIds rhs x hx)
  | Expr.conditional c t fc, x, hx => by
      rw [temporariesIn, List.mem_append, List.mem_append] at hx
      rw [allTempIds, List.mem_append, List.mem_append]
      rcases hx with (hx | hx) | hx
      · exact Or.inl (Or.inl (mem_tmp_allTempIds c x hx))
      · exact Or.inl (Or.inr (mem_tmp_allTempIds t x hx))
      · exact Or.inr (mem_tmp_allTempIds_opt fc x hx)
  | Expr.notExpr c, x, hx => by
      rw [temporariesIn] at hx
      rw [allTempIds]
      exact mem_tmp_allTempIds c x hx
  | Expr.literalArray es, x, hx => by
      rw [temporariesIn] at hx
      rw [allTempIds]
      exact mem_tmp_allTempIds_list es x hx
  | Expr.literalMap ks vs, x, hx => by
      rw [temporariesIn] at hx
      rw [allTempIds]
      exact mem_tmp_allTempIds_list vs x hx
  | Expr.readProp r n, x, hx => by
      rw [temporariesIn] at hx
      rw [allTempIds]
      exact mem_tmp_allTempIds r x hx
  | Expr.readKey r i, x, hx => by
      rw [temporariesIn, List.mem_append] at hx
      rw [allTempIds, List.mem_append]
      rcases hx with hx | hx
      · exact Or.inl (mem_tmp_allTempIds r x hx)
      · exact Or.inr (mem_tmp_allTempIds i x hx)
  | Expr.invokeFn r as, x, hx => by
      rw [temporariesIn, List.mem_append] at hx
      rw [allTempIds, List.mem_append]
      rcases hx with hx | hx
      · exact Or.inl (mem_tmp_allTempIds r x hx)
      · exact Or.inr (mem_tmp_allTempIds_list as x hx)
  | Expr.safePropertyRead r n, x, hx => by
      rw [temporariesIn] at hx
      rw [allTempIds]
      exact mem_tmp_allTempIds r x hx
  | Expr.safeKeyedRead r i, x, hx => by
      rw [temporariesIn, List.mem_append] at hx
      rw [allTempIds, List.mem_append]
      rcases hx with hx | hx
      · exact Or.inl (mem_tmp_allTempIds r x hx)
      · exact Or.inr (mem_tmp_allTempIds i x hx)
  | Expr.safeInvokeFn r as, x, hx => by
      rw [temporariesIn, List.mem_append] at hx
      rw [allTempIds, List.mem_append]
      rcases hx with hx | hx
      · exact Or.inl (mem_tmp_allTempIds r x hx)
      · exact Or.inr (mem_tmp_allTempIds_list as x hx)
  | Expr.pipeBinding n as, x, hx => by
      rw [temporariesIn] at hx
      rw [allTempIds]
      exact mem_tmp_allTempIds_list as x hx
  | Expr.assignTemporary e y, x, hx => by
      rw [temporariesIn, List.mem_cons] at hx
      rw [allTempIds, List.mem_cons]
      rcases hx with hx | hx
      · exact Or.inl hx
      · exact Or.inr (mem_tmp_allTempIds e x hx)
  | Expr.readTemporary y, x, hx => by rw [temporariesIn] at hx; simp at hx
  | Expr.safeTernary g b, x, hx => by
      rw [temporariesIn, List.mem_append] at hx
      rw [allTempIds, List.mem_append]
      rcases hx with hx | hx
      · exact Or.inl (mem_tmp_allTempIds g x hx)
      · exact Or.inr (mem_tmp_allTempIds b x hx)

/-- Optional-child part of `mem_tmp_allTempIds`. -/
theorem mem_tmp_allTempIds_opt : ∀ fc (x : Nat),
    x ∈ temporariesInOpt fc → x ∈ allTempIdsOpt fc
  | OptExpr.none, x, hx => by rw [temporariesInOpt] at hx; simp at hx
  | OptExpr.some e, x, hx => by
      rw [temporariesInOpt] at hx
      rw [allTempIdsOpt]
      exact mem_tmp_allTempIds e x hx

/-- List part of `mem_tmp_allTempIds`. -/
theorem mem_tmp_allTempIds_list : ∀ es (x : Nat),
    x ∈ temporariesInList es → x ∈ allTempIdsList es
  | ExprList.nil, x, hx => by rw [temporariesInList] at hx; simp at hx
  | ExprList.cons e es, x, hx => by
      rw [temporariesInList, List.mem_append] at hx
      rw [allTempIdsList, List.mem_append]
      rcases hx with hx | hx
      · exact Or.inl (mem_tmp_allTempIds e x hx)
      · exact Or.inr (mem_tmp_allTempIds_list es x hx)
end

mutual
/-- An id that is never assigned has assignment count zero. -/
theorem assignCount_notMem : ∀ e (x : Nat), x ∉ temporariesIn e →
    countNodes (isAssignOf x) e = 0
  | Expr.literal _, x, hx => by simp [countNodes, isAssignOf]
  | Expr.readVar _, x, hx => by simp [countNodes, isAssignOf]
  | Expr.unary op e, x, hx => by
      rw [temporariesIn] at hx
      simp [countNodes, isAssignOf, assignCount_notMem e x hx]
  | Expr.binary op lhs rhs, x, hx => by
      rw [temporariesIn] at hx
      simp only [List.mem_append] at hx
      push_neg at hx
      simp [countNodes, isAssignOf, assignCount_notMem lhs x hx.1,
        assignCount_notMem rhs x hx.2]
  | Expr.conditional c t fc, x, hx => by
      rw [temporariesIn] at hx
      simp only [List.mem_append] at hx
      push_neg at hx
      simp [countNodes, isAssignOf, assignCount_notMem c x hx.1.1,
        assignCount_notMem t x hx.1.2, assignCount_notMem_opt fc x hx.2]
  | Expr.notExpr c, x, hx => by
      rw [temporariesIn] at hx
      simp [countNodes, isAssignOf, assignCount_notMem c x hx]
  | Expr.literalArray es, x, hx => by
      rw [temporariesIn] at hx
      simp [countNodes, isAssignOf, assignCount_notMem_list es x hx]
  | Expr.literalMap ks vs, x, hx => by
      rw [temporariesIn] at hx
      simp [countNodes, isAssignOf, assignCount_notMem_list vs x hx]
  | Expr.readProp r n, x, hx => by
      rw [temporariesIn] at hx
      simp [countNodes, isAssignOf, assignCount_notMem r x hx]
  | Expr.readKey r i, x, hx => by
      rw [temporariesIn] at hx
      simp only [List.mem_append] at hx
      push_neg at hx
      simp [countNodes, isAssignOf, assignCount_notMem r x hx.1,
        assignCount_notMem i x hx.2]
  | Expr.invokeFn r as, x, hx => by
      rw [temporariesIn] at hx
      simp only [List.mem_append] at hx
      push_neg at hx
      simp [countNodes, isAssignOf, assignCount_notMem r x hx.1,
        assignCount_notMem_list as x hx.2]
  | Expr.safePropertyRead r n, x, hx => by
      rw [temporariesIn] at hx
      simp [countNodes, isAssignOf, assignCount_notMem r x hx]
  | Expr.safeKeyedRead r i, x, hx => by
      rw [temporariesIn] at hx
      simp only [List.mem_append] at hx
      push_neg at hx
      simp [countNodes, isAssignOf, assignCount_notMem r x hx.1,
        assignCount_notMem i x hx.2]
  | Expr.safeInvokeFn r as, x, hx => by
      rw [temporariesIn] at hx
      simp only [List.mem_append] at hx
      push_neg at hx
      simp [countNodes, isAssignOf, assignCount_notMem r x hx.1,
        assignCount_notMem_list as x hx.2]
  | Expr.pipeBinding n as, x, hx => by
      rw [temporariesIn] at hx
      simp [countNodes, isAssignOf, assignCount_notMem_list as x hx]
  | Expr.assignTemporary e y, x, hx => by
      rw [temporariesIn] at hx
      simp only [List.mem_cons] at hx
      push_neg at hx
      have hyx : y ≠ x := fun hh => hx.1 hh.symm
      simp [countNodes, isAssignOf, hyx, assignCount_notMem e x hx.2]
  | Expr.readTemporary y, x, hx => by simp [countNodes, isAssignOf]
  | Expr.safeTernary g b, x, hx => by
      rw [temporariesIn] at hx
      simp only [List.mem_append] at hx
      push_neg at hx
      simp [countNodes, isAssignOf, assignCount_notMem g x hx.1,
        assignCount_notMem b x hx.2]

/-- Optional-child part of `assignCount_notMem`. -/
theorem assignCount_notMem_opt : ∀ fc (x : Nat), x ∉ temporariesInOpt fc →
    countNodesOpt (isAssignOf x) fc = 0
  | OptExpr.none, x, hx => by simp [countNodesOpt]
  | OptExpr.some e, x, hx => by
      rw [temporariesInOpt] at hx
      simp [countNodesOpt, assignCount_notMem e x hx]

/-- List part of `assignCount_notMem`. -/
theorem assignCount_notMem_list : ∀ es (x : Nat), x ∉ temporariesInList es →
    countNodesList (isAssignOf x) es = 0
  | ExprList.nil, x, hx => by simp [countNodesList]
  | ExprList.cons e es, x, hx => by
      rw [temporariesInList] at hx
      simp only [List.mem_append] at hx
      push_neg at hx
      simp [countNodesList, assignCount_notMem e x hx.1,
        assignCount_notMem_list es x hx.2]
end

/-- An id outside a tree's id window has assignment count zero there. -/
theorem window_count_zero (e : Expr) (lo hi x : Nat)
    (hw : ∀ y, y ∈ allTempIds e → lo ≤ y ∧ y < hi)
    (hx : x < lo ∨ hi ≤ x) : countNodes (isAssignOf x) e = 0 := by
  apply assignCount_notMem
  intro hmem
  have := hw x (mem_tmp_allTempIds e x hmem)
  omega

/-- Optional-child part of `window_count_zero`. -/
theorem window_count_zero_opt (fc : OptExpr) (lo hi x : Nat)
    (hw : ∀ y, y ∈ allTempIdsOpt fc → lo ≤ y ∧ y < hi)
    (hx : x < lo ∨ hi ≤ x) : countNodesOpt (isAssignOf x) fc = 0 := by
  apply assignCount_notMem_opt
  intro hmem
  have := hw x (mem_tmp_allTempIds_opt fc x hmem)
  omega

/-- List part of `window_count_zero`. -/
theorem window_count_zero_list (es : ExprList) (lo hi x : Nat)
    (hw : ∀ y, y ∈ allTempIdsList es → lo ≤ y ∧ y < hi)
    (hx : x < lo ∨ hi ≤ x) : countNodesList (isAssignOf x) es = 0 := by
  apply assignCount_notMem_list
  intro hmem
  have := hw x (mem_tmp_allTempIds_list es x hmem)
  omega

/-- `SweepInv` for a one-child node: unary operator. -/
theorem sweepInv_unary (op : UnaryOperator) (e : Expr) (n m : Nat)
    (h : SweepInv n m e) : SweepInv n m (Expr.unary op e) := by
  refine ⟨?_, ?_, rfl, ?_⟩
  · intro x hx
    rw [allTempIds] at hx
    exact h.1 x hx
  · intro x
    have := h.2.1 x
    simp only [countNodes, isAssignOf, Bool.false_eq_true, if_false]
    omega
  · rw [bodiesOk]
    exact h.2.2.2

/-- `SweepInv` for a one-child node: logical not. -/
theorem sweepInv_notExpr (c : Expr) (n m : Nat)
    (h : SweepInv n m c) : SweepInv n m (Expr.notExpr c) := by
  refine ⟨?_, ?_, rfl, ?_⟩
  · intro x hx
    rw [allTempIds] at hx
    exact h.1 x hx
  · intro x
    have := h.2.1 x
    simp only [countNodes, isAssignOf, Bool.false_eq_true, if_false]
    omega
  · rw [bodiesOk]
    exact h.2.2.2

/-- `SweepInv` for a one-child node: property read. -/
theorem sweepInv_readProp (r : Expr) (nm : String) (n m : Nat)
    (h : SweepInv n m r) : SweepInv n m (Expr.readProp r nm) := by
  refine ⟨?_, ?_, rfl, ?_⟩
  · intro x hx
    rw [allTempIds] at hx
    exact h.1 x hx
  · intro x
    have := h.2.1 x
    simp only [countNodes, isAssignOf, Bool.false_eq_true, if_false]
    omega
  · rw [bodiesOk]
    exact h.2.2.2

/-- `SweepInv` for a two-child node with stacked id windows: binary
operator. -/
theorem sweepInv_binary (op : BinaryOperator) (a b : Expr) (n m1 m2 : Nat)
    (ha : SweepInv n m1 a) (hb : SweepInv m1 m2 b)
    (h1 : n ≤ m1) (h2 : m1 ≤ m2) : SweepInv n m2 (Expr.binary op a b) := by
  refine ⟨?_, ?_, rfl, ?_⟩
  · intro x hx
    rw [allTempIds, List.mem_append] at hx
    rcases hx with hx | hx
    · have := ha.1 x hx; omega
    · have := hb.1 x hx; omega
  · intro x
    by_cases hx : x < m1
    · have hz := window_count_zero b m1 m2 x hb.1 (Or.inl hx)
      have := ha.2.1 x
      simp only [countNodes, isAssignOf, Bool.false_eq_true, if_false]
      omega
    · have hz := window_count_zero a n m1 x ha.1 (Or.inr (by omega))
      have := hb.2.1 x
      simp only [countNodes, isAssignOf, Bool.false_eq_true, if_false]
      omega
  · rw [bodiesOk, ha.2.2.2, hb.2.2.2]
    rfl

/-- `SweepInv` for a two-child node with stacked id windows: keyed read. -/
theorem sweepInv_readKey (a b : Expr) (n m1 m2 : Nat)
    (ha : SweepInv n m1 a) (hb : SweepInv m1 m2 b)
    (h1 : n ≤ m1) (h2 : m1 ≤ m2) : SweepInv n m2 (Expr.readKey a b) := by
  refine ⟨?_, ?_, rfl, ?_⟩
  · intro x hx
    rw [allTempIds, List.mem_append] at hx
    rcases hx with hx | hx
    · have := ha.1 x hx; omega
    · have := hb.1 x hx; omega
  · intro x
    by_cases hx : x < m1
    · have hz := window_count_zero b m1 m2 x hb.1 (Or.inl hx)
      have := ha.2.1 x
      simp only [countNodes, isAssignOf, Bool.false_eq_true, if_false]
      omega
    · have hz := window_count_zero a n m1 x ha.1 (Or.inr (by omega))
      have := hb.2.1 x
      simp only [countNodes, isAssignOf, Bool.false_eq_true, if_false]
      omega
  · rw [bodiesOk, ha.2.2.2, hb.2.2.2]
    rfl

/-- `SweepInv` for a safe-ternary node built from invariant parts (the body
is not assignment-rooted by its own invariant). -/
theorem sweepInv_stNode (a b : Expr) (n m1 m2 : Nat)
    (ha : SweepInv n m1 a) (hb : SweepInv m1 m2 b)
    (h1 : n ≤ m1) (h2 : m1 ≤ m2) : SweepInv n m2 (Expr.safeTernary a b) := by
  refine ⟨?_, ?_, rfl, ?_⟩
  · intro x hx
    rw [allTempIds, List.mem_append] at hx
    rcases hx with hx | hx
    · have := ha.1 x hx; omega
    · have := hb.1 x hx; omega
  · intro x
    by_cases hx : x < m1
    · have hz := window_count_zero b m1 m2 x hb.1 (Or.inl hx)
      have := ha.2.1 x
      simp only [countNodes, isAssignOf, Bool.false_eq_true, if_false]
      omega
    · have hz := window_count_zero a n m1 x ha.1 (Or.inr (by omega))
      have := hb.2.1 x
      simp only [countNodes, isAssignOf, Bool.false_eq_true, if_false]
      omega
  · rw [bodiesOk, ha.2.2.2, hb.2.2.2, hb.2.2.1]
    rfl

/-- `SweepInv` for the conditional node, with three stacked windows. -/
theorem sweepInv_conditional (c t : Expr) (fc : OptExpr) (n m1 m2 m3 : Nat)
    (hc : SweepInv n m1 c) (ht : SweepInv m1 m2 t) (hfc : SweepInvOpt m2 m3 fc)
    (h1 : n ≤ m1) (h2 : m1 ≤ m2) (h3 : m2 ≤ m3) :
    SweepInv n m3 (Expr.conditional c t fc) := by
  refine ⟨?_, ?_, rfl, ?_⟩
  · intro x hx
    rw [allTempIds, List.mem_append, List.mem_append] at hx
    rcases hx with (hx | hx) | hx
    · have := hc.1 x hx; omega
    · have := ht.1 x hx; omega
    · have := hfc.1 x hx; omega
  · intro x
    by_cases hx1 : x < m1
    · have hz2 := window_count_zero t m1 m2 x ht.1 (Or.inl hx1)
      have hz3 := window_count_zero_opt fc m2 m3 x hfc.1 (Or.inl (by omega))
      have := hc.2.1 x
      simp only [countNodes, isAssignOf, Bool.false_eq_true, if_false]
      omega
    · have hz1 := window_count_zero c n m1 x hc.1 (Or.inr (by omega))
      by_cases hx2 : x < m2
      · have hz3 := window_count_zero_opt fc m2 m3 x hfc.1 (Or.inl (by omega))
        have := ht.2.1 x
        simp only [countNodes, isAssignOf, Bool.false_eq_true, if_false]
        omega
      · have hz2 := window_count_zero t m1 m2 x ht.1 (Or.inr (by omega))
        have := hfc.2.1 x
        simp only [countNodes, isAssignOf, Bool.false_eq_true, if_false]
        omega
  · rw [bodiesOk, hc.2.2.2, ht.2.2.2, hfc.2.2]
    rfl

/-- `SweepInv` for an array literal over an invariant entry list. -/
theorem sweepInv_literalArray (es : ExprList) (n m : Nat)
    (h : SweepInvList n m es) : SweepInv n m (Expr.literalArray es) := by
  refine ⟨?_, ?_, rfl, ?_⟩
  · intro x hx
    rw [allTempIds] at hx
    exact h.1 x hx
  · intro x
    have := h.2.1 x
    simp only [countNodes, isAssignOf, Bool.false_eq_true, if_false]
    omega
  · rw [bodiesOk]
    exact h.2.2

/-- `SweepInv` for a map literal over an invariant value list. -/
theorem sweepInv_literalMap (ks : List String) (vs : ExprList) (n m : Nat)
    (h : SweepInvList n m vs) : SweepInv n m (Expr.literalMap ks vs) := by
  refine ⟨?_, ?_, rfl, ?_⟩
  · intro x hx
    rw [allTempIds] at hx
    exact h.1 x hx
  · intro x
    have := h.2.1 x
    simp only [countNodes, isAssignOf, Bool.false_eq_true, if_false]
    omega
  · rw [bodiesOk]
    exact h.2.2

/-- `SweepInv` for a pipe binding over an invariant argument list. -/
theorem sweepInv_pipeBinding (nm : String) (as : ExprList) (n m : Nat)
    (h : SweepInvList n m as) : SweepInv n m (Expr.pipeBinding nm as) := by
  refine ⟨?_, ?_, rfl, ?_⟩
  · intro x hx
    rw [allTempIds] at hx
    exact h.1 x hx
  · intro x
    have := h.2.1 x
    simp only [countNodes, isAssignOf, Bool.false_eq_true, if_false]
    omega
  · rw [bodiesOk]
    exact h.2.2

/-- `SweepInv` for a plain invocation from an invariant receiver and
argument list with stacked windows. -/
theorem sweepInv_invokeFn (r : Expr) (as : ExprList) (n m1 m2 : Nat)
    (hr : SweepInv n m1 r) (has : SweepInvList m1 m2 as)
    (h1 : n ≤ m1) (h2 : m1 ≤ m2) : SweepInv n m2 (Expr.invokeFn r as) := by
  refine ⟨?_, ?_, rfl, ?_⟩
  · intro x hx
    rw [allTempIds, List.mem_append] at hx
    rcases hx with hx | hx
    · have := hr.1 x hx; omega
    · have := has.1 x hx; omega
  · intro x
    by_cases hx : x < m1
    · have hz := window_count_zero_list as m1 m2 x has.1 (Or.inl hx)
      have := hr.2.1 x
      simp only [countNodes, isAssignOf, Bool.false_eq_true, if_false]
      omega
    · have hz := window_count_zero r n m1 x hr.1 (Or.inr (by omega))
      have := has.2.1 x
      simp only [countNodes, isAssignOf, Bool.false_eq_true, if_false]
      omega
  · rw [bodiesOk, hr.2.2.2, has.2.2]
    rfl

/-- The empty list invariant at any point. -/
theorem sweepInvList_nil (n m : Nat) : SweepInvList n m ExprList.nil := by
  refine ⟨?_, ?_, rfl⟩
  · intro x hx
    rw [allTempIdsList] at hx
    simp at hx
  · intro x
    simp [countNodesList]

/-- `SweepInvList` for a cons cell with stacked windows. -/
theorem sweepInvList_cons (e : Expr) (es : ExprList) (n m1 m2 : Nat)
    (he : SweepInv n m1 e) (hes : SweepInvList m1 m2 es)
    (h1 : n ≤ m1) (h2 : m1 ≤ m2) : SweepInvList n m2 (ExprList.cons e es) := by
  refine ⟨?_, ?_, ?_⟩
  · intro x hx
    rw [allTempIdsList, List.mem_append] at hx
    rcases hx with hx | hx
    · have := he.1 x hx; omega
    · have := hes.1 x hx; omega
  · intro x
    by_cases hx : x < m1
    · have hz := window_count_zero_list es m1 m2 x hes.1 (Or.inl hx)
      have := he.2.1 x
      simp only [countNodesList]
      omega
    · have hz := window_count_zero e n m1 x he.1 (Or.inr (by omega))
      have := hes.2.1 x
      simp only [countNodesList]
      omega
  · rw [bodiesOkList, he.2.2.2, hes.2.2]
    rfl

/-- `SweepInvOpt` for the missing branch. -/
theorem sweepInvOpt_none (n m : Nat) : SweepInvOpt n m OptExpr.none := by
  refine ⟨?_, ?_, rfl⟩
  · intro x hx
    rw [allTempIdsOpt] at hx
    simp at hx
  · intro x
    simp [countNodesOpt]

/-- `SweepInvOpt` for a present branch. -/
theorem sweepInvOpt_some (e : Expr) (n m : Nat) (h : SweepInv n m e) :
    SweepInvOpt n m (OptExpr.some e) := by
  refine ⟨?_, ?_, ?_⟩
  · intro x hx
    rw [allTempIdsOpt] at hx
    exact h.1 x hx
  · intro x
    rw [countNodesOpt]
    exact h.2.1 x
  · rw [bodiesOkOpt]
    exact h.2.2.2

mutual
/-- In standard mode the dedup rewrite never increases an id's assignment
count (it only turns assignments into reads). -/
theorem elim_assign_le (tmps : List Nat) (x : Nat) : ∀ e,
    countNodes (isAssignOf x) (transformExpr (eliminateOne tmps CompatibilityMode.normal) e)
      ≤ countNodes (isAssignOf x) e
  | Expr.literal v => by simp [transformExpr, eliminateOne, countNodes, isAssignOf]
  | Expr.readVar n => by simp [transformExpr, eliminateOne, countNodes, isAssignOf]
  | Expr.unary op e => by
      have ih := elim_assign_le tmps x e
      simp only [transformExpr, eliminateOne, countNodes, isAssignOf,
        Bool.false_eq_true, if_false]
      omega
  | Expr.binary op lhs rhs => by
      have i1 := elim_assign_le tmps x lhs
      have i2 := elim_assign_le tmps x rhs
      simp only [transformExpr, eliminateOne, countNodes, isAssignOf,
        Bool.false_eq_true, if_false]
      omega
  | Expr.conditional c t fc => by
      have i1 := elim_assign_le tmps x c
      have i2 := elim_assign_le tmps x t
      have i3 := elim_assign_le_opt tmps x fc
      simp only [transformExpr, eliminateOne, countNodes, isAssignOf,
        Bool.false_eq_true, if_false]
      omega
  | Expr.notExpr c => by
      have ih := elim_assign_le tmps x c
      simp only [transformExpr, eliminateOne, countNodes, isAssignOf,
        Bool.false_eq_true, if_false]
      omega
  | Expr.literalArray es => by
      have ih := elim_assign_le_list tmps x es
      simp only [transformExpr, eliminateOne, countNodes, isAssignOf,
        Bool.false_eq_true, if_false]
      omega
  | Expr.literalMap ks vs => by
      have ih := elim_assign_le_list tmps x vs
      simp only [transformExpr, eliminateOne, countNodes, isAssignOf,
        Bool.false_eq_true, if_false]
      omega
  | Expr.readProp r n => by
      have ih := elim_assign_le tmps x r
      simp only [transformExpr, eliminateOne, countNodes, isAssignOf,
        Bool.false_eq_true, if_false]
      omega
  | Expr.readKey r i => by
      have i1 := elim_assign_le tmps x r
      have i2 := elim_assign_le tmps x i
      simp only [transformExpr, eliminateOne, countNodes, isAssignOf,
        Bool.false_eq_true, if_false]
      omega
  | Expr.invokeFn r as => by
      have i1 := elim_assign_le tmps x r
      have i2 := elim_assign_le_list tmps x as
      simp only [transformExpr, eliminateOne, countNodes, isAssignOf,
        Bool.false_eq_true, if_false]
      omega
  | Expr.safePropertyRead r n => by
      have ih := elim_assign_le tmps x r
      simp only [transformExpr, eliminateOne, countNodes, isAssignOf,
        Bool.false_eq_true, if_false]
      omega
  | Expr.safeKeyedRead r i => by
      have i1 := elim_assign_le tmps x r
      have i2 := elim_assign_le tmps x i
      simp only [transformExpr, eliminateOne, countNodes, isAssignOf,
        Bool.false_eq_true, if_false]
      omega
  | Expr.safeInvokeFn r as => by
      have i1 := elim_assign_le tmps x r
      have i2 := elim_assign_le_list tmps x as
      simp only [transformExpr, eliminateOne, countNodes, isAssignOf,
        Bool.false_eq_true, if_false]
      omega
  | Expr.pipeBinding n as => by
      have ih := elim_assign_le_list tmps x as
      simp only [transformExpr, eliminateOne, countNodes, isAssignOf,
        Bool.false_eq_true, if_false]
      omega
  | Expr.assignTemporary e y => by
      have ih := elim_assign_le tmps x e
      by_cases hy : y ∈ tmps
      · simp [transformExpr, eliminateOne, hy, countNodes, isAssignOf]
      · simp only [transformExpr, eliminateOne, hy, if_false, countNodes, isAssignOf]
        omega
  | Expr.readTemporary y => by simp [transformExpr, eliminateOne, countNodes, isAssignOf]
  | Expr.safeTernary g b => by
      have i1 := elim_assign_le tmps x g
      have i2 := elim_assign_le tmps x b
      simp only [transformExpr, eliminateOne, countNodes, isAssignOf,
        Bool.false_eq_true, if_false]
      omega

/-- Optional-child part of `elim_assign_le`. -/
theorem elim_assign_le_opt (tmps : List Nat) (x : Nat) : ∀ fc,
    countNodesOpt (isAssignOf x)
        (transformOptExpr (eliminateOne tmps CompatibilityMode.normal) fc)
      ≤ countNodesOpt (isAssignOf x) fc
  | OptExpr.none => by simp [transformOptExpr, countNodesOpt]
  | OptExpr.some e => by
      have ih := elim_assign_le tmps x e
      simp only [transformOptExpr, countNodesOpt]
      omega

/-- List part of `elim_assign_le`. -/
theorem elim_assign_le_list (tmps : List Nat) (x : Nat) : ∀ es,
    countNodesList (isAssignOf x)
        (transformExprList (eliminateOne tmps CompatibilityMode.normal) es)
      ≤ countNodesList (isAssignOf x) es
  | ExprList.nil => by simp [transformExprList, countNodesList]
  | ExprList.cons e es => by
      have i1 := elim_assign_le tmps x e
      have i2 := elim_assign_le_list tmps x es
      simp only [transformExprList, countNodesList]
      omega
end

mutual
/-- The dedup rewrite mentions no new temporary ids. -/
theorem elim_ids_sub (tmps : List Nat) : ∀ e (x : Nat),
    x ∈ allTempIds (transformExpr (eliminateOne tmps CompatibilityMode.normal) e) →
    x ∈ allTempIds e
  | Expr.literal v, x, hx => by simpa [transformExpr, eliminateOne] using hx
  | Expr.readVar n, x, hx => by simpa [transformExpr, eliminateOne] using hx
  | Expr.unary op e, x, hx => by
      simp only [transformExpr, eliminateOne, allTempIds] at hx ⊢
      exact elim_ids_sub tmps e x hx
  | Expr.binary op lhs rhs, x, hx => by
      simp only [transformExpr, eliminateOne, allTempIds, List.mem_append] at hx ⊢
      rcases hx with hx | hx
      · exact Or.inl (elim_ids_sub tmps lhs x hx)
      · exact Or.inr (elim_ids_sub tmps rhs x hx)
  | Expr.conditional c t fc, x, hx => by
      simp only [transformExpr, eliminateOne, allTempIds, List.mem_append] at hx ⊢
      rcases hx with (hx | hx) | hx
      · exact Or.inl (Or.inl (elim_ids_sub tmps c x hx))
      · exact Or.inl (Or.inr (elim_ids_sub tmps t x hx))
      · exact Or.inr (elim_ids_sub_opt tmps fc x hx)
  | Expr.notExpr c, x, hx => by
      simp only [transformExpr, eliminateOne, allTempIds] at hx ⊢
      exact elim_ids_sub tmps c x hx
  | Expr.literalArray es, x, hx => by
      simp only [transformExpr, eliminateOne, allTempIds] at hx ⊢
      exact elim_ids_sub_list tmps es x hx
  | Expr.literalMap ks vs, x, hx => by
      simp only [transformExpr, eliminateOne, allTempIds] at hx ⊢
      exact elim_ids_sub_list tmps vs x hx
  | Expr.readProp r n, x, hx => by
      simp only [transformExpr, eliminateOne, allTempIds] at hx ⊢
      exact elim_ids_sub tmps r x hx
  | Expr.readKey r i, x, hx => by
      simp only [transformExpr, eliminateOne, allTempIds, List.mem_append] at hx ⊢
      rcases hx with hx | hx
      · exact Or.inl (elim_ids_sub tmps r x hx)
      · exact Or.inr (elim_ids_sub tmps i x hx)
  | Expr.invokeFn r as, x, hx => by
      simp only [transformExpr, eliminateOne, allTempIds, List.mem_append] at hx ⊢
      rcases hx with hx | hx
      · exact Or.inl (elim_ids_sub tmps r x hx)
      · exact Or.inr (elim_ids_sub_list tmps as x hx)
  | Expr.safePropertyRead r n, x, hx => by
      simp only [transformExpr, eliminateOne, allTempIds] at hx ⊢
      exact elim_ids_sub tmps r x hx
  | Expr.safeKeyedRead r i, x, hx => by
      simp only [transformExpr, eliminateOne, allTempIds, List.mem_append] at hx ⊢
      rcases hx with hx | hx
      · exact Or.inl (elim_ids_sub tmps r x hx)
      · exact Or.inr (elim_ids_sub tmps i x hx)
  | Expr.safeInvokeFn r as, x, hx => by
      simp only [transformExpr, eliminateOne, allTempIds, List.mem_append] at hx ⊢
      rcases hx with hx | hx
      · exact Or.inl (elim_ids_sub tmps r x hx)
      · exact Or.inr (elim_ids_sub_list tmps as x hx)
  | Expr.pipeBinding n as, x, hx => by
      simp only [transformExpr, eliminateOne, allTempIds] at hx ⊢
      exact elim_ids_sub_list tmps as x hx
  | Expr.assignTemporary e y, x, hx => by
      by_cases hy : y ∈ tmps
      · simp only [transformExpr, eliminateOne, hy, if_true, allTempIds,
          List.mem_singleton] at hx
        rw [allTempIds, List.mem_cons]
        exact Or.inl hx
      · simp only [transformExpr, eliminateOne, hy, if_false, allTempIds,
          List.mem_cons] at hx
        rw [allTempIds, List.mem_cons]
        rcases hx with hx | hx
        · exact Or.inl hx
        · exact Or.inr (elim_ids_sub tmps e x hx)
  | Expr.readTemporary y, x, hx => by simpa [transformExpr, eliminateOne] using hx
  | Expr.safeTernary g b, x, hx => by
      simp only [transformExpr, eliminateOne, allTempIds, List.mem_append] at hx ⊢
      rcases hx with hx | hx
      · exact Or.inl (elim_ids_sub tmps g x hx)
      · exact Or.inr (elim_ids_sub tmps b x hx)

/-- Optional-child part of `elim_ids_sub`. -/
theorem elim_ids_sub_opt (tmps : List Nat) : ∀ fc (x : Nat),
    x ∈ allTempIdsOpt (transformOptExpr (eliminateOne tmps CompatibilityMode.normal) fc) →
    x ∈ allTempIdsOpt fc
  | OptExpr.none, x, hx => by simpa [transformOptExpr] using hx
  | OptExpr.some e, x, hx => by
      simp only [transformOptExpr, allTempIdsOpt] at hx ⊢
      exact elim_ids_sub tmps e x hx

/-- List part of `elim_ids_sub`. -/
theorem elim_ids_sub_list (tmps : List Nat) : ∀ es (x : Nat),
    x ∈ allTempIdsList (transformExprList (eliminateOne tmps CompatibilityMode.normal) es) →
    x ∈ allTempIdsList es
  | ExprList.nil, x, hx => by simpa [transformExprList] using hx
  | ExprList.cons e es, x, hx => by
      simp only [transformExprList, allTempIdsList, List.mem_append] at hx ⊢
      rcases hx with hx | hx
      · exact Or.inl (elim_ids_sub tmps e x hx)
      · exact Or.inr (elim_ids_sub_list tmps es x hx)
end

/-- The dedup rewrite keeps a non-assignment root non-assignment. -/
theorem elim_root_eq (tmps : List Nat) (e : Expr) (h : isAssignRoot e = false) :
    isAssignRoot (transformExpr (eliminateOne tmps CompatibilityMode.normal) e) = false := by
  cases e <;> simp_all [transformExpr, eliminateOne, isAssignRoot]

mutual
/-- The dedup rewrite preserves well-formed body slots (it turns assignments
into reads, never the other way). -/
theorem elim_bodiesOk (tmps : List Nat) : ∀ e, bodiesOk e = true →
    bodiesOk (transformExpr (eliminateOne tmps CompatibilityMode.normal) e) = true
  | Expr.literal v, h => by simp [transformExpr, eliminateOne, bodiesOk]
  | Expr.readVar n, h => by simp [transformExpr, eliminateOne, bodiesOk]
  | Expr.unary op e, h => by
      rw [bodiesOk] at h
      simp [transformExpr, eliminateOne, bodiesOk, elim_bodiesOk tmps e h]
  | Expr.binary op lhs rhs, h => by
      rw [bodiesOk] at h
      simp only [Bool.and_eq_true] at h
      simp [transformExpr, eliminateOne, bodiesOk, elim_bodiesOk tmps lhs h.1,
        elim_bodiesOk tmps rhs h.2]
  | Expr.conditional c t fc, h => by
      rw [bodiesOk] at h
      simp only [Bool.and_eq_true] at h
      simp [transformExpr, eliminateOne, bodiesOk, elim_bodiesOk tmps c h.1.1,
        elim_bodiesOk tmps t h.1.2, elim_bodiesOk_opt tmps fc h.2]
  | Expr.notExpr c, h => by
      rw [bodiesOk] at h
      simp [transformExpr, eliminateOne, bodiesOk, elim_bodiesOk tmps c h]
  | Expr.literalArray es, h => by
      rw [bodiesOk] at h
      simp [transformExpr, eliminateOne, bodiesOk, elim_bodiesOk_list tmps es h]
  | Expr.literalMap ks vs, h => by
      rw [bodiesOk] at h
      simp [transformExpr, eliminateOne, bodiesOk, elim_bodiesOk_list tmps vs h]
  | Expr.readProp r n, h => by
      rw [bodiesOk] at h
      simp [transformExpr, eliminateOne, bodiesOk, elim_bodiesOk tmps r h]
  | Expr.readKey r i, h => by
      rw [bodiesOk] at h
      simp only [Bool.and_eq_true] at h
      simp [transformExpr, eliminateOne, bodiesOk, elim_bodiesOk tmps r h.1,
        elim_bodiesOk tmps i h.2]
  | Expr.invokeFn r as, h => by
      rw [bodiesOk] at h
      simp only [Bool.and_eq_true] at h
      simp [transformExpr, eliminateOne, bodiesOk, elim_bodiesOk tmps r h.1,
        elim_bodiesOk_list tmps as h.2]
  | Expr.safePropertyRead r n, h => by
      rw [bodiesOk] at h
      simp [transformExpr, eliminateOne, bodiesOk, elim_bodiesOk tmps r h]
  | Expr.safeKeyedRead r i, h => by
      rw [bodiesOk] at h
      simp only [Bool.and_eq_true] at h
      simp [transformExpr, eliminateOne, bodiesOk, elim_bodiesOk tmps r h.1,
        elim_bodiesOk tmps i h.2]
  | Expr.safeInvokeFn r as, h => by
      rw [bodiesOk] at h
      simp only [Bool.and_eq_true] at h
      simp [transformExpr, eliminateOne, bodiesOk, elim_bodiesOk tmps r h.1,
        elim_bodiesOk_list tmps as h.2]
  | Expr.pipeBinding n as, h => by
      rw [bodiesOk] at h
      simp [transformExpr, eliminateOne, bodiesOk, elim_bodiesOk_list tmps as h]
  | Expr.assignTemporary e y, h => by
      rw [bodiesOk] at h
      by_cases hy : y ∈ tmps
      · simp [transformExpr, eliminateOne, hy, bodiesOk]
      · simp [transformExpr, eliminateOne, hy, bodiesOk, elim_bodiesOk tmps e h]
  | Expr.readTemporary y, h => by simp [transformExpr, eliminateOne, bodiesOk]
  | Expr.safeTernary g b, h => by
      rw [bodiesOk] at h
      simp only [Bool.and_eq_true, Bool.not_eq_true'] at h
      simp only [transformExpr, eliminateOne]
      rw [bodiesOk]
      simp [elim_bodiesOk tmps g h.1, elim_bodiesOk tmps b h.2.1,
        elim_root_eq tmps b h.2.2]

/-- Optional-child part of `elim_bodiesOk`. -/
theorem elim_bodiesOk_opt (tmps : List Nat) : ∀ fc, bodiesOkOpt fc = true →
    bodiesOkOpt (transformOptExpr (eliminateOne tmps CompatibilityMode.normal) fc) = true
  | OptExpr.none, h => by simp [transformOptExpr, bodiesOkOpt]
  | OptExpr.some e, h => by
      rw [bodiesOkOpt] at h
      simp [transformOptExpr, bodiesOkOpt, elim_bodiesOk tmps e h]

/-- List part of `elim_bodiesOk`. -/
theorem elim_bodiesOk_list (tmps : List Nat) : ∀ es, bodiesOkList es = true →
    bodiesOkList (transformExprList (eliminateOne tmps CompatibilityMode.normal) es) = true
  | ExprList.nil, h => by simp [transformExprList, bodiesOkList]
  | ExprList.cons e es, h => by
      rw [bodiesOkList] at h
      simp only [Bool.and_eq_true] at h
      simp [transformExprList, bodiesOkList, elim_bodiesOk tmps e h.1,
        elim_bodiesOk_list tmps es h.2]
end

/-- On a non-assignment root the eliminator's root blind spot is invisible:
the in-place rewrite agrees with the full rewrite. -/
theorem elimTA_eq_elim (tmps : List Nat) (mode : CompatibilityMode) (e : Expr)
    (h : isAssignRoot e = false) :
    transformChildren (eliminateOne tmps mode) e
      = transformExpr (eliminateOne tmps mode) e := by
  cases e <;> simp_all [transformChildren, transformExpr, eliminateOne, isAssignRoot]

/-- `eliminateTemporaryAssignments` in a standard-mode context is the
in-place dedup rewrite in standard mode. -/
theorem elimTA_std (e : Expr) (tmps : List Nat) (m : Nat) :
    eliminateTemporaryAssignments e tmps (stdCtx m)
      = transformChildren (eliminateOne tmps CompatibilityMode.normal) e := rfl

/-- Deduplicating against a tree's own assigned-id set leaves the full
rewrite with no assignment at all (standard mode). -/
theorem elim_assignFree (e : Expr) (x : Nat) :
    countNodes (isAssignOf x)
      (transformExpr (eliminateOne (temporariesIn e) CompatibilityMode.normal) e) = 0 := by
  by_cases hx : x ∈ temporariesIn e
  · exact elim_no_assign (temporariesIn e) x hx e
  · have h0 := assignCount_notMem e x hx
    have h1 := elim_assign_le (temporariesIn e) x e
    omega

/-- `safeTernaryWithTemporary` in a standard-mode context, classifier
firing: allocate the counter value and advance it. -/
theorem sTWT_true_std (guard : Expr) (f : Expr → Expr) (m : Nat)
    (h : needsTemporaryInSafeAccess guard = true) :
    safeTernaryWithTemporary guard f (stdCtx m)
      = (Expr.safeTernary (Expr.assignTemporary guard m) (f (Expr.readTemporary m)),
         stdCtx (m + 1)) := by
  rw [sTWT_true guard f (stdCtx m) h]
  rfl

/-- `safeTernaryWithTemporary` in a standard-mode context, classifier not
firing: reuse the guard, body over the deduplicated in-place copy. -/
theorem sTWT_false_std (guard : Expr) (f : Expr → Expr) (m : Nat)
    (h : needsTemporaryInSafeAccess guard = false) :
    safeTernaryWithTemporary guard f (stdCtx m)
      = (Expr.safeTernary guard
           (f (transformChildren (eliminateOne (temporariesIn guard)
                 CompatibilityMode.normal) guard)), stdCtx m) := by
  rw [sTWT_false guard f (stdCtx m) h]
  rfl

/-- A safe-access body step satisfies the body-step contract: with the
classifier firing, exactly one fresh assignment of the freshly allocated id
is added; without it, the reused guard's copy is fully deduplicated and
neither new ids nor new assignments appear. -/
theorem sTWT_inv (L : List Nat) (K : Nat → Nat) (g : Expr → Expr)
    (Hg1 : ∀ y, isAssignRoot (g y) = false)
    (Hg2 : ∀ y, bodiesOk y = true → isAssignRoot y = false → bodiesOk (g y) = true)
    (Hg3 : ∀ y x, x ∈ allTempIds (g y) → x ∈ allTempIds y ∨ x ∈ L)
    (Hg4 : ∀ y x, countNodes (isAssignOf x) (g y)
      = countNodes (isAssignOf x) y + K x) :
    ∀ b m, isAssignRoot b = false → bodiesOk b = true →
      (∀ x, x ∈ allTempIds b → x < m) →
      BodyStepOk L K b m (safeTernaryWithTemporary b g (stdCtx m)) := by
  intro b m hroot hbo hids
  by_cases hn : needsTemporaryInSafeAccess b
  · rw [sTWT_true_std b g m hn]
    refine ⟨m + 1, by omega, rfl, rfl, ?_, ?_, ?_⟩
    · rw [bodiesOk]
      have h1 : bodiesOk (Expr.assignTemporary b m) = true := by
        rw [bodiesOk]; exact hbo
      have h2 : bodiesOk (g (Expr.readTemporary m)) = true :=
        Hg2 _ (by rw [bodiesOk]) rfl
      rw [h1, h2, Hg1 (Expr.readTemporary m)]
      rfl
    · intro x hx
      rw [allTempIds, List.mem_append] at hx
      rcases hx with hx | hx
      · rw [allTempIds, List.mem_cons] at hx
        rcases hx with rfl | hx
        · exact Or.inr (Or.inr ⟨le_refl x, by omega⟩)
        · exact Or.inl hx
      · rcases Hg3 _ x hx with hx | hx
        · rw [allTempIds, List.mem_singleton] at hx
          subst hx
          exact Or.inr (Or.inr ⟨le_refl x, by omega⟩)
        · exact Or.inr (Or.inl hx)
    · intro x
      have hF : countNodes (isAssignOf x) (g (Expr.readTemporary m)) = K x := by
        rw [Hg4 (Expr.readTemporary m) x]
        simp [countNodes, isAssignOf]
      by_cases hxm : m = x
      · subst hxm
        have hi : (m ≤ m ∧ m < m + 1) = True := by simp
        simp [countNodes, isAssignOf, hF, hi]
        omega
      · have hi : (m ≤ x ∧ x < m + 1) = False := by
          simp only [eq_iff_iff, iff_false]
          omega
        simp [countNodes, isAssignOf, hF, hxm, hi]
  · have hnF : needsTemporaryInSafeAccess b = false := by simpa using hn
    rw [sTWT_false_std b g m hnF, elimTA_eq_elim _ _ b hroot]
    refine ⟨m, le_refl m, rfl, rfl, ?_, ?_, ?_⟩
    · rw [bodiesOk]
      have hcb : bodiesOk (transformExpr (eliminateOne (temporariesIn b)
          CompatibilityMode.normal) b) = true := elim_bodiesOk _ b hbo
      have hcr : isAssignRoot (transformExpr (eliminateOne (temporariesIn b)
          CompatibilityMode.normal) b) = false := elim_root_eq _ b hroot
      rw [hbo, Hg2 _ hcb hcr, Hg1 _]
      rfl
    · intro x hx
      rw [allTempIds, List.mem_append] at hx
      rcases hx with hx | hx
      · exact Or.inl hx
      · rcases Hg3 _ x hx with hx | hx
        · exact Or.inl (elim_ids_sub _ b x hx)
        · exact Or.inr (Or.inl hx)
    · intro x
      have hF : countNodes (isAssignOf x) (g (transformExpr
          (eliminateOne (temporariesIn b) CompatibilityMode.normal) b)) = K x := by
        rw [Hg4 _ x, elim_assignFree b x]
        omega
      simp [countNodes, isAssignOf, hF]

/-- The deepest-body update with a pure step satisfying the pure contract
satisfies it for the whole chain. -/
theorem updateDeepest_inv (L : List Nat) (K : Nat → Nat) (f : Expr → Expr)
    (Hf : ∀ b, isAssignRoot b = false → bodiesOk b = true → PureStepOk L K b (f b)) :
    ∀ st, isSafeTernary st = true → bodiesOk st = true →
      PureStepOk L K st (updateDeepest st f)
  | Expr.safeTernary g b, _, hbo => by
      rw [bodiesOk] at hbo
      simp only [Bool.and_eq_true, Bool.not_eq_true'] at hbo
      by_cases hb : isSafeTernary b
      · rw [updateDeepest_st_of_st g b f hb]
        have rec := updateDeepest_inv L K f Hf b hb hbo.2.1
        refine ⟨rfl, ?_, ?_, ?_⟩
        · rw [bodiesOk, hbo.1, rec.2.1, rec.1]
          rfl
        · intro x hx
          rw [allTempIds, List.mem_append] at hx
          rcases hx with hx | hx
          · exact Or.inl (by rw [allTempIds, List.mem_append]; exact Or.inl hx)
          · rcases rec.2.2.1 x hx with hx | hx
            · exact Or.inl (by rw [allTempIds, List.mem_append]; exact Or.inr hx)
            · exact Or.inr hx
        · intro x
          have hrec := rec.2.2.2 x
          simp only [countNodes, isAssignOf, Bool.false_eq_true, if_false]
          omega
      · simp only [Bool.not_eq_true] at hb
        rw [updateDeepest_st_of_not_st g b f hb]
        have hf := Hf b hbo.2.2 hbo.2.1
        refine ⟨rfl, ?_, ?_, ?_⟩
        · rw [bodiesOk, hbo.1, hf.2.1, hf.1]
          rfl
        · intro x hx
          rw [allTempIds, List.mem_append] at hx
          rcases hx with hx | hx
          · exact Or.inl (by rw [allTempIds, List.mem_append]; exact Or.inl hx)
          · rcases hf.2.2.1 x hx with hx | hx
            · exact Or.inl (by rw [allTempIds, List.mem_append]; exact Or.inr hx)
            · exact Or.inr hx
        · intro x
          have hff := hf.2.2.2 x
          simp only [countNodes, isAssignOf, Bool.false_eq_true, if_false]
          omega
  | Expr.literal v, hst, _ => by simp [isSafeTernary] at hst
  | Expr.readVar n, hst, _ => by simp [isSafeTernary] at hst
  | Expr.unary op e, hst, _ => by simp [isSafeTernary] at hst
  | Expr.binary op lhs rhs, hst, _ => by simp [isSafeTernary] at hst
  | Expr.conditional c t fc, hst, _ => by simp [isSafeTernary] at hst
  | Expr.notExpr c, hst, _ => by simp [isSafeTernary] at hst
  | Expr.literalArray es, hst, _ => by simp [isSafeTernary] at hst
  | Expr.literalMap ks vs, hst, _ => by simp [isSafeTernary] at hst
  | Expr.readProp r n, hst, _ => by simp [isSafeTernary] at hst
  | Expr.readKey r i, hst, _ => by simp [isSafeTernary] at hst
  | Expr.invokeFn r as, hst, _ => by simp [isSafeTernary] at hst
  | Expr.safePropertyRead r n, hst, _ => by simp [isSafeTernary] at hst
  | Expr.safeKeyedRead r i, hst, _ => by simp [isSafeTernary] at hst
  | Expr.safeInvokeFn r as, hst, _ => by simp [isSafeTernary] at hst
  | Expr.pipeBinding n as, hst, _ => by simp [isSafeTernary] at hst
  | Expr.assignTemporary e y, hst, _ => by simp [isSafeTernary] at hst
  | Expr.readTemporary y, hst, _ => by simp [isSafeTernary] at hst

/-- The deepest-body update with a context-threading step satisfying the
body-step contract satisfies it for the whole chain. -/
theorem updateDeepestM_inv (L : List Nat) (K : Nat → Nat)
    (f : Expr → SafeTransformContext → Expr × SafeTransformContext)
    (Hf : ∀ b m, isAssignRoot b = false → bodiesOk b = true →
      (∀ x, x ∈ allTempIds b → x < m) → BodyStepOk L K b m (f b (stdCtx m))) :
    ∀ st m, isSafeTernary st = true → bodiesOk st = true →
      (∀ x, x ∈ allTempIds st → x < m) →
      BodyStepOk L K st m (updateDeepestM st f (stdCtx m))
  | Expr.safeTernary g b, m, _, hbo, hids => by
      rw [bodiesOk] at hbo
      simp only [Bool.and_eq_true, Bool.not_eq_true'] at hbo
      have hidsb : ∀ x, x ∈ allTempIds b → x < m := fun x hx =>
        hids x (by rw [allTempIds, List.mem_append]; exact Or.inr hx)
      by_cases hb : isSafeTernary b
      · rw [updateDeepestM_st_of_st g b f (stdCtx m) hb]
        obtain ⟨m2, hle, hctx, hroot, hbo2, hid2, hcnt2⟩ :=
          updateDeepestM_inv L K f Hf b m hb hbo.2.1 hidsb
        refine ⟨m2, hle, hctx, rfl, ?_, ?_, ?_⟩
        · rw [bodiesOk, hbo.1, hbo2, hroot]
          rfl
        · intro x hx
          rw [allTempIds, List.mem_append] at hx
          rcases hx with hx | hx
          · exact Or.inl (by rw [allTempIds, List.mem_append]; exact Or.inl hx)
          · rcases hid2 x hx with hx | hx | hx
            · exact Or.inl (by rw [allTempIds, List.mem_append]; exact Or.inr hx)
            · exact Or.inr (Or.inl hx)
            · exact Or.inr (Or.inr hx)
        · intro x
          have hrec := hcnt2 x
          simp only [countNodes, isAssignOf, Bool.false_eq_true, if_false]
          omega
      · simp only [Bool.not_eq_true] at hb
        rw [updateDeepestM_st_of_not_st g b f (stdCtx m) hb]
        obtain ⟨m2, hle, hctx, hroot, hbo2, hid2, hcnt2⟩ :=
          Hf b m hbo.2.2 hbo.2.1 hidsb
        refine ⟨m2, hle, hctx, rfl, ?_, ?_, ?_⟩
        · rw [bodiesOk, hbo.1, hbo2, hroot]
          rfl
        · intro x hx
          rw [allTempIds, List.mem_append] at hx
          rcases hx with hx | hx
          · exact Or.inl (by rw [allTempIds, List.mem_append]; exact Or.inl hx)
          · rcases hid2 x hx with hx | hx | hx
            · exact Or.inl (by rw [allTempIds, List.mem_append]; exact Or.inr hx)
            · exact Or.inr (Or.inl hx)
            · exact Or.inr (Or.inr hx)
        · intro x
          have hrec := hcnt2 x
          simp only [countNodes, isAssignOf, Bool.false_eq_true, if_false]
          omega
  | Expr.literal v, m, hst, _, _ => by simp [isSafeTernary] at hst
  | Expr.readVar n, m, hst, _, _ => by simp [isSafeTernary] at hst
  | Expr.unary op e, m, hst, _, _ => by simp [isSafeTernary] at hst
  | Expr.binary op lhs rhs, m, hst, _, _ => by simp [isSafeTernary] at hst
  | Expr.conditional c t fc, m, hst, _, _ => by simp [isSafeTernary] at hst
  | Expr.notExpr c, m, hst, _, _ => by simp [isSafeTernary] at hst
  | Expr.literalArray es, m, hst, _, _ => by simp [isSafeTernary] at hst
  | Expr.literalMap ks vs, m, hst, _, _ => by simp [isSafeTernary] at hst
  | Expr.readProp r n, m, hst, _, _ => by simp [isSafeTernary] at hst
  | Expr.readKey r i, m, hst, _, _ => by simp [isSafeTernary] at hst
  | Expr.invokeFn r as, m, hst, _, _ => by simp [isSafeTernary] at hst
  | Expr.safePropertyRead r n, m, hst, _, _ => by simp [isSafeTernary] at hst
  | Expr.safeKeyedRead r i, m, hst, _, _ => by simp [isSafeTernary] at hst
  | Expr.safeInvokeFn r as, m, hst, _, _ => by simp [isSafeTernary] at hst
  | Expr.pipeBinding n as, m, hst, _, _ => by simp [isSafeTernary] at hst
  | Expr.assignTemporary e y, m, hst, _, _ => by simp [isSafeTernary] at hst
  | Expr.readTemporary y, m, hst, _, _ => by simp [isSafeTernary] at hst

mutual
/-- The standard-mode first sweep on a temp-free input: the context stays a
standard-mode context, the counter only grows, and the output tree
establishes the single-definition invariant over the consumed id window. -/
theorem sweep_inv : ∀ e (n : Nat), countNodes isTempNode e = 0 →
    ∃ m, n ≤ m ∧ (transformExprM safeTransform e (stdCtx n)).2 = stdCtx m ∧
      SweepInv n m (transformExprM safeTransform e (stdCtx n)).1
  | Expr.literal v, n, _ => by
      simp only [transformExprM]
      rw [safeTransform_literal]
      refine ⟨n, le_refl n, rfl, ?_, ?_, rfl, ?_⟩
      · intro x hx
        rw [allTempIds] at hx
        simp at hx
      · intro x
        simp [countNodes, isAssignOf]
      · rw [bodiesOk]
  | Expr.readVar nm, n, _ => by
      simp only [transformExprM]
      rw [safeTransform_readVar]
      refine ⟨n, le_refl n, rfl, ?_, ?_, rfl, ?_⟩
      · intro x hx
        rw [allTempIds] at hx
        simp at hx
      · intro x
        simp [countNodes, isAssignOf]
      · rw [bodiesOk]
  | Expr.readTemporary x, n, h => by
      rw [countNodes] at h
      simp [isTempNode] at h
  | Expr.assignTemporary e x, n, h => by
      rw [countNodes] at h
      simp [isTempNode] at h
  | Expr.unary op e, n, h => by
      rw [countNodes] at h
      simp only [isTempNode, Bool.false_eq_true, if_false, Nat.zero_add] at h
      obtain ⟨m1, hle1, hctx1, hinv1⟩ := sweep_inv e n h
      simp only [transformExprM]
      rw [hctx1, safeTransform_unary]
      exact ⟨m1, hle1, rfl, sweepInv_unary op _ n m1 hinv1⟩
  | Expr.binary op lhs rhs, n, h => by
      rw [countNodes] at h
      simp only [isTempNode, Bool.false_eq_true, if_false, Nat.zero_add,
        Nat.add_eq_zero] at h
      obtain ⟨m1, hle1, hctx1, hinv1⟩ := sweep_inv lhs n h.1
      simp only [transformExprM]
      rw [hctx1]
      obtain ⟨m2, hle2, hctx2, hinv2⟩ := sweep_inv rhs m1 h.2
      rw [hctx2, safeTransform_binary]
      exact ⟨m2, by omega, rfl, sweepInv_binary op _ _ n m1 m2 hinv1 hinv2 hle1 hle2⟩
  | Expr.conditional c t fc, n, h => by
      rw [countNodes] at h
      simp only [isTempNode, Bool.false_eq_true, if_false, Nat.zero_add,
        Nat.add_eq_zero] at h
      obtain ⟨m1, hle1, hctx1, hinv1⟩ := sweep_inv c n h.1.1
      simp only [transformExprM]
      rw [hctx1]
      obtain ⟨m2, hle2, hctx2, hinv2⟩ := sweep_inv t m1 h.1.2
      rw [hctx2]
      obtain ⟨m3, hle3, hctx3, hinv3⟩ := sweep_inv_opt fc m2 h.2
      rw [hctx3, safeTransform_conditional]
      exact ⟨m3, by omega, rfl,
        sweepInv_conditional _ _ _ n m1 m2 m3 hinv1 hinv2 hinv3 hle1 hle2 hle3⟩
  | Expr.notExpr c, n, h => by
      rw [countNodes] at h
      simp only [isTempNode, Bool.false_eq_true, if_false, Nat.zero_add] at h
      obtain ⟨m1, hle1, hctx1, hinv1⟩ := sweep_inv c n h
      simp only [transformExprM]
      rw [hctx1, safeTransform_notExpr]
      exact ⟨m1, hle1, rfl, sweepInv_notExpr _ n m1 hinv1⟩
  | Expr.literalArray es, n, h => by
      rw [countNodes] at h
      simp only [isTempNode, Bool.false_eq_true, if_false, Nat.zero_add] at h
      obtain ⟨m1, hle1, hctx1, hinv1⟩ := sweep_inv_list es n h
      simp only [transformExprM]
      rw [hctx1, safeTransform_literalArray]
      exact ⟨m1, hle1, rfl, sweepInv_literalArray _ n m1 hinv1⟩
  | Expr.literalMap ks vs, n, h => by
      rw [countNodes] at h
      simp only [isTempNode, Bool.false_eq_true, if_false, Nat.zero_add] at h
      obtain ⟨m1, hle1, hctx1, hinv1⟩ := sweep_inv_list vs n h
      simp only [transformExprM]
      rw [hctx1, safeTransform_literalMap]
      exact ⟨m1, hle1, rfl, sweepInv_literalMap ks _ n m1 hinv1⟩
  | Expr.pipeBinding nm as, n, h => by
      rw [countNodes] at h
      simp only [isTempNode, Bool.false_eq_true, if_false, Nat.zero_add] at h
      obtain ⟨m1, hle1, hctx1, hinv1⟩ := sweep_inv_list as n h
      simp only [transformExprM]
      rw [hctx1, safeTransform_pipeBinding]
      exact ⟨m1, hle1, rfl, sweepInv_pipeBinding nm _ n m1 hinv1⟩
  | Expr.safeTernary g b, n, h => by
      rw [countNodes] at h
      simp only [isTempNode, Bool.false_eq_true, if_false, Nat.zero_add,
        Nat.add_eq_zero] at h
      obtain ⟨m1, hle1, hctx1, hinv1⟩ := sweep_inv g n h.1
      simp only [transformExprM]
      rw [hctx1]
      obtain ⟨m2, hle2, hctx2, hinv2⟩ := sweep_inv b m1 h.2
      rw [hctx2, safeTransform_safeTernary]
      exact ⟨m2, by omega, rfl, sweepInv_stNode _ _ n m1 m2 hinv1 hinv2 hle1 hle2⟩
  | Expr.readProp r nm, n, h => by
      rw [countNodes] at h
      simp only [isTempNode, Bool.false_eq_true, if_false, Nat.zero_add] at h
      obtain ⟨m1, hle1, hctx1, hinv1⟩ := sweep_inv r n h
      simp only [transformExprM]
      rw [hctx1]
      by_cases hst : isSafeTernary (transformExprM safeTransform r (stdCtx n)).1
      · rw [safeTransform_readProp_st _ _ _ hst]
        have Hf : ∀ b, isAssignRoot b = false → bodiesOk b = true →
            PureStepOk [] (fun _ => 0) b (Expr.readProp b nm) := by
          intro b _ hb
          refine ⟨rfl, ?_, ?_, ?_⟩
          · rw [bodiesOk]
            exact hb
          · intro x hx
            rw [allTempIds] at hx
            exact Or.inl hx
          · intro x
            simp [countNodes, isAssignOf]
        have hud := updateDeepest_inv [] (fun _ => 0) (fun b => Expr.readProp b nm)
          Hf _ hst hinv1.2.2.2
        dsimp only
        refine ⟨m1, hle1, rfl, ?_, ?_, hud.1, hud.2.1⟩
        · intro x hx
          rcases hud.2.2.1 x hx with hx | hx
          · exact hinv1.1 x hx
          · simp at hx
        · intro x
          have hc := hud.2.2.2 x
          dsimp only at hc
          have h2 := hinv1.2.1 x
          omega
      · simp only [Bool.not_eq_true] at hst
        rw [safeTransform_readProp_no _ _ _ hst]
        exact ⟨m1, hle1, rfl, sweepInv_readProp _ nm n m1 hinv1⟩
  | Expr.readKey r i, n, h => by
      rw [countNodes] at h
      simp only [isTempNode, Bool.false_eq_true, if_false, Nat.zero_add,
        Nat.add_eq_zero] at h
      obtain ⟨m1, hle1, hctx1, hinv1⟩ := sweep_inv r n h.1
      simp only [transformExprM]
      rw [hctx1]
      obtain ⟨m2, hle2, hctx2, hinv2⟩ := sweep_inv i m1 h.2
      rw [hctx2]
      by_cases hst : isSafeTernary (transformExprM safeTransform r (stdCtx n)).1
      · rw [safeTransform_readKey_st _ _ _ hst]
        have Hf : ∀ b, isAssignRoot b = false → bodiesOk b = true →
            PureStepOk (allTempIds (transformExprM safeTransform i (stdCtx m1)).1)
              (fun y => countNodes (isAssignOf y)
                (transformExprM safeTransform i (stdCtx m1)).1)
              b (Expr.readKey b (transformExprM safeTransform i (stdCtx m1)).1) := by
          intro b _ hb
          refine ⟨rfl, ?_, ?_, ?_⟩
          · rw [bodiesOk, hb, hinv2.2.2.2]
            rfl
          · intro x hx
            rw [allTempIds, List.mem_append] at hx
            exact hx
          · intro x
            simp [countNodes, isAssignOf]
        have hud := updateDeepest_inv _ _ _ Hf _ hst hinv1.2.2.2
        dsimp only
        refine ⟨m2, by omega, rfl, ?_, ?_, hud.1, hud.2.1⟩
        · intro x hx
          rcases hud.2.2.1 x hx with hx | hx
          · have := hinv1.1 x hx
            omega
          · have := hinv2.1 x hx
            omega
        · intro x
          have hc := hud.2.2.2 x
          dsimp only at hc
          by_cases hx : x < m1
          · have hz := window_count_zero _ m1 m2 x hinv2.1 (Or.inl hx)
            have := hinv1.2.1 x
            omega
          · have hz := window_count_zero _ n m1 x hinv1.1 (Or.inr (by omega))
            have := hinv2.2.1 x
            omega
      · simp only [Bool.not_eq_true] at hst
        rw [safeTransform_readKey_no _ _ _ hst]
        exact ⟨m2, by omega, rfl, sweepInv_readKey _ _ n m1 m2 hinv1 hinv2 hle1 hle2⟩
  | Expr.invokeFn r as, n, h => by
      rw [countNodes] at h
      simp only [isTempNode, Bool.false_eq_true, if_false, Nat.zero_add,
        Nat.add_eq_zero] at h
      obtain ⟨m1, hle1, hctx1, hinv1⟩ := sweep_inv r n h.1
      simp only [transformExprM]
      rw [hctx1]
      obtain ⟨m2, hle2, hctx2, hinv2⟩ := sweep_inv_list as m1 h.2
      rw [hctx2]
      by_cases hst : isSafeTernary (transformExprM safeTransform r (stdCtx n)).1
      · rw [safeTransform_invokeFn_st _ _ _ hst]
        have Hf : ∀ b, isAssignRoot b = false → bodiesOk b = true →
            PureStepOk (allTempIdsList (transformExprListM safeTransform as (stdCtx m1)).1)
              (fun y => countNodesList (isAssignOf y)
                (transformExprListM safeTransform as (stdCtx m1)).1)
              b (Expr.invokeFn b (transformExprListM safeTransform as (stdCtx m1)).1) := by
          intro b _ hb
          refine ⟨rfl, ?_, ?_, ?_⟩
          · rw [bodiesOk, hb, hinv2.2.2]
            rfl
          · intro x hx
            rw [allTempIds, List.mem_append] at hx
            exact hx
          · intro x
            simp [countNodes, isAssignOf]
        have hud := updateDeepest_inv _ _ _ Hf _ hst hinv1.2.2.2
        dsimp only
        refine ⟨m2, by omega, rfl, ?_, ?_, hud.1, hud.2.1⟩
        · intro x hx
          rcases hud.2.2.1 x hx with hx | hx
          · have := hinv1.1 x hx
            omega
          · have := hinv2.1 x hx
            omega
        · intro x
          have hc := hud.2.2.2 x
          dsimp only at hc
          by_cases hx : x < m1
          · have hz := window_count_zero_list _ m1 m2 x hinv2.1 (Or.inl hx)
            have := hinv1.2.1 x
            omega
          · have hz := window_count_zero _ n m1 x hinv1.1 (Or.inr (by omega))
            have := hinv2.2.1 x
            omega
      · simp only [Bool.not_eq_true] at hst
        rw [safeTransform_invokeFn_no _ _ _ hst]
        exact ⟨m2, by omega, rfl, sweepInv_invokeFn _ _ n m1 m2 hinv1 hinv2 hle1 hle2⟩
  | Expr.safePropertyRead r nm, n, h => by
      rw [countNodes] at h
      simp only [isTempNode, Bool.false_eq_true, if_false, Nat.zero_add] at h
      obtain ⟨m1, hle1, hctx1, hinv1⟩ := sweep_inv r n h
      simp only [transformExprM]
      rw [hctx1]
      have Hg1 : ∀ y, isAssignRoot (Expr.readProp y nm) = false := fun _ => rfl
      have Hg2 : ∀ y, bodiesOk y = true → isAssignRoot y = false →
          bodiesOk (Expr.readProp y nm) = true := by
        intro y hy _
        rw [bodiesOk]
        exact hy
      have Hg3 : ∀ y x, x ∈ allTempIds (Expr.readProp y nm) →
          x ∈ allTempIds y ∨ x ∈ ([] : List Nat) := by
        intro y x hx
        rw [allTempIds] at hx
        exact Or.inl hx
      have Hg4 : ∀ y x, countNodes (isAssignOf x) (Expr.readProp y nm)
          = countNodes (isAssignOf x) y + (fun _ => 0) x := by
        intro y x
        simp [countNodes, isAssignOf]
      by_cases hst : isSafeTernary (transformExprM safeTransform r (stdCtx n)).1
      · rw [safeTransform_safeProp_st _ _ _ hst]
        obtain ⟨m2, hle2, hctx2, hroot2, hbo2, hid2, hcnt2⟩ :=
          updateDeepestM_inv [] (fun _ => 0)
            (fun b c => safeTernaryWithTemporary b (fun x => Expr.readProp x nm) c)
            (sTWT_inv [] (fun _ => 0) (fun x => Expr.readProp x nm) Hg1 Hg2 Hg3 Hg4)
            _ m1 hst hinv1.2.2.2 (fun x hx => (hinv1.1 x hx).2)
        refine ⟨m2, by omega, hctx2, ?_, ?_, hroot2, hbo2⟩
        · intro x hx
          rcases hid2 x hx with hx | hx | hx
          · have := hinv1.1 x hx
            omega
          · simp at hx
          · omega
        · intro x
          have hc := hcnt2 x
          by_cases hw : m1 ≤ x ∧ x < m2
          · have hz := window_count_zero _ n m1 x hinv1.1 (Or.inr (by omega))
            simp [hw] at hc
            omega
          · simp [hw] at hc
            have := hinv1.2.1 x
            omega
      · simp only [Bool.not_eq_true] at hst
        rw [safeTransform_safeProp_no _ _ _ hst]
        obtain ⟨m2, hle2, hctx2, hroot2, hbo2, hid2, hcnt2⟩ :=
          sTWT_inv [] (fun _ => 0) (fun x => Expr.readProp x nm) Hg1 Hg2 Hg3 Hg4
            _ m1 hinv1.2.2.1 hinv1.2.2.2 (fun x hx => (hinv1.1 x hx).2)
        refine ⟨m2, by omega, hctx2, ?_, ?_, hroot2, hbo2⟩
        · intro x hx
          rcases hid2 x hx with hx | hx | hx
          · have := hinv1.1 x hx
            omega
          · simp at hx
          · omega
        · intro x
          have hc := hcnt2 x
          by_cases hw : m1 ≤ x ∧ x < m2
          · have hz := window_count_zero _ n m1 x hinv1.1 (Or.inr (by omega))
            simp [hw] at hc
            omega
          · simp [hw] at hc
            have := hinv1.2.1 x
            omega
  | Expr.safeKeyedRead r i, n, h => by
      rw [countNodes] at h
      simp only [isTempNode, Bool.false_eq_true, if_false, Nat.zero_add,
        Nat.add_eq_zero] at h
      obtain ⟨m1, hle1, hctx1, hinv1⟩ := sweep_inv r n h.1
      simp only [transformExprM]
      rw [hctx1]
      obtain ⟨m2, hle2, hctx2, hinv2⟩ := sweep_inv i m1 h.2
      rw [hctx2]
      have Hg1 : ∀ y, isAssignRoot
          (Expr.readKey y (transformExprM safeTransform i (stdCtx m1)).1) = false :=
        fun _ => rfl
      have Hg2 : ∀ y, bodiesOk y = true → isAssignRoot y = false →
          bodiesOk (Expr.readKey y (transformExprM safeTransform i (stdCtx m1)).1)
            = true := by
        intro y hy _
        rw [bodiesOk, hy, hinv2.2.2.2]
        rfl
      have Hg3 : ∀ y x,
          x ∈ allTempIds (Expr.readKey y (transformExprM safeTransform i (stdCtx m1)).1) →
          x ∈ allTempIds y ∨
            x ∈ allTempIds (transformExprM safeTransform i (stdCtx m1)).1 := by
        intro y x hx
        rw [allTempIds, List.mem_append] at hx
        exact hx
      have Hg4 : ∀ y x, countNodes (isAssignOf x)
            (Expr.readKey y (transformExprM safeTransform i (stdCtx m1)).1)
          = countNodes (isAssignOf x) y +
            (fun z => countNodes (isAssignOf z)
              (transformExprM safeTransform i (stdCtx m1)).1) x := by
        intro y x
        simp [countNodes, isAssignOf]
      by_cases hst : isSafeTernary (transformExprM safeTransform r (stdCtx n)).1
      · rw [safeTransform_safeKey_st _ _ _ hst]
        obtain ⟨m3, hle3, hctx3, hroot3, hbo3, hid3, hcnt3⟩ :=
          updateDeepestM_inv _ _
            (fun b c => safeTernaryWithTemporary b (fun x => Expr.readKey x
              (transformExprM safeTransform i (stdCtx m1)).1) c)
            (sTWT_inv _ _ (fun x => Expr.readKey x
                (transformExprM safeTransform i (stdCtx m1)).1) Hg1 Hg2 Hg3 Hg4)
            _ m2 hst hinv1.2.2.2 (fun x hx => by have := (hinv1.1 x hx).2; omega)
        refine ⟨m3, by omega, hctx3, ?_, ?_, hroot3, hbo3⟩
        · intro x hx
          rcases hid3 x hx with hx | hx | hx
          · have := hinv1.1 x hx
            omega
          · have := hinv2.1 x hx
            omega
          · omega
        · intro x
          have hc := hcnt3 x
          by_cases hw : m2 ≤ x ∧ x < m3
          · have hz1 := window_count_zero _ n m1 x hinv1.1 (Or.inr (by omega))
            have hz2 := window_count_zero _ m1 m2 x hinv2.1 (Or.inr (by omega))
            simp [hw] at hc
            omega
          · simp [hw] at hc
            by_cases hx1 : x < m1
            · have hz2 := window_count_zero _ m1 m2 x hinv2.1 (Or.inl hx1)
              have := hinv1.2.1 x
              omega
            · have hz1 := window_count_zero _ n m1 x hinv1.1 (Or.inr (by omega))
              have := hinv2.2.1 x
              omega
      · simp only [Bool.not_eq_true] at hst
        rw [safeTransform_safeKey_no _ _ _ hst]
        obtain ⟨m3, hle3, hctx3, hroot3, hbo3, hid3, hcnt3⟩ :=
          sTWT_inv _ _ (fun x => Expr.readKey x
              (transformExprM safeTransform i (stdCtx m1)).1) Hg1 Hg2 Hg3 Hg4
            _ m2 hinv1.2.2.1 hinv1.2.2.2 (fun x hx => by have := (hinv1.1 x hx).2; omega)
        refine ⟨m3, by omega, hctx3, ?_, ?_, hroot3, hbo3⟩
        · intro x hx
          rcases hid3 x hx with hx | hx | hx
          · have := hinv1.1 x hx
            omega
          · have := hinv2.1 x hx
            omega
          · omega
        · intro x
          have hc := hcnt3 x
          by_cases hw : m2 ≤ x ∧ x < m3
          · have hz1 := window_count_zero _ n m1 x hinv1.1 (Or.inr (by omega))
            have hz2 := window_count_zero _ m1 m2 x hinv2.1 (Or.inr (by omega))
            simp [hw] at hc
            omega
          · simp [hw] at hc
            by_cases hx1 : x < m1
            · have hz2 := window_count_zero _ m1 m2 x hinv2.1 (Or.inl hx1)
              have := hinv1.2.1 x
              omega
            · have hz1 := window_count_zero _ n m1 x hinv1.1 (Or.inr (by omega))
              have := hinv2.2.1 x
              omega
  | Expr.safeInvokeFn r as, n, h => by
      rw [countNodes] at h
      simp only [isTempNode, Bool.false_eq_true, if_false, Nat.zero_add,
        Nat.add_eq_zero] at h
      obtain ⟨m1, hle1, hctx1, hinv1⟩ := sweep_inv r n h.1
      simp only [transformExprM]
      rw [hctx1]
      obtain ⟨m2, hle2, hctx2, hinv2⟩ := sweep_inv_list as m1 h.2
      rw [hctx2]
      have Hg1 : ∀ y, isAssignRoot
          (Expr.invokeFn y (transformExprListM safeTransform as (stdCtx m1)).1) = false :=
        fun _ => rfl
      have Hg2 : ∀ y, bodiesOk y = true → isAssignRoot y = false →
          bodiesOk (Expr.invokeFn y (transformExprListM safeTransform as (stdCtx m1)).1)
            = true := by
        intro y hy _
        rw [bodiesOk, hy, hinv2.2.2]
        rfl
      have Hg3 : ∀ y x,
          x ∈ allTempIds
            (Expr.invokeFn y (transformExprListM safeTransform as (stdCtx m1)).1) →
          x ∈ allTempIds y ∨
            x ∈ allTempIdsList (transformExprListM safeTransform as (stdCtx m1)).1 := by
        intro y x hx
        rw [allTempIds, List.mem_append] at hx
        exact hx
      have Hg4 : ∀ y x, countNodes (isAssignOf x)
            (Expr.invokeFn y (transformExprListM safeTransform as (stdCtx m1)).1)
          = countNodes (isAssignOf x) y +
            (fun z => countNodesList (isAssignOf z)
              (transformExprListM safeTransform as (stdCtx m1)).1) x := by
        intro y x
        simp [countNodes, isAssignOf]
      by_cases hst : isSafeTernary (transformExprM safeTransform r (stdCtx n)).1
      · rw [safeTransform_safeInvoke_st _ _ _ hst]
        obtain ⟨m3, hle3, hctx3, hroot3, hbo3, hid3, hcnt3⟩ :=
          updateDeepestM_inv _ _
            (fun b c => safeTernaryWithTemporary b (fun x => Expr.invokeFn x
              (transformExprListM safeTransform as (stdCtx m1)).1) c)
            (sTWT_inv _ _ (fun x => Expr.invokeFn x
                (transformExprListM safeTransform as (stdCtx m1)).1) Hg1 Hg2 Hg3 Hg4)
            _ m2 hst hinv1.2.2.2 (fun x hx => by have := (hinv1.1 x hx).2; omega)
        refine ⟨m3, by omega, hctx3, ?_, ?_, hroot3, hbo3⟩
        · intro x hx
          rcases hid3 x hx with hx | hx | hx
          · have := hinv1.1 x hx
            omega
          · have := hinv2.1 x hx
            omega
          · omega
        · intro x
          have hc := hcnt3 x
          by_cases hw : m2 ≤ x ∧ x < m3
          · have hz1 := window_count_zero _ n m1 x hinv1.1 (Or.inr (by omega))
            have hz2 := window_count_zero_list _ m1 m2 x hinv2.1 (Or.inr (by omega))
            simp [hw] at hc
            omega
          · simp [hw] at hc
            by_cases hx1 : x < m1
            · have hz2 := window_count_zero_list _ m1 m2 x hinv2.1 (Or.inl hx1)
              have := hinv1.2.1 x
              omega
            · have hz1 := window_count_zero _ n m1 x hinv1.1 (Or.inr (by omega))
              have := hinv2.2.1 x
              omega
      · simp only [Bool.not_eq_true] at hst
        rw [safeTransform_safeInvoke_no _ _ _ hst]
        obtain ⟨m3, hle3, hctx3, hroot3, hbo3, hid3, hcnt3⟩ :=
          sTWT_inv _ _ (fun x => Expr.invokeFn x
              (transformExprListM safeTransform as (stdCtx m1)).1) Hg1 Hg2 Hg3 Hg4
            _ m2 hinv1.2.2.1 hinv1.2.2.2 (fun x hx => by have := (hinv1.1 x hx).2; omega)
        refine ⟨m3, by omega, hctx3, ?_, ?_, hroot3, hbo3⟩
        · intro x hx
          rcases hid3 x hx with hx | hx | hx
          · have := hinv1.1 x hx
            omega
          · have := hinv2.1 x hx
            omega
          · omega
        · intro x
          have hc := hcnt3 x
          by_cases hw : m2 ≤ x ∧ x < m3
          · have hz1 := window_count_zero _ n m1 x hinv1.1 (Or.inr (by omega))
            have hz2 := window_count_zero_list _ m1 m2 x hinv2.1 (Or.inr (by omega))
            simp [hw] at hc
            omega
          · simp [hw] at hc
            by_cases hx1 : x < m1
            · have hz2 := window_count_zero_list _ m1 m2 x hinv2.1 (Or.inl hx1)
              have := hinv1.2.1 x
              omega
            · have hz1 := window_count_zero _ n m1 x hinv1.1 (Or.inr (by omega))
              have := hinv2.2.1 x
              omega

/-- Optional-child part of `sweep_inv`. -/
theorem sweep_inv_opt : ∀ fc (n : Nat), countNodesOpt isTempNode fc = 0 →
    ∃ m, n ≤ m ∧ (transformOptExprM safeTransform fc (stdCtx n)).2 = stdCtx m ∧
      SweepInvOpt n m (transformOptExprM safeTransform fc (stdCtx n)).1
  | OptExpr.none, n, _ => by
      simp only [transformOptExprM]
      exact ⟨n, le_refl n, rfl, sweepInvOpt_none n n⟩
  | OptExpr.some e, n, h => by
      rw [countNodesOpt] at h
      obtain ⟨m1, hle1, hctx1, hinv1⟩ := sweep_inv e n h
      simp only [transformOptExprM]
      rw [hctx1]
      exact ⟨m1, hle1, rfl, sweepInvOpt_some _ n m1 hinv1⟩

/-- List part of `sweep_inv`. -/
theorem sweep_inv_list : ∀ es (n : Nat), countNodesList isTempNode es = 0 →
    ∃ m, n ≤ m ∧ (transformExprListM safeTransform es (stdCtx n)).2 = stdCtx m ∧
      SweepInvList n m (transformExprListM safeTransform es (stdCtx n)).1
  | ExprList.nil, n, _ => by
      simp only [transformExprListM]
      exact ⟨n, le_refl n, rfl, sweepInvList_nil n n⟩
  | ExprList.cons e es, n, h => by
      rw [countNodesList] at h
      simp only [Nat.add_eq_zero] at h
      obtain ⟨m1, hle1, hctx1, hinv1⟩ := sweep_inv e n h.1
      simp only [transformExprListM]
      rw [hctx1]
      obtain ⟨m2, hle2, hctx2, hinv2⟩ := sweep_inv_list es m1 h.2
      rw [hctx2]
      exact ⟨m2, by omega, rfl, sweepInvList_cons _ _ n m1 m2 hinv1 hinv2 hle1 hle2⟩
end

mutual
/-- The ternary sweep neither creates nor destroys assignments of any id. -/
theorem tt_assign_eq (x : Nat) :
    ∀ e, countNodes (isAssignOf x) (transformExpr ternaryTransform e)
      = countNodes (isAssignOf x) e
  | Expr.literal v => by simp [transformExpr, ternaryTransform, countNodes, isAssignOf]
  | Expr.readVar n => by simp [transformExpr, ternaryTransform, countNodes, isAssignOf]
  | Expr.readTemporary y => by simp [transformExpr, ternaryTransform, countNodes, isAssignOf]
  | Expr.unary op e => by
      simp [transformExpr, ternaryTransform, countNodes, isAssignOf, tt_assign_eq x e]
  | Expr.binary op lhs rhs => by
      simp [transformExpr, ternaryTransform, countNodes, isAssignOf,
        tt_assign_eq x lhs, tt_assign_eq x rhs]
  | Expr.conditional c t fc => by
      simp [transformExpr, ternaryTransform, countNodes, isAssignOf,
        tt_assign_eq x c, tt_assign_eq x t, tt_assign_eq_opt x fc]
  | Expr.notExpr c => by
      simp [transformExpr, ternaryTransform, countNodes, isAssignOf, tt_assign_eq x c]
  | Expr.literalArray es => by
      simp [transformExpr, ternaryTransform, countNodes, isAssignOf, tt_assign_eq_list x es]
  | Expr.literalMap ks vs => by
      simp [transformExpr, ternaryTransform, countNodes, isAssignOf, tt_assign_eq_list x vs]
  | Expr.readProp r n => by
      simp [transformExpr, ternaryTransform, countNodes, isAssignOf, tt_assign_eq x r]
  | Expr.readKey r i => by
      simp [transformExpr, ternaryTransform, countNodes, isAssignOf,
        tt_assign_eq x r, tt_assign_eq x i]
  | Expr.invokeFn r as => by
      simp [transformExpr, ternaryTransform, countNodes, isAssignOf,
        tt_assign_eq x r, tt_assign_eq_list x as]
  | Expr.safePropertyRead r n => by
      simp [transformExpr, ternaryTransform, countNodes, isAssignOf, tt_assign_eq x r]
  | Expr.safeKeyedRead r i => by
      simp [transformExpr, ternaryTransform, countNodes, isAssignOf,
        tt_assign_eq x r, tt_assign_eq x i]
  | Expr.safeInvokeFn r as => by
      simp [transformExpr, ternaryTransform, countNodes, isAssignOf,
        tt_assign_eq x r, tt_assign_eq_list x as]
  | Expr.pipeBinding n as => by
      simp [transformExpr, ternaryTransform, countNodes, isAssignOf, tt_assign_eq_list x as]
  | Expr.assignTemporary e y => by
      simp [transformExpr, ternaryTransform, countNodes, isAssignOf, tt_assign_eq x e]
  | Expr.safeTernary g b => by
      simp [transformExpr, ternaryTransform, countNodes, countNodesOpt, isAssignOf,
        NULL_EXPR, tt_assign_eq x g, tt_assign_eq x b]

/-- Optional-child part of `tt_assign_eq`. -/
theorem tt_assign_eq_opt (x : Nat) :
    ∀ fc, countNodesOpt (isAssignOf x) (transformOptExpr ternaryTransform fc)
      = countNodesOpt (isAssignOf x) fc
  | OptExpr.none => rfl
  | OptExpr.some e => by simp [transformOptExpr, countNodesOpt, tt_assign_eq x e]

/-- List part of `tt_assign_eq`. -/
theorem tt_assign_eq_list (x : Nat) :
    ∀ es, countNodesList (isAssignOf x) (transformExprList ternaryTransform es)
      = countNodesList (isAssignOf x) es
  | ExprList.nil => rfl
  | ExprList.cons e es => by
      simp [transformExprList, countNodesList, tt_assign_eq x e, tt_assign_eq_list x es]
end

/-- The ternary sweep of an assignment's inner expression does not change
whether the assignment is defining (it maps a temporary read to itself and
never produces a bare temporary read from anything else). -/
theorem tt_preserves_defining (x y : Nat) (e : Expr) :
    isDefiningAssignOf x (Expr.assignTemporary (transformExpr ternaryTransform e) y)
      = isDefiningAssignOf x (Expr.assignTemporary e y) := by
  cases e <;> simp [transformExpr, ternaryTransform, isDefiningAssignOf]

mutual
/-- The ternary sweep neither creates nor destroys defining assignments of
any id. -/
theorem tt_def_eq (x : Nat) :
    ∀ e, countNodes (isDefiningAssignOf x) (transformExpr ternaryTransform e)
      = countNodes (isDefiningAssignOf x) e
  | Expr.literal v => by
      simp [transformExpr, ternaryTransform, countNodes, isDefiningAssignOf]
  | Expr.readVar n => by
      simp [transformExpr, ternaryTransform, countNodes, isDefiningAssignOf]
  | Expr.readTemporary y => by
      simp [transformExpr, ternaryTransform, countNodes, isDefiningAssignOf]
  | Expr.unary op e => by
      simp [transformExpr, ternaryTransform, countNodes, isDefiningAssignOf, tt_def_eq x e]
  | Expr.binary op lhs rhs => by
      simp [transformExpr, ternaryTransform, countNodes, isDefiningAssignOf,
        tt_def_eq x lhs, tt_def_eq x rhs]
  | Expr.conditional c t fc => by
      simp [transformExpr, ternaryTransform, countNodes, isDefiningAssignOf,
        tt_def_eq x c, tt_def_eq x t, tt_def_eq_opt x fc]
  | Expr.notExpr c => by
      simp [transformExpr, ternaryTransform, countNodes, isDefiningAssignOf, tt_def_eq x c]
  | Expr.literalArray es => by
      simp [transformExpr, ternaryTransform, countNodes, isDefiningAssignOf,
        tt_def_eq_list x es]
  | Expr.literalMap ks vs => by
      simp [transformExpr, ternaryTransform, countNodes, isDefiningAssignOf,
        tt_def_eq_list x vs]
  | Expr.readProp r n => by
      simp [transformExpr, ternaryTransform, countNodes, isDefiningAssignOf, tt_def_eq x r]
  | Expr.readKey r i => by
      simp [transformExpr, ternaryTransform, countNodes, isDefiningAssignOf,
        tt_def_eq x r, tt_def_eq x i]
  | Expr.invokeFn r as => by
      simp [transformExpr, ternaryTransform, countNodes, isDefiningAssignOf,
        tt_def_eq x r, tt_def_eq_list x as]
  | Expr.safePropertyRead r n => by
      simp [transformExpr, ternaryTransform, countNodes, isDefiningAssignOf, tt_def_eq x r]
  | Expr.safeKeyedRead r i => by
      simp [transformExpr, ternaryTransform, countNodes, isDefiningAssignOf,
        tt_def_eq x r, tt_def_eq x i]
  | Expr.safeInvokeFn r as => by
      simp [transformExpr, ternaryTransform, countNodes, isDefiningAssignOf,
        tt_def_eq x r, tt_def_eq_list x as]
  | Expr.pipeBinding n as => by
      simp [transformExpr, ternaryTransform, countNodes, isDefiningAssignOf,
        tt_def_eq_list x as]
  | Expr.assignTemporary e y => by
      have ih := tt_def_eq x e
      simp only [transformExpr, ternaryTransform, countNodes]
      rw [tt_preserves_defining x y e]
      omega
  | Expr.safeTernary g b => by
      simp [transformExpr, ternaryTransform, countNodes, countNodesOpt,
        isDefiningAssignOf, NULL_EXPR, tt_def_eq x g, tt_def_eq x b]

/-- Optional-child part of `tt_def_eq`. -/
theorem tt_def_eq_opt (x : Nat) :
    ∀ fc, countNodesOpt (isDefiningAssignOf x) (transformOptExpr ternaryTransform fc)
      = countNodesOpt (isDefiningAssignOf x) fc
  | OptExpr.none => rfl
  | OptExpr.some e => by simp [transformOptExpr, countNodesOpt, tt_def_eq x e]

/-- List part of `tt_def_eq`. -/
theorem tt_def_eq_list (x : Nat) :
    ∀ es, countNodesList (isDefiningAssignOf x) (transformExprList ternaryTransform es)
      = countNodesList (isDefiningAssignOf x) es
  | ExprList.nil => rfl
  | ExprList.cons e es => by
      simp [transformExprList, countNodesList, tt_def_eq x e, tt_def_eq_list x es]
end

/-- A defining assignment carries the matched id. -/
theorem isDefining_imp_eq (x y : Nat) (e2 : Expr)
    (h : isDefiningAssignOf x (Expr.assignTemporary e2 y) = true) : y = x := by
  cases e2 <;> simp [isDefiningAssignOf] at h <;> omega

mutual
/-- Across the mode correspondence, every defining assignment of the legacy
tree comes from an assignment of the standard tree with the same id: the
extra legacy self-assignments are never defining. -/
theorem defCount_le_modeRel (x : Nat) : ∀ s l, modeRel s l →
    countNodes (isDefiningAssignOf x) l ≤ countNodes (isAssignOf x) s
  | Expr.literal v, l, h => by
      rw [modeRel] at h
      subst h
      simp [countNodes, isDefiningAssignOf, isAssignOf]
  | Expr.readVar n, l, h => by
      rw [modeRel] at h
      subst h
      simp [countNodes, isDefiningAssignOf, isAssignOf]
  | Expr.readTemporary y, l, h => by
      rw [modeRel] at h
      rcases h with rfl | rfl
      · simp [countNodes, isDefiningAssignOf, isAssignOf]
      · simp [countNodes, isDefiningAssignOf, isAssignOf]
  | Expr.unary op e, l, h => by
      rw [modeRel] at h
      obtain ⟨e2, rfl, he⟩ := h
      have ih := defCount_le_modeRel x e e2 he
      simp only [countNodes, isDefiningAssignOf, isAssignOf, Bool.false_eq_true, if_false]
      omega
  | Expr.binary op lhs rhs, l, h => by
      rw [modeRel] at h
      obtain ⟨l2, r2, rfl, h1, h2⟩ := h
      have i1 := defCount_le_modeRel x lhs l2 h1
      have i2 := defCount_le_modeRel x rhs r2 h2
      simp only [countNodes, isDefiningAssignOf, isAssignOf, Bool.false_eq_true, if_false]
      omega
  | Expr.conditional c t fc, l, h => by
      rw [modeRel] at h
      obtain ⟨c2, t2, fc2, rfl, hc, ht, hfc⟩ := h
      have i1 := defCount_le_modeRel x c c2 hc
      have i2 := defCount_le_modeRel x t t2 ht
      have i3 := defCount_le_modeRel_opt x fc fc2 hfc
      simp only [countNodes, isDefiningAssignOf, isAssignOf, Bool.false_eq_true, if_false]
      omega
  | Expr.notExpr c, l, h => by
      rw [modeRel] at h
      obtain ⟨c2, rfl, hc⟩ := h
      have ih := defCount_le_modeRel x c c2 hc
      simp only [countNodes, isDefiningAssignOf, isAssignOf, Bool.false_eq_true, if_false]
      omega
  | Expr.literalArray es, l, h => by
      rw [modeRel] at h
      obtain ⟨es2, rfl, hes⟩ := h
      have ih := defCount_le_modeRel_list x es es2 hes
      simp only [countNodes, isDefiningAssignOf, isAssignOf, Bool.false_eq_true, if_false]
      omega
  | Expr.literalMap ks vs, l, h => by
      rw [modeRel] at h
      obtain ⟨vs2, rfl, hvs⟩ := h
      have ih := defCount_le_modeRel_list x vs vs2 hvs
      simp only [countNodes, isDefiningAssignOf, isAssignOf, Bool.false_eq_true, if_false]
      omega
  | Expr.readProp r n, l, h => by
      rw [modeRel] at h
      obtain ⟨r2, rfl, hr⟩ := h
      have ih := defCount_le_modeRel x r r2 hr
      simp only [countNodes, isDefiningAssignOf, isAssignOf, Bool.false_eq_true, if_false]
      omega
  | Expr.readKey r i, l, h => by
      rw [modeRel] at h
      obtain ⟨r2, i2, rfl, hr, hi⟩ := h
      have i1 := defCount_le_modeRel x r r2 hr
      have i2 := defCount_le_modeRel x i i2 hi
      simp only [countNodes, isDefiningAssignOf, isAssignOf, Bool.false_eq_true, if_false]
      omega
  | Expr.invokeFn r as, l, h => by
      rw [modeRel] at h
      obtain ⟨r2, as2, rfl, hr, has⟩ := h
      have i1 := defCount_le_modeRel x r r2 hr
      have i2 := defCount_le_modeRel_list x as as2 has
      simp only [countNodes, isDefiningAssignOf, isAssignOf, Bool.false_eq_true, if_false]
      omega
  | Expr.safePropertyRead r n, l, h => by
      rw [modeRel] at h
      obtain ⟨r2, rfl, hr⟩ := h
      have ih := defCount_le_modeRel x r r2 hr
      simp only [countNodes, isDefiningAssignOf, isAssignOf, Bool.false_eq_true, if_false]
      omega
  | Expr.safeKeyedRead r i, l, h => by
      rw [modeRel] at h
      obtain ⟨r2, i2, rfl, hr, hi⟩ := h
      have i1 := defCount_le_modeRel x r r2 hr
      have i2 := defCount_le_modeRel x i i2 hi
      simp only [countNodes, isDefiningAssignOf, isAssignOf, Bool.false_eq_true, if_false]
      omega
  | Expr.safeInvokeFn r as, l, h => by
      rw [modeRel] at h
      obtain ⟨r2, as2, rfl, hr, has⟩ := h
      have i1 := defCount_le_modeRel x r r2 hr
      have i2 := defCount_le_modeRel_list x as as2 has
      simp only [countNodes, isDefiningAssignOf, isAssignOf, Bool.false_eq_true, if_false]
      omega
  | Expr.pipeBinding n as, l, h => by
      rw [modeRel] at h
      obtain ⟨as2, rfl, has⟩ := h
      have ih := defCount_le_modeRel_list x as as2 has
      simp only [countNodes, isDefiningAssignOf, isAssignOf, Bool.false_eq_true, if_false]
      omega
  | Expr.assignTemporary e y, l, h => by
      rw [modeRel] at h
      obtain ⟨e2, rfl, he⟩ := h
      have ih := defCount_le_modeRel x e e2 he
      simp only [countNodes]
      by_cases hd : isDefiningAssignOf x (Expr.assignTemporary e2 y) = true
      · have hy : y = x := isDefining_imp_eq x y e2 hd
        have ha : isAssignOf x (Expr.assignTemporary e y) = true := by
          simp [isAssignOf, hy]
        rw [hd, ha]
        omega
      · simp only [Bool.not_eq_true] at hd
        rw [hd]
        simp only [Bool.false_eq_true, if_false]
        have hnd : (if isAssignOf x (Expr.assignTemporary e y) = true then 1 else 0)
            + countNodes (isAssignOf x) e
            ≥ countNodes (isAssignOf x) e := by omega
        omega
  | Expr.safeTernary g b, l, h => by
      rw [modeRel] at h
      obtain ⟨g2, b2, rfl, hg, hb⟩ := h
      have i1 := defCount_le_modeRel x g g2 hg
      have i2 := defCount_le_modeRel x b b2 hb
      simp only [countNodes, isDefiningAssignOf, isAssignOf, Bool.false_eq_true, if_false]
      omega

/-- Optional-child part of `defCount_le_modeRel`. -/
theorem defCount_le_modeRel_opt (x : Nat) : ∀ fc fc2, modeRelOpt fc fc2 →
    countNodesOpt (isDefiningAssignOf x) fc2 ≤ countNodesOpt (isAssignOf x) fc
  | OptExpr.none, fc2, h => by
      rw [modeRelOpt] at h
      subst h
      simp [countNodesOpt]
  | OptExpr.some e, fc2, h => by
      rw [modeRelOpt] at h
      obtain ⟨e2, rfl, he⟩ := h
      have ih := defCount_le_modeRel x e e2 he
      simp only [countNodesOpt]
      omega

/-- List part of `defCount_le_modeRel`. -/
theorem defCount_le_modeRel_list (x : Nat) : ∀ es es2, modeRelList es es2 →
    countNodesList (isDefiningAssignOf x) es2 ≤ countNodesList (isAssignOf x) es
  | ExprList.nil, es2, h => by
      rw [modeRelList] at h
      subst h
      simp [countNodesList]
  | ExprList.cons e es, l, h => by
      rw [modeRelList] at h
      obtain ⟨e2, es2, rfl, he, hes⟩ := h
      have i1 := defCount_le_modeRel x e e2 he
      have i2 := defCount_le_modeRel_list x es es2 hes
      simp only [countNodesList]
      omega
end

/-- C6 counterexample: in legacy (`TemplateDefinitionBuilder`) mode the pass
can leave more than one `assign-temporary` node per id, refuting "in either
compatibility mode at most one assign-temporary node referencing that id
exists".  On the temp-free input `a?.[f()?.b]?.c` the legacy output contains
two assignments of id `0`: the defining one and the non-defining
self-assignment the dedup quirk produces. -/
theorem c6_legacy_two_assignments :
    tempNodeCount chainDedup = 0 ∧
    assignTemporaryCount 0 (expandSafeReadsExpr chainDedup (legacyCtx 0)).1 = 2 :=
  ⟨rfl, rfl⟩

/-- C6 (amended): the single-definition invariant, per mode.  For a temp-free
input (the parser mints no temporaries), after the full pass each temporary
id has at most one `assign-temporary` node in standard mode, and at most one
*defining* `assign-temporary` node — one whose inner expression is not the
bare self-read of the same id — in legacy mode, whose outputs may carry
extra non-defining self-assignment wrappers around temporary reads. -/
theorem c6_single_definition (e : Expr) (h : tempNodeCount e = 0) (n x : Nat) :
    assignTemporaryCount x (expandSafeReadsExpr e (stdCtx n)).1 ≤ 1 ∧
    definingAssignCount x (expandSafeReadsExpr e (legacyCtx n)).1 ≤ 1 := by
  obtain ⟨m, hle, hctx, hinv⟩ := sweep_inv e n h
  have hstd := hinv.2.1 x
  constructor
  · show countNodes (isAssignOf x)
      (transformExpr ternaryTransform (transformExprM safeTransform e (stdCtx n)).1) ≤ 1
    rw [tt_assign_eq x]
    exact hstd
  · obtain ⟨hrel, m2, hS, hL⟩ := sweep_modeRel e e n (modeRel_refl e)
    have hd := defCount_le_modeRel x _ _ hrel
    show countNodes (isDefiningAssignOf x)
      (transformExpr ternaryTransform (transformExprM safeTransform e (legacyCtx n)).1) ≤ 1
    rw [tt_def_eq x]
    omega

/-- Closed witness for C6's amended theorem: the dedup example `a?.[f()?.b]?.c`
is temp-free, and with id 0 and counter 0 both modes satisfy their bound. -/
theorem c6_single_definition_witness :
    tempNodeCount chainDedup = 0 ∧
    (assignTemporaryCount 0 (expandSafeReadsExpr chainDedup (stdCtx 0)).1 ≤ 1 ∧
     definingAssignCount 0 (expandSafeReadsExpr chainDedup (legacyCtx 0)).1 ≤ 1) :=
  ⟨rfl, c6_single_definition chainDedup rfl 0 0⟩

end ExpandSafeReads
